import Mathlib

/-!
# Access-log response-time aggregator (`main.go`)

A shallow embedding of the classification and persistence pipeline of `main.go`
and of the library calls it makes, followed by theorems about it.

Conventions of the embedding

* A Go `string` is its sequence of bytes (`GoString`); `len` and every index
  count bytes, as in Go.
* Go `int` is the 64-bit two's-complement integer of the usual build targets;
  values are kept as `Int` and wrapped explicitly where the program does
  arithmetic on them.
* Channels are modelled by the sequence of values sent on them.
* Library functions (`strings`, `strconv`, `github.com/mgutz/str`, `time`,
  `github.com/shopspring/decimal`, the radix Redis client) are modelled by their
  documented behaviour; `net/url` is taken as a parameter.
* The program tests for a key with the command `EXIST`. `dataStorageStep` is the
  loop body on a store on which every command succeeds, where the command is the
  existence test (`cmdEXIST`); `dataStorageStepWith cmdEXISTRedis` is the loop body
  against a Redis server, which has no such command and replies with an error.
-/

namespace LogAnalysis

open List

/-! ## Go strings -/

/-- A Go string: an immutable sequence of bytes. -/
abbrev GoString := List UInt8

/-- The bytes of an ASCII literal. -/
def ascii (s : String) : GoString := s.toList.map (fun c => UInt8.ofNat c.toNat)

/-- Scan of `strings.Index`: the byte offset (counted from `i`) of the first
position at which `substr` starts, or -1 when there is none. -/
def stringsIndexFrom (substr : GoString) : GoString → Nat → Int
  | [], i => if substr = [] then (i : Int) else -1
  | c :: cs, i =>
    if substr.isPrefixOf (c :: cs) then (i : Int) else stringsIndexFrom substr cs (i + 1)

/-- Go `strings.Index(s, substr)`: index of the first instance of `substr` in
`s`, or -1 if `substr` is not present. -/
def stringsIndex (s substr : GoString) : Int := stringsIndexFrom substr s 0

/-- Function `IndexOf(s, needle, start)` of `github.com/mgutz/str`: the index of
`needle` in `s` searching from `start`, or -1. -/
def IndexOf (s needle : GoString) (start : Int) : Int :=
  let l : Int := s.length
  if needle = [] then
    if start < 0 then 0 else if start < l then start else l
  else if start < 0 ∨ start > l - 1 then -1
  else
    let pos := stringsIndex (s.drop start.toNat) needle
    if pos = -1 then -1 else start + pos

/-- Function `Substr(s, index, n)` of `github.com/mgutz/str`: the substring of
`s` that starts at `index` and has length `n`, clipped to the end of `s`; empty
when `index` is out of range or the clipped end does not lie after `index`. -/
def Substr (s : GoString) (index n : Int) : GoString :=
  let L : Int := s.length
  if index < 0 ∨ index ≥ L ∨ s = [] then []
  else
    let end0 := index + n
    let end1 := if end0 ≥ L then L else end0
    if end1 ≤ index then [] else (s.drop index.toNat).take (end1 - index).toNat

/-- UTF-8 encodings of the code points with the Unicode White_Space property,
the ones `unicode.IsSpace` accepts: U+0009..U+000D, U+0020, U+0085, U+00A0,
U+1680, U+2000..U+200A, U+2028, U+2029, U+202F, U+205F, U+3000. -/
def spaceRunes : List GoString :=
  [[9], [10], [11], [12], [13], [32], [0xC2, 0x85], [0xC2, 0xA0], [0xE1, 0x9A, 0x80],
   [0xE2, 0x80, 0x80], [0xE2, 0x80, 0x81], [0xE2, 0x80, 0x82], [0xE2, 0x80, 0x83],
   [0xE2, 0x80, 0x84], [0xE2, 0x80, 0x85], [0xE2, 0x80, 0x86], [0xE2, 0x80, 0x87],
   [0xE2, 0x80, 0x88], [0xE2, 0x80, 0x89], [0xE2, 0x80, 0x8A], [0xE2, 0x80, 0xA8],
   [0xE2, 0x80, 0xA9], [0xE2, 0x80, 0xAF], [0xE2, 0x81, 0x9F], [0xE3, 0x80, 0x80]]

/-- Removes leading white space, one rune at a time. -/
def trimLeftSpace : Nat → GoString → GoString
  | 0, s => s
  | fuel + 1, s =>
    match spaceRunes.find? (fun r => r.isPrefixOf s) with
    | some r => trimLeftSpace fuel (s.drop r.length)
    | none => s

/-- Removes trailing white space, one rune at a time; works on the reversed
string. -/
def trimRightSpaceRev : Nat → GoString → GoString
  | 0, s => s
  | fuel + 1, s =>
    match spaceRunes.find? (fun r => r.reverse.isPrefixOf s) with
    | some r => trimRightSpaceRev fuel (s.drop r.length)
    | none => s

/-- Go `strings.TrimSpace`: `s` without its leading and trailing white space. -/
def TrimSpace (s : GoString) : GoString :=
  let t := trimLeftSpace s.length s
  (trimRightSpaceRev t.length t.reverse).reverse

/-! ## strconv: integers -/

/-- The error of a `strconv` conversion: none, `ErrSyntax` or `ErrRange`. -/
inductive NumError where
  | ok
  | errSyntax
  | errRange
  deriving DecidableEq, Repr

/-- Digit loop of `strconv.ParseUint(s, 10, bitSize)`: a byte that is not a
decimal digit is a syntax error; the loop stops with `ErrRange` and the largest
value as soon as the number no longer fits in 64 bits or exceeds
`2^bitSize - 1`, without looking at the bytes that follow. -/
def parseUintLoop (bitSize : Nat) : GoString → Nat → Nat × NumError
  | [], n => (n, .ok)
  | c :: cs, n =>
    if c < 48 ∨ 57 < c then (0, .errSyntax)
    else if n ≥ (2 ^ 64 - 1) / 10 + 1 then (2 ^ bitSize - 1, .errRange)
    else
      let n1 := n * 10 + (c.toNat - 48)
      if n1 ≥ 2 ^ 64 ∨ n1 > 2 ^ bitSize - 1 then (2 ^ bitSize - 1, .errRange)
      else parseUintLoop bitSize cs n1

/-- Go `strconv.ParseUint(s, 10, bitSize)`. -/
def ParseUint (s : GoString) (bitSize : Nat) : Nat × NumError :=
  if s = [] then (0, .errSyntax) else parseUintLoop bitSize s 0

/-- Go `strconv.ParseInt(s, 10, bitSize)` for `bitSize` 32 or 64: an optional
sign, then `ParseUint`; a syntax error yields 0, a value out of range yields
the nearest bound together with `ErrRange`. -/
def ParseInt (s : GoString) (bitSize : Nat) : Int × NumError :=
  match s with
  | [] => (0, .errSyntax)
  | c :: cs =>
    let neg := c = 45
    let body := if c = 43 ∨ c = 45 then cs else c :: cs
    let r := ParseUint body bitSize
    if r.2 = .errSyntax then (0, .errSyntax)
    else
      let cutoff : Nat := 2 ^ (bitSize - 1)
      if ¬ neg ∧ r.1 ≥ cutoff then ((cutoff : Int) - 1, .errRange)
      else if neg ∧ r.1 > cutoff then (-(cutoff : Int), .errRange)
      else (if neg then -(r.1 : Int) else (r.1 : Int), .ok)

/-- Size in bits of Go `int`. -/
def intSize : Nat := 64

/-- Go `strconv.Atoi(s)`, which is `ParseInt(s, 10, 0)` converted to `int` (its
fast path for short inputs returns the same results). -/
def Atoi (s : GoString) : Int × NumError := ParseInt s intSize

/-- The decimal digits of `n`, most significant first, in front of `acc`. -/
def natDigits : Nat → Nat → GoString → GoString
  | 0, _, acc => acc
  | fuel + 1, n, acc =>
    if n < 10 then UInt8.ofNat (48 + n) :: acc
    else natDigits fuel (n / 10) (UInt8.ofNat (48 + n % 10) :: acc)

/-- Decimal rendering of a natural number. -/
def formatNat (n : Nat) : GoString := natDigits (n + 1) n []

/-- Go `strconv.FormatInt(i, 10)`. -/
def FormatInt (i : Int) : GoString :=
  if i < 0 then 45 :: formatNat i.natAbs else formatNat i.natAbs

/-- Go `strconv.Itoa(i)`. -/
def Itoa (i : Int) : GoString := FormatInt i

/-! ## The classifier: `cutLogFetchData`, `formatUrl`, `logConsumer` -/

def HANDLE_MOVIE : GoString := ascii "/movie/"

def HANDLE_LIST : GoString := ascii "/list/"

def HANDLE_HTML : GoString := ascii ".html"

/-- The beacon cut out of a log line. -/
structure urlData where
  url : GoString
  responseTime : GoString
  unTime : GoString
  deriving DecidableEq, Repr

/-- A classified hit. -/
structure urlNode where
  unType : GoString
  unRid : Int
  unUrl : GoString
  responseTime : GoString
  unTime : GoString
  deriving DecidableEq, Repr

/-- An update request for the store. -/
structure storageBlock where
  counterType : GoString
  storageModel : GoString
  unode : urlNode
  deriving DecidableEq, Repr

/-- Function `formatUrl` of `main.go`. -/
def formatUrl (url responseTime time : GoString) : urlNode :=
  let pos1 := IndexOf url HANDLE_MOVIE 0
  if pos1 ≠ -1 then
    let pos1 := pos1 + HANDLE_MOVIE.length
    let pos2 := IndexOf url HANDLE_HTML 0
    let idStr := Substr url pos1 (pos2 - pos1)
    let id := (Atoi idStr).1
    ⟨ascii "movie", id, url, responseTime, time⟩
  else
    let pos1 := IndexOf url HANDLE_LIST 0
    if pos1 ≠ -1 then
      let pos1 := pos1 + HANDLE_LIST.length
      let pos2 := IndexOf url HANDLE_HTML 0
      let idStr := Substr url pos1 (pos2 - pos1)
      let id := (Atoi idStr).1
      ⟨ascii "list", id, url, responseTime, time⟩
    else
      ⟨ascii "home", 1, url, responseTime, time⟩

/-- Function `cutLogFetchData` of `main.go`. The parameter `urlQuery` stands for
`net/url`: applied to a URL it is `none` when `url.Parse` fails and otherwise the
lookup `Query().Get` of the parsed URL. -/
def cutLogFetchData (urlQuery : GoString → Option (GoString → GoString))
    (logStr : GoString) : urlData :=
  let logStr := TrimSpace logStr
  let pos1 := IndexOf logStr (ascii "/dig?") 0
  if pos1 = -1 then ⟨[], [], []⟩
  else
    let pos1 := pos1 + (ascii "/dig?").length
    let pos2 := IndexOf logStr (ascii "HTTP/") pos1
    let d := Substr logStr pos1 (pos2 - pos1)
    match urlQuery (ascii "http://localhost/?" ++ d) with
    | none => ⟨[], [], []⟩
    | some data =>
      let pos3 := IndexOf logStr (ascii "`") 0
      let pos4 := IndexOf logStr (ascii "`") (pos3 + 1)
      let responseTime := Substr logStr pos4 pos3
      ⟨data (ascii "url"), responseTime, data (ascii "time")⟩

/-- The hit one iteration of `logConsumer` builds from a raw line. -/
def classify (urlQuery : GoString → Option (GoString → GoString)) (logStr : GoString) :
    urlNode :=
  let data := cutLogFetchData urlQuery logStr
  formatUrl data.url data.responseTime data.unTime

/-- Function `logConsumer` of `main.go`, run on the lines received from
`logChannel`: the hits it sends on `maxCounter` and on `avgCounter`, in order. -/
def logConsumer (urlQuery : GoString → Option (GoString → GoString)) :
    List GoString → List urlNode × List urlNode
  | [] => ([], [])
  | logStr :: rest =>
    let uData := classify urlQuery logStr
    let out := logConsumer urlQuery rest
    (uData :: out.1, uData :: out.2)

/-- Function `maxCounter` of `main.go`: every hit received is forwarded as a
"max" request. -/
def maxCounter (hits : List urlNode) : List storageBlock :=
  hits.map (fun data => ⟨ascii "max", ascii "SET", data⟩)

/-- Function `avgCounter` of `main.go`: every hit received is forwarded as an
"avg" request. -/
def avgCounter (hits : List urlNode) : List storageBlock :=
  hits.map (fun data => ⟨ascii "avg", ascii "SET", data⟩)

/-- The id segment `formatUrl` cuts out of `url` for the marker `handle`: the
bytes from the end of the first `handle` up to the first ".html" of `url`. -/
def idSegment (url handle : GoString) : GoString :=
  Substr url (IndexOf url handle 0 + handle.length)
    (IndexOf url HANDLE_HTML 0 - (IndexOf url handle 0 + handle.length))

/-- The hit `logConsumer` emits for a line from which no beacon was cut. -/
def emptyHomeHit : urlNode := ⟨ascii "home", 1, [], [], []⟩

/-! ## time: `getTime` -/

/-- A reading of the wall clock: the civil fields of `time.Now()` in the local
time zone (a valid date with a four-digit year). -/
structure Clock where
  year : Nat
  month : Nat
  day : Nat
  hour : Nat
  minute : Nat
  second : Nat
  deriving DecidableEq, Repr

/-- Days from 1970-01-01 to the civil date `y`-`m`-`d` of the proleptic Gregorian
calendar. -/
def daysFromCivil (y m d : Nat) : Int :=
  let y' : Int := if m ≤ 2 then (y : Int) - 1 else (y : Int)
  let era : Int := y' / 400
  let yoe : Int := y' - era * 400
  let mp : Int := ((m : Int) + 9) % 12
  let doy : Int := (153 * mp + 2) / 5 + (d : Int) - 1
  let doe : Int := yoe * 365 + yoe / 4 - yoe / 100 + doy
  era * 146097 + doe - 719468

/-- Go `t.Unix()` of the civil time `t` read as UTC. -/
def Clock.Unix (t : Clock) : Int :=
  daysFromCivil t.year t.month t.day * 86400 + (t.hour : Int) * 3600 + (t.minute : Int) * 60
    + (t.second : Int)

/-- The time `time.Parse(item, now.Format(item))` for the layouts of `getTime`:
the fields of `now` that the layout prints, the other fields zero, read as UTC.
The layout "2006-01-02 15:09" prints no minute ("09" is no layout element, it is
copied as text). A year of more than four digits does not parse back, and the
result is then the zero time, January 1 of year 1. The empty layout prints and
parses the empty text, for which `time.Parse` returns January 1 of year 0. -/
def reparse (now : Clock) (item : GoString) : Clock :=
  if item = ascii "2006-01-02" ∨ item = ascii "2006-01-02 15" ∨
      item = ascii "2006-01-02 15:09" then
    if now.year > 9999 then ⟨1, 1, 1, 0, 0, 0⟩
    else if item = ascii "2006-01-02" then ⟨now.year, now.month, now.day, 0, 0, 0⟩
    else ⟨now.year, now.month, now.day, now.hour, 0, 0⟩
  else ⟨0, 1, 1, 0, 0, 0⟩

set_option linter.unusedVariables false in
/-- Function `getTime` of `main.go`; `now` is the reading `time.Now()` returns
inside the call. The argument `logTime` is not used by the function. -/
def getTime (now : Clock) (logTime timeType : GoString) : GoString :=
  let item : GoString :=
    if timeType = ascii "day" then ascii "2006-01-02"
    else if timeType = ascii "hour" then ascii "2006-01-02 15"
    else if timeType = ascii "min" then ascii "2006-01-02 15:09"
    else []
  let t := reparse now item
  FormatInt t.Unix

/-! ## float64

A finite `float64` is kept as `m * 2^e` with `m` odd, or `m = 0` and `e = 0`; the
sign of zero is not represented. -/

/-- A `float64` value. -/
inductive F64 where
  | fin (m : Int) (e : Int)
  | inf (neg : Bool)
  | nan
  deriving DecidableEq, Repr

/-- Binary length of `n`, by halving. -/
def bitLenAux : Nat → Nat → Nat
  | 0, _ => 0
  | fuel + 1, n => if n = 0 then 0 else bitLenAux fuel (n / 2) + 1

/-- Number of binary digits of `n`; 0 for 0. -/
def bitLen (n : Nat) : Nat := bitLenAux n n

/-- Moves the factors 2 of the mantissa into the exponent. -/
def normAux : Nat → Nat → Int → Nat × Int
  | 0, m, e => (m, e)
  | fuel + 1, m, e => if m % 2 = 0 ∧ m ≠ 0 then normAux fuel (m / 2) (e + 1) else (m, e)

/-- The finite value `± m * 2^e` in normal form. -/
def F64.mk (neg : Bool) (m : Nat) (e : Int) : F64 :=
  if m = 0 then .fin 0 0
  else
    let r := normAux m m e
    .fin (if neg then -(r.1 : Int) else (r.1 : Int)) r.2

/-- The integer nearest to `num / den`, ties to the even one. -/
def roundHalfEven (num den : Nat) : Nat :=
  let q := num / den
  let r := num % den
  if 2 * r < den then q
  else if den < 2 * r then q + 1
  else if q % 2 = 0 then q else q + 1

/-- IEEE 754 binary64 rounding (to nearest, ties to even) of `± num / den`, for
`den > 0`: 53 significant bits, least exponent -1074, infinite from 2^1024 on
after rounding. -/
def F64.round (neg : Bool) (num den : Nat) : F64 :=
  if num = 0 then .fin 0 0
  else
    let L : Int := (bitLen num : Int) - (bitLen den : Int)
    let ge : Bool := den * 2 ^ L.toNat ≤ num * 2 ^ (-L).toNat
    let lg : Int := if ge then L else L - 1
    let e : Int := max (lg - 52) (-1074)
    let m : Nat := roundHalfEven (num * 2 ^ (-e).toNat) (den * 2 ^ e.toNat)
    if (bitLen m : Int) + e > 1024 then .inf neg else F64.mk neg m e

/-- Addition of `float64` values. -/
def F64.add (x y : F64) : F64 :=
  match x, y with
  | .nan, _ => .nan
  | _, .nan => .nan
  | .inf a, .inf b => if a = b then .inf a else .nan
  | .inf a, .fin _ _ => .inf a
  | .fin _ _, .inf b => .inf b
  | .fin m1 e1, .fin m2 e2 =>
    let e := min e1 e2
    let s : Int := m1 * 2 ^ (e1 - e).toNat + m2 * 2 ^ (e2 - e).toNat
    F64.round (decide (s < 0)) (s.natAbs * 2 ^ e.toNat) (2 ^ (-e).toNat)

/-- Conversion `float64(n)` of an integer. -/
def F64.ofInt (n : Int) : F64 := F64.round (decide (n < 0)) n.natAbs 1

/-- ASCII lower case of a byte. -/
def lower (c : UInt8) : UInt8 := if 65 ≤ c ∧ c ≤ 90 then c + 32 else c

/-- Reads a run of decimal digits: the value accumulated onto `v`, the number of
digits read added to `k`, and the rest of the input. -/
def readDigits : GoString → Nat → Nat → Nat × Nat × GoString
  | [], v, k => (v, k, [])
  | c :: cs, v, k =>
    if 48 ≤ c ∧ c ≤ 57 then readDigits cs (v * 10 + (c.toNat - 48)) (k + 1)
    else (v, k, c :: cs)

/-- Exponent digits of a floating-point literal; as in `strconv`, the exponent is
no longer accumulated once it has reached 10000. -/
def readExp : GoString → Nat → Nat
  | [], v => v
  | c :: cs, v => readExp cs (if v < 10000 then v * 10 + (c.toNat - 48) else v)

/-- Whether the bytes are decimal digits, at least one. -/
def allDigits (s : GoString) : Bool := s ≠ [] ∧ s.all (fun c => 48 ≤ c ∧ c ≤ 57)

/-- Decimal floating-point literal of `strconv` (`readFloat`): optional sign,
digits with at most one point and at least one digit, optional exponent `e` or
`E` with optional sign and at least one digit. The result is the sign, the
mantissa and the power of ten. -/
def parseDecimal (s : GoString) : Option (Bool × Nat × Int) :=
  match s with
  | [] => none
  | c :: cs =>
    let neg : Bool := c = 45
    let body := if c = 43 ∨ c = 45 then cs else c :: cs
    let r1 := readDigits body 0 0
    let r2 := match r1.2.2 with
      | 46 :: t => readDigits t r1.1 0
      | rest => (r1.1, 0, rest)
    if r1.2.1 + r2.2.1 = 0 then none
    else
      match r2.2.2 with
      | [] => some (neg, r2.1, -(r2.2.1 : Int))
      | x :: t =>
        if x = 101 ∨ x = 69 then
          match t with
          | [] => none
          | y :: u =>
            let ds := if y = 43 ∨ y = 45 then u else y :: u
            if allDigits ds then
              some (neg, r2.1,
                (if y = 45 then -(readExp ds 0 : Int) else (readExp ds 0 : Int)) - (r2.2.1 : Int))
            else none
        else none

/-- Go `strconv.ParseFloat(s, 64)`: the names of the infinities and of NaN in any
letter case, otherwise a decimal literal, rounded to the nearest `float64`. A
malformed input yields 0 with `ErrSyntax`, a value that rounds to an infinity
yields that infinity with `ErrRange`. (Hexadecimal literals and digit separators,
accepted from Go 1.13 on, are not modelled.) -/
def ParseFloat (s : GoString) : F64 × NumError :=
  let l := s.map lower
  if l = ascii "+inf" ∨ l = ascii "+infinity" ∨ l = ascii "inf" ∨ l = ascii "infinity" then
    (.inf false, .ok)
  else if l = ascii "-inf" ∨ l = ascii "-infinity" then (.inf true, .ok)
  else if l = ascii "nan" then (.nan, .ok)
  else
    match parseDecimal s with
    | none => (.fin 0 0, .errSyntax)
    | some (neg, mant, ex) =>
      match F64.round neg (mant * 10 ^ ex.toNat) (10 ^ (-ex).toNat) with
      | .inf b => (.inf b, .errRange)
      | f => (f, .ok)

/-! ## github.com/shopspring/decimal

The repository does not pin a release of the package. In every release
`NewFromFloat` yields the shortest decimal that converts back to the float, `Div`
rounds the quotient at `DivisionPrecision` = 16 decimal places, and `NewFromFloat`
(on an infinity or NaN) and a division by zero panic. `NewFromString` follows the
releases up to 1.1: the trailing zeros of the fraction are dropped before the digits
are read and the exponent is bounded by 32 bits only; later releases keep the zeros
and reject exponents beyond their own bound, and give the same number for the
literals both accept. -/

/-- A `decimal.Decimal`: the number `value * 10^exp`. -/
structure Decimal where
  value : Int
  exp : Int
  deriving DecidableEq, Repr

/-- Whether `10^k ≤ m * 2^e`. -/
def pow10Le (k : Int) (m : Nat) (e : Int) : Bool :=
  10 ^ k.toNat * 2 ^ (-e).toNat ≤ m * 2 ^ e.toNat * 10 ^ (-k).toNat

/-- The decimal exponent of the leading digit of `m * 2^e`, for `m > 0`. -/
def log10Floor (m : Nat) (e : Int) : Int :=
  let lg2 : Int := (bitLen m : Int) - 1 + e
  let est : Int := lg2 * 30103 / 100000
  let d1 : Int := if pow10Le est m e then est else est - 1
  if pow10Le (d1 + 1) m e then d1 + 1 else d1

/-- Whether the decimal `c * 10^k` rounds to the float `m * 2^e`. -/
def roundsTo (c : Nat) (k : Int) (m : Nat) (e : Int) : Bool :=
  F64.round false (c * 10 ^ k.toNat) (10 ^ (-k).toNat) = F64.mk false m e

/-- Search for the shortest decimal that rounds to `m * 2^e`: with `p` significant
digits, the decimals just below and just above the value are tried; when both
round to the float the nearer is taken (ties to the even digit). -/
def shortestAux (m : Nat) (e : Int) (dexp : Int) : Nat → Nat → Option Decimal
  | 0, _ => none
  | fuel + 1, p =>
    let k : Int := dexp - (p : Int) + 1
    let num := m * 2 ^ e.toNat * 10 ^ (-k).toNat
    let den := 2 ^ (-e).toNat * 10 ^ k.toNat
    let lo := num / den
    let okdown := roundsTo lo k m e
    let okup := roundsTo (lo + 1) k m e
    if okdown ∧ okup then some ⟨(roundHalfEven num den : Nat), k⟩
    else if okdown then some ⟨(lo : Nat), k⟩
    else if okup then some ⟨((lo + 1 : Nat) : Int), k⟩
    else shortestAux m e dexp fuel (p + 1)

/-- Go `decimal.NewFromFloat(value)`: the decimal with the fewest digits that
converts back to `value`, as `strconv.FormatFloat(value, 'f', -1, 64)` prints it;
`none` stands for the panic on an infinity or NaN. -/
def NewFromFloat : F64 → Option Decimal
  | .nan => none
  | .inf _ => none
  | .fin m e =>
    if m = 0 then some ⟨0, 0⟩
    else
      let d : Decimal :=
        match shortestAux m.natAbs e (log10Floor m.natAbs e) 17 1 with
        | some d => d
        | none => ⟨(m.natAbs * 2 ^ e.toNat * 5 ^ (-e).toNat : Nat), min e 0⟩
      some ⟨if m < 0 then -d.value else d.value, d.exp⟩

/-- Go `strings.IndexAny(value, "Ee")` as a split: the bytes before the first `e`
or `E`, and the bytes after it when there is one. -/
def splitAtExp : GoString → GoString × Option GoString
  | [] => ([], none)
  | c :: cs =>
    if c = 101 ∨ c = 69 then ([], some cs)
    else ((c :: (splitAtExp cs).1), (splitAtExp cs).2)

/-- Go `strings.Split(value, ".")`. -/
def splitDots : GoString → List GoString
  | [] => [[]]
  | c :: cs =>
    match splitDots cs with
    | [] => [[c]]
    | p :: ps => if c = 46 then [] :: p :: ps else (c :: p) :: ps

/-- Go `strings.TrimRight(s, "0")`, on the reversed string. -/
def dropZeros : GoString → GoString
  | [] => []
  | c :: cs => if c = 48 then dropZeros cs else c :: cs

/-- The method `SetString(s, 10)` of `big.Int`: an optional sign followed by
decimal digits, at least one. -/
def bigIntOfString (s : GoString) : Option Int :=
  match s with
  | [] => none
  | c :: cs =>
    let body := if c = 43 ∨ c = 45 then cs else c :: cs
    if allDigits body then
      some (if c = 45 then -((readDigits body 0 0).1 : Int) else ((readDigits body 0 0).1 : Int))
    else none

/-- Go `decimal.NewFromString(value)`; `none` stands for the error. -/
def NewFromString (value : GoString) : Option Decimal :=
  let sp := splitAtExp value
  let ex : Option Int :=
    match sp.2 with
    | none => some 0
    | some t => if (ParseInt t 32).2 = .ok then some (ParseInt t 32).1 else none
  match ex with
  | none => none
  | some exp0 =>
    match splitDots sp.1 with
    | [intPart] =>
      (bigIntOfString intPart).bind (fun v =>
        if exp0 < -2147483648 ∨ exp0 > 2147483647 then none else some ⟨v, exp0⟩)
    | [intPart, fracPart] =>
      let decimalPart := (dropZeros fracPart.reverse).reverse
      (bigIntOfString (intPart ++ decimalPart)).bind (fun v =>
        let exp1 := exp0 - (decimalPart.length : Int)
        if exp1 < -2147483648 ∨ exp1 > 2147483647 then none else some ⟨v, exp1⟩)
    | _ => none

/-- Go `d.Cmp(d2)`: -1, 0 or 1 as `d` is less than, equal to or greater than
`d2`, compared at the smaller of the two exponents. -/
def Decimal.Cmp (d d2 : Decimal) : Int :=
  let e := min d.exp d2.exp
  let a := d.value * 10 ^ (d.exp - e).toNat
  let b := d2.value * 10 ^ (d2.exp - e).toNat
  if a < b then -1 else if a = b then 0 else 1

/-- Go `d.Add(d2)`. -/
def Decimal.Add (d d2 : Decimal) : Decimal :=
  let e := min d.exp d2.exp
  ⟨d.value * 10 ^ (d.exp - e).toNat + d2.value * 10 ^ (d2.exp - e).toNat, e⟩

/-- Go `d.Sub(d2)`. -/
def Decimal.Sub (d d2 : Decimal) : Decimal :=
  let e := min d.exp d2.exp
  ⟨d.value * 10 ^ (d.exp - e).toNat - d2.value * 10 ^ (d2.exp - e).toNat, e⟩

/-- Go `d.QuoRem(d2, precision)`: quotient truncated at `precision` decimal
places, and remainder; `none` stands for the panic on a zero divisor or on an
exponent outside 32 bits. -/
def Decimal.QuoRem (d d2 : Decimal) (precision : Int) : Option (Decimal × Decimal) :=
  if d2.value = 0 then none
  else
    let scale := -precision
    let e := d.exp - d2.exp - scale
    if e > 2147483647 ∨ e < -2147483648 then none
    else if e < 0 then
      let aa := d.value
      let bb := d2.value * 10 ^ (-e).toNat
      some (⟨Int.tdiv aa bb, scale⟩, ⟨Int.tmod aa bb, d.exp⟩)
    else
      let aa := d.value * 10 ^ e.toNat
      let bb := d2.value
      some (⟨Int.tdiv aa bb, scale⟩, ⟨Int.tmod aa bb, scale + d2.exp⟩)

/-- Go `d.DivRound(d2, precision)`: the quotient rounded at `precision` decimal
places, halves away from zero. -/
def Decimal.DivRound (d d2 : Decimal) (precision : Int) : Option Decimal :=
  match d.QuoRem d2 precision with
  | none => none
  | some (q, r) =>
    let r2 : Decimal := ⟨(r.value.natAbs : Int) * 2, r.exp + precision⟩
    let c := r2.Cmp ⟨(d2.value.natAbs : Int), d2.exp⟩
    if c < 0 then some q
    else if d.value.sign * d2.value.sign < 0 then some (q.Sub ⟨1, -precision⟩)
    else some (q.Add ⟨1, -precision⟩)

/-- The package variable `decimal.DivisionPrecision`. -/
def DivisionPrecision : Int := 16

/-- Go `d.Div(d2)`. -/
def Decimal.Div (d d2 : Decimal) : Option Decimal := d.DivRound d2 DivisionPrecision

/-- Go `d.String()`: plain decimal notation without trailing zeros in the
fraction. -/
def Decimal.String (d : Decimal) : GoString :=
  if d.exp ≥ 0 then FormatInt (d.value * 10 ^ d.exp.toNat)
  else
    let str := formatNat d.value.natAbs
    let n := (-d.exp).toNat
    let intPart := if str.length > n then str.take (str.length - n) else ascii "0"
    let fractionalPart :=
      if str.length > n then str.drop (str.length - n)
      else List.replicate (n - str.length) 48 ++ str
    let fractionalPart := (dropZeros fractionalPart.reverse).reverse
    let number := if fractionalPart.length > 0 then intPart ++ ascii "." ++ fractionalPart
      else intPart
    if d.value < 0 then ascii "-" ++ number else number

/-! ## `FloatCompare` -/

/-- A Go `interface{}` value as `FloatCompare` tells them apart. -/
inductive Iface where
  | float64 (f : F64)
  | string (s : GoString)
  | other
  deriving DecidableEq, Repr

/-- Function `FloatCompare` of `main.go`: the pair of `n` and whether `err` is
non-nil; `none` stands for a panic inside `decimal.NewFromFloat`. -/
def FloatCompare (f1 f2 : Iface) : Option (Int × Bool) :=
  match f1 with
  | .float64 x =>
    match NewFromFloat x with
    | none => none
    | some f1Dec =>
      match f2 with
      | .float64 y =>
        match NewFromFloat y with
        | none => none
        | some f2Dec => some (f1Dec.Cmp f2Dec, false)
      | .string s =>
        match NewFromString s with
        | none => some (2, true)
        | some f2Dec => some (f1Dec.Cmp f2Dec, false)
      | .other => some (2, true)
  | .string s =>
    match NewFromString s with
    | none => some (2, true)
    | some f1Dec =>
      match f2 with
      | .float64 y =>
        match NewFromFloat y with
        | none => none
        | some f2Dec => some (f1Dec.Cmp f2Dec, false)
      | .string s2 =>
        match NewFromString s2 with
        | none => some (2, true)
        | some f2Dec => some (f1Dec.Cmp f2Dec, false)
      | .other => some (2, true)
  | .other => some (2, true)

/-! ## The store and `dataStorage` -/

/-- A value held by the store. The client writes a string as it is, an `int` in
decimal and a `float64` with `strconv.FormatFloat(v, 'f', -1, 64)`, the shortest
decimal that parses back to `v`; a float written is kept as `float`, so that
reading it back with `Float64` returns it. -/
inductive Val where
  | str (s : GoString)
  | float (f : F64)
  deriving DecidableEq, Repr

/-- The store: a map from keys to values on which every command succeeds. -/
abbrev Store := GoString → Option Val

/-- The store without any key. -/
def emptyStore : Store := fun _ => none

/-- Command `SET key value`. -/
def cmdSET (redis : Store) (key : GoString) (v : Val) : Store :=
  fun k => if k = key then some v else redis k

/-- Command `GET key`: the value, or the nil reply. -/
def cmdGET (redis : Store) (key : GoString) : Option Val := redis key

/-- Command `SETNX key value` with its integer reply: 1 when the key was set, 0
when it existed and was left alone. -/
def cmdSETNX (redis : Store) (key : GoString) (v : Val) : Store × Int :=
  match redis key with
  | none => (cmdSET redis key v, 1)
  | some _ => (redis, 0)

/-- The existence test the program sends as `EXIST key`, on a store on which
every command succeeds: 1 when the key exists, 0 otherwise (such a store serves the
command under this name). -/
def cmdEXIST (redis : Store) (key : GoString) : Int :=
  match redis key with
  | none => 0
  | some _ => 1

/-- What the program reads from a Redis server for `EXIST key`: the server has no
command of this name (its existence test is `EXISTS`) and replies with an error,
the method `Int()` of the client yields 0 for an error reply, and the program drops
the error. -/
def cmdEXISTRedis : Store → GoString → Int := fun _ _ => 0

/-- Method `Float64()` of a reply of the radix client, the error dropped: the
float parsed from a string reply, and 0 for a nil reply or when parsing fails. -/
def respFloat64 : Option Val → F64
  | none => .fin 0 0
  | some (.float f) => f
  | some (.str s) => if (ParseFloat s).2 = .ok then (ParseFloat s).1 else .fin 0 0

/-- Method `Int()` of a reply of the radix client, the error dropped: the integer
parsed from a string reply, and 0 for a nil reply or when parsing fails. -/
def respInt : Option Val → Int
  | none => 0
  | some (.str s) => if (ParseInt s 64).2 = .ok then (ParseInt s 64).1 else 0
  | some (.float (.fin m e)) =>
    if 0 ≤ e ∧ e ≤ 63 ∧ -2 ^ 63 ≤ m * 2 ^ e.toNat ∧ m * 2 ^ e.toNat < 2 ^ 63 then m * 2 ^ e.toNat
    else 0
  | some (.float _) => 0

/-- Two's-complement wrap of an integer to the 64-bit `int`. -/
def wrapInt (n : Int) : Int := (n + 2 ^ 63) % 2 ^ 64 - 2 ^ 63

/-- The state in which one iteration of `dataStorage` leaves the store, and
whether the iteration ended in a panic. -/
structure Outcome where
  store : Store
  panicked : Bool

/-- One iteration of the loop of `dataStorage` in `main.go`, for the request
`block`, on a store on which every command succeeds (`EXIST` is read by
`cmdEXIST`); `now` is the clock reading of its call of `getTime`. -/
def dataStorageStep (now : Clock) (redisPool : Store) (block : storageBlock) : Outcome :=
  if block.counterType = ascii "avg" then
    let rowId := block.unode.unRid
    let urType := block.unode.unType
    let sumkey := ascii "sum_" ++ ascii "day_" ++ getTime now block.unode.unTime (ascii "day")
      ++ urType ++ Itoa rowId
    let r := cmdSETNX redisPool sumkey (.str block.unode.responseTime)
    let res := r.2
    let redis1 :=
      if res = 0 then
        let sum := respFloat64 (cmdGET r.1 sumkey)
        let responseTime := (ParseFloat block.unode.responseTime).1
        let sum := F64.add sum responseTime
        cmdSET r.1 sumkey (.float sum)
      else r.1
    let sum := respFloat64 (cmdGET redis1 sumkey)
    let countkey := ascii "count_" ++ urType ++ ascii "_" ++ Itoa rowId
    let avgkey := ascii "avg_" ++ urType ++ ascii "_" ++ Itoa rowId
    let exist := cmdEXIST redis1 countkey
    if exist = 0 then
      let redis2 := cmdSET redis1 countkey (.str (Itoa 1))
      ⟨cmdSET redis2 avgkey (.str block.unode.responseTime), false⟩
    else
      let count := respInt (cmdGET redis1 countkey)
      let redis2 := cmdSET redis1 countkey (.str (Itoa (wrapInt (count + 1))))
      match NewFromFloat sum with
      | none => ⟨redis2, true⟩
      | some sumDec =>
        match NewFromFloat (F64.ofInt (wrapInt (count + 1))) with
        | none => ⟨redis2, true⟩
        | some countDec =>
          match sumDec.Div countDec with
          | none => ⟨redis2, true⟩
          | some div => ⟨cmdSET redis2 avgkey (.str div.String), false⟩
  else if block.counterType = ascii "max" then
    let rowId := block.unode.unRid
    let urType := block.unode.unType
    let responseTime := block.unode.responseTime
    let maxkey := ascii "max_" ++ ascii "day_" ++ getTime now block.unode.unTime (ascii "day")
      ++ urType ++ Itoa rowId
    let exist := cmdEXIST redisPool maxkey
    if exist = 0 then ⟨cmdSET redisPool maxkey (.str responseTime), false⟩
    else
      let maxtime := respFloat64 (cmdGET redisPool maxkey)
      let resp := (ParseFloat responseTime).1
      match FloatCompare (.float64 maxtime) (.float64 resp) with
      | none => ⟨redisPool, true⟩
      | some (compare, _) =>
        if compare = -1 then ⟨cmdSET redisPool maxkey (.float maxtime), false⟩
        else ⟨redisPool, false⟩
  else ⟨redisPool, false⟩

/-- Function `dataStorage` of `main.go`, run on the requests received from
`storageChannel`, each paired with the clock reading at which it is handled: the
loop handles them in order and stops at a panic. -/
def dataStorage : List (Clock × storageBlock) → Store → Outcome
  | [], redisPool => ⟨redisPool, false⟩
  | (now, block) :: rest, redisPool =>
    let o := dataStorageStep now redisPool block
    if o.panicked then o else dataStorage rest o.store

/-- One iteration of the loop of `dataStorage` in `main.go` with the reading of the
replies to `EXIST` as a parameter `reply`: `dataStorageStep` is the case of a store
that serves the command (`cmdEXIST`), and `cmdEXISTRedis` is the reading the program
gets from a Redis server. -/
def dataStorageStepWith (reply : Store → GoString → Int) (now : Clock) (redisPool : Store)
    (block : storageBlock) : Outcome :=
  if block.counterType = ascii "avg" then
    let rowId := block.unode.unRid
    let urType := block.unode.unType
    let sumkey := ascii "sum_" ++ ascii "day_" ++ getTime now block.unode.unTime (ascii "day")
      ++ urType ++ Itoa rowId
    let r := cmdSETNX redisPool sumkey (.str block.unode.responseTime)
    let res := r.2
    let redis1 :=
      if res = 0 then
        let sum := respFloat64 (cmdGET r.1 sumkey)
        let responseTime := (ParseFloat block.unode.responseTime).1
        let sum := F64.add sum responseTime
        cmdSET r.1 sumkey (.float sum)
      else r.1
    let sum := respFloat64 (cmdGET redis1 sumkey)
    let countkey := ascii "count_" ++ urType ++ ascii "_" ++ Itoa rowId
    let avgkey := ascii "avg_" ++ urType ++ ascii "_" ++ Itoa rowId
    let exist := reply redis1 countkey
    if exist = 0 then
      let redis2 := cmdSET redis1 countkey (.str (Itoa 1))
      ⟨cmdSET redis2 avgkey (.str block.unode.responseTime), false⟩
    else
      let count := respInt (cmdGET redis1 countkey)
      let redis2 := cmdSET redis1 countkey (.str (Itoa (wrapInt (count + 1))))
      match NewFromFloat sum with
      | none => ⟨redis2, true⟩
      | some sumDec =>
        match NewFromFloat (F64.ofInt (wrapInt (count + 1))) with
        | none => ⟨redis2, true⟩
        | some countDec =>
          match sumDec.Div countDec with
          | none => ⟨redis2, true⟩
          | some div => ⟨cmdSET redis2 avgkey (.str div.String), false⟩
  else if block.counterType = ascii "max" then
    let rowId := block.unode.unRid
    let urType := block.unode.unType
    let responseTime := block.unode.responseTime
    let maxkey := ascii "max_" ++ ascii "day_" ++ getTime now block.unode.unTime (ascii "day")
      ++ urType ++ Itoa rowId
    let exist := reply redisPool maxkey
    if exist = 0 then ⟨cmdSET redisPool maxkey (.str responseTime), false⟩
    else
      let maxtime := respFloat64 (cmdGET redisPool maxkey)
      let resp := (ParseFloat responseTime).1
      match FloatCompare (.float64 maxtime) (.float64 resp) with
      | none => ⟨redisPool, true⟩
      | some (compare, _) =>
        if compare = -1 then ⟨cmdSET redisPool maxkey (.float maxtime), false⟩
        else ⟨redisPool, false⟩
  else ⟨redisPool, false⟩

/-- Function `dataStorage` of `main.go` with the reading of the replies to `EXIST`
as a parameter. -/
def dataStorageWith (reply : Store → GoString → Int) :
    List (Clock × storageBlock) → Store → Outcome
  | [], redisPool => ⟨redisPool, false⟩
  | (now, block) :: rest, redisPool =>
    let o := dataStorageStepWith reply now redisPool block
    if o.panicked then o else dataStorageWith reply rest o.store

/-! ## Names used in the statements -/

/-- The key under which an "avg" request for the hit `u`, handled at clock reading
`now`, keeps the running sum. -/
def sumKey (now : Clock) (u : urlNode) : GoString :=
  ascii "sum_" ++ ascii "day_" ++ getTime now u.unTime (ascii "day") ++ u.unType ++ Itoa u.unRid

/-- The key under which a "max" request for the hit `u`, handled at clock reading
`now`, keeps the running maximum. -/
def maxKey (now : Clock) (u : urlNode) : GoString :=
  ascii "max_" ++ ascii "day_" ++ getTime now u.unTime (ascii "day") ++ u.unType ++ Itoa u.unRid

/-- The key of the update count of a resource. -/
def countKey (urType : GoString) (rowId : Int) : GoString :=
  ascii "count_" ++ urType ++ ascii "_" ++ Itoa rowId

/-- The key of the mean of a resource. -/
def avgKey (urType : GoString) (rowId : Int) : GoString :=
  ascii "avg_" ++ urType ++ ascii "_" ++ Itoa rowId

/-- An "avg" request as `avgCounter` builds it. -/
def avgBlock (u : urlNode) : storageBlock := ⟨ascii "avg", ascii "SET", u⟩

/-- A "max" request as `maxCounter` builds it. -/
def maxBlock (u : urlNode) : storageBlock := ⟨ascii "max", ascii "SET", u⟩

/-- The value an "avg" request with response time `r` leaves under its sum key
`key`: the string `r` itself when the key was absent, and otherwise the `float64`
sum of the value read and of `r` parsed. -/
def sumAfter (redis : Store) (key r : GoString) : Val :=
  match redis key with
  | none => .str r
  | some v => .float (F64.add (respFloat64 (some v)) (ParseFloat r).1)

/-- Decimal rendering of `n` padded with zeros to at least `width` digits. -/
def padNat (width n : Nat) : GoString :=
  List.replicate (width - (formatNat n).length) 48 ++ formatNat n

/-- The calendar day of a clock reading written as YYYY-MM-DD. -/
def isoDay (now : Clock) : GoString :=
  padNat 4 now.year ++ ascii "-" ++ padNat 2 now.month ++ ascii "-" ++ padNat 2 now.day

/-- The sum key as the specification writes it:
`sum_day_<YYYY-MM-DD>_<type><id>`. -/
def specSumKey (now : Clock) (urType : GoString) (rowId : Int) : GoString :=
  ascii "sum_day_" ++ isoDay now ++ ascii "_" ++ urType ++ Itoa rowId

/-- The max key as the specification writes it:
`max_day_<YYYY-MM-DD>_<type><id>`. -/
def specMaxKey (now : Clock) (urType : GoString) (rowId : Int) : GoString :=
  ascii "max_day_" ++ isoDay now ++ ascii "_" ++ urType ++ Itoa rowId

/-- The day string of `getTime`: the Unix time, in decimal, of 00:00:00 UTC on the
calendar day of the clock reading. -/
def dayStamp (now : Clock) : GoString :=
  FormatInt (daysFromCivil now.year now.month now.day * 86400)

/-- The `float64` sum the program accumulates for response times handled in this
order: the first is read back from the store, each later one is parsed and added
in binary floating point. -/
def floatSum (first : GoString) (rest : List GoString) : F64 :=
  rest.foldl (fun acc r => F64.add acc (ParseFloat r).1) (respFloat64 (some (.str first)))

/-- The number a stored value stands for, read as a decimal: a string as
`decimal.NewFromString` reads it, a float as the decimal the client prints. -/
def Val.denotes : Val → Option ℚ
  | .str s => (NewFromString s).map (fun d => (d.value : ℚ) * (10 : ℚ) ^ d.exp)
  | .float f => (NewFromFloat f).map (fun d => (d.value : ℚ) * (10 : ℚ) ^ d.exp)

/-! ### Sample data for the concrete statements -/

/-- The clock reading 2024-01-01 13:05:07. -/
def newYear2024 : Clock := ⟨2024, 1, 1, 13, 5, 7⟩

/-- The clock reading 2024-01-02 00:00:01. -/
def nextDay2024 : Clock := ⟨2024, 1, 2, 0, 0, 1⟩

/-- A hit of the movie 42 with response time `r`. -/
def movie42 (r : String) : urlNode :=
  ⟨ascii "movie", 42, ascii "/movie/42.html", ascii r, ascii "1704114307"⟩

/-- A hit of the list 7 with response time `r`. -/
def list7 (r : String) : urlNode :=
  ⟨ascii "list", 7, ascii "/list/7.html", ascii r, ascii "1704114307"⟩

/-- The text of
`decimal.NewFromFloat(sum).Div(decimal.NewFromFloat(float64(count))).String()`;
`none` stands for a panic of one of the calls. -/
def meanString (sum : F64) (count : Int) : Option GoString :=
  (NewFromFloat sum).bind (fun sumDec =>
    (NewFromFloat (F64.ofInt count)).bind (fun countDec =>
      (sumDec.Div countDec).map Decimal.String))

/-! ### Numeric readings used in the statements -/

/-- The exact value of a finite `float64`, `m * 2^e`; 0 for the others. -/
def F64.toRat : F64 → ℚ
  | .fin m e => (m : ℚ) * (2 : ℚ) ^ e
  | _ => 0

/-- Whether the value is a finite `float64` in normal form: zero, or an odd
mantissa of at most 53 bits with an exponent from -1074 on and a magnitude below
2^1024. -/
def F64.valid : F64 → Bool
  | .fin m e =>
    decide ((m = 0 ∧ e = 0) ∨
      (m % 2 = 1 ∧ bitLen m.natAbs ≤ 53 ∧ -1074 ≤ e ∧ (bitLen m.natAbs : Int) + e ≤ 1024))
  | _ => false

/-- The number a decimal stands for. -/
def Decimal.toRat (d : Decimal) : ℚ := (d.value : ℚ) * (10 : ℚ) ^ d.exp

/-- Whether a stored value is numeric: a string that `strconv.ParseFloat` reads
without error as a finite number, or a finite float. -/
def Val.numeric : Val → Bool
  | .str s =>
    match ParseFloat s with
    | (.fin _ _, .ok) => true
    | _ => false
  | .float f => f.valid

/-- The decimal `FloatCompare` makes of an operand. -/
def Iface.decimal : Iface → Option Decimal
  | .float64 f => NewFromFloat f
  | .string s => NewFromString s
  | .other => none

/-- Whether an operand is a finite `float64` or a string that is a valid decimal
literal. -/
def Iface.comparable : Iface → Bool
  | .float64 (.fin _ _) => true
  | .float64 _ => false
  | .string s => (NewFromString s).isSome
  | .other => false

/-- Whether an operand is neither a `float64` nor a string, or is a string that is
not a valid decimal literal. -/
def Iface.unusable : Iface → Bool
  | .float64 _ => false
  | .string s => (NewFromString s).isNone
  | .other => true

/-- Whether an operand, when it is a `float64`, is finite. -/
def Iface.finiteFloat : Iface → Bool
  | .float64 (.fin _ _) => true
  | .float64 _ => false
  | _ => true

/-! ## Theorems -/

theorem stringsIndexFrom_ge (needle : GoString) (s : GoString) (i : Nat) :
    stringsIndexFrom needle s i = -1 ∨ (i : Int) ≤ stringsIndexFrom needle s i := by
  induction s generalizing i with
  | nil => simp only [stringsIndexFrom]; split <;> simp
  | cons c cs ih =>
    simp only [stringsIndexFrom]
    split
    · right; exact le_refl _
    · rcases ih (i + 1) with h | h
      · left; exact h
      · right; push_cast at h; omega

theorem stringsIndexFrom_eq_neg_one_iff (needle : GoString) (hne : needle ≠ [])
    (s : GoString) (i : Nat) :
    stringsIndexFrom needle s i = -1 ↔ ¬ needle <:+: s := by
  induction s generalizing i with
  | nil =>
    simp [stringsIndexFrom, hne]
  | cons c cs ih =>
    simp only [stringsIndexFrom]
    rw [List.infix_cons_iff]
    by_cases hp : needle.isPrefixOf (c :: cs) = true
    · simp only [hp, if_true]
      have : needle <+: c :: cs := List.isPrefixOf_iff_prefix.mp hp
      constructor
      · intro h; omega
      · intro h; exact absurd (Or.inl this) h
    · simp only [hp, Bool.false_eq_true, if_false]
      have hnp : ¬ needle <+: c :: cs := fun h => hp (List.isPrefixOf_iff_prefix.mpr h)
      rw [ih (i + 1)]
      simp [hnp]

theorem IndexOf_zero_ne_neg_one_iff (needle : GoString) (hne : needle ≠ []) (s : GoString) :
    IndexOf s needle 0 ≠ -1 ↔ needle <:+: s := by
  unfold IndexOf
  simp only [hne, if_false]
  cases s with
  | nil =>
    simp [hne]
  | cons c cs =>
    have hl : ¬ ((0 : Int) < 0 ∨ (0 : Int) > ((c :: cs).length : Int) - 1) := by
      have : (0:Int) ≤ (cs.length : Int) := Int.natCast_nonneg _
      simp only [List.length_cons, Nat.cast_add, Nat.cast_one]
      omega
    simp only [hl, if_false, Int.toNat_zero, List.drop_zero, stringsIndex]
    rcases stringsIndexFrom_ge needle (c :: cs) 0 with h | h
    · have := (stringsIndexFrom_eq_neg_one_iff needle hne (c :: cs) 0).mp h
      simp [h, this]
    · have hne1 : stringsIndexFrom needle (c :: cs) 0 ≠ -1 := by
        intro h'; rw [h'] at h; simp at h
      have := (stringsIndexFrom_eq_neg_one_iff needle hne (c :: cs) 0).not.mp hne1
      simp only [hne1, if_false]
      constructor
      · intro _; exact not_not.mp this
      · intro _; push_cast at h; omega

theorem stringsIndexFrom_append_first (needle pre rest : GoString) (i : Nat)
    (hfree : ∀ k, k < pre.length → ¬ needle <+: (pre ++ rest).drop k)
    (hpre : needle <+: rest) :
    stringsIndexFrom needle (pre ++ rest) i = ((i + pre.length : Nat) : Int) := by
  induction pre generalizing i with
  | nil =>
    cases rest with
    | nil =>
      have : needle = [] := List.prefix_nil.mp hpre
      simp [stringsIndexFrom, this]
    | cons c cs =>
      have hp : needle.isPrefixOf (c :: cs) = true := List.isPrefixOf_iff_prefix.mpr hpre
      simp [stringsIndexFrom, hp]
  | cons p ps ih =>
    have h0 : ¬ needle <+: (p :: ps) ++ rest := by
      have := hfree 0 (by simp)
      simpa using this
    have hp : ¬ needle.isPrefixOf (p :: (ps ++ rest)) = true := fun h =>
      h0 (by simpa using List.isPrefixOf_iff_prefix.mp h)
    have hrec := ih (i + 1) (fun k hk => by
      have := hfree (k + 1) (by simp; omega)
      simpa using this)
    show stringsIndexFrom needle (p :: (ps ++ rest)) i = _
    rw [stringsIndexFrom, if_neg hp, hrec, List.length_cons]
    congr 1; omega

theorem no_early_occurrence (needle pre post : GoString) (hne : needle ≠ [])
    (h : ¬ needle <:+: pre ++ needle.dropLast) :
    ∀ k, k < pre.length → ¬ needle <+: (pre ++ (needle ++ post)).drop k := by
  intro k hk hpk
  apply h
  have hdrop : (pre ++ (needle ++ post)).drop k = pre.drop k ++ (needle ++ post) :=
    List.drop_append_of_le_length (le_of_lt hk)
  rw [hdrop] at hpk
  have hsplit : needle = needle.dropLast ++ [needle.getLast hne] :=
    (List.dropLast_append_getLast hne).symm
  have h2 : pre.drop k ++ needle.dropLast <+: pre.drop k ++ (needle ++ post) := by
    refine ⟨[needle.getLast hne] ++ post, ?_⟩
    conv_rhs => rw [hsplit]
    simp [List.append_assoc]
  have hlen : needle.length ≤ (pre.drop k ++ needle.dropLast).length := by
    have : 0 < needle.length := List.length_pos.mpr hne
    simp only [List.length_append, List.length_drop, List.length_dropLast]
    omega
  have h3 : needle <+: pre.drop k ++ needle.dropLast :=
    List.prefix_of_prefix_length_le hpk h2 hlen
  obtain ⟨t, ht⟩ := h3
  refine ⟨pre.take k, t, ?_⟩
  rw [List.append_assoc, ht, ← List.append_assoc, List.take_append_drop]

theorem Substr_middle (a b c : GoString) :
    Substr (a ++ b ++ c) a.length b.length = b := by
  unfold Substr
  by_cases hb : b = []
  · subst hb
    simp only [List.length_nil, Nat.cast_zero, add_zero]
    split
    · rfl
    · split <;> simp_all
  · have hbl : 0 < b.length := List.length_pos.mpr hb
    have h1 : ¬ ((a.length : Int) < 0 ∨ (a.length : Int) ≥ ((a ++ b ++ c).length : Int) ∨
        a ++ b ++ c = []) := by
      simp only [List.length_append, Nat.cast_add]
      intro h
      rcases h with h | h | h
      · omega
      · omega
      · simp_all
    simp only [h1, if_false]
    have h2 : ¬ ((if (a.length : Int) + b.length ≥ ((a ++ b ++ c).length : Int) then
        ((a ++ b ++ c).length : Int) else (a.length : Int) + b.length) ≤ (a.length : Int)) := by
      simp only [List.length_append, Nat.cast_add]
      split <;> omega
    simp only [h2, if_false]
    have h3 : ((if (a.length : Int) + b.length ≥ ((a ++ b ++ c).length : Int) then
        ((a ++ b ++ c).length : Int) else (a.length : Int) + b.length) - (a.length : Int)).toNat
        = b.length + (if c = [] then 0 else 0) := by
      simp only [List.length_append, Nat.cast_add]
      split <;> split <;> omega
    rw [h3]
    simp [List.append_assoc]

theorem digit_byte_ok : ∀ d, d < 10 →
    ¬ (UInt8.ofNat (48 + d) < 48 ∨ 57 < UInt8.ofNat (48 + d)) ∧
    (UInt8.ofNat (48 + d)).toNat - 48 = d ∧
    ((48 : UInt8) ≤ UInt8.ofNat (48 + d) ∧ UInt8.ofNat (48 + d) ≤ 57) := by
  decide

theorem natDigits_acc (f n : Nat) (acc : GoString) :
    natDigits f n acc = natDigits f n [] ++ acc := by
  induction f generalizing n acc with
  | zero => simp [natDigits]
  | succ f ih =>
    simp only [natDigits]
    split
    · simp
    · rw [ih, ih (n / 10) [_]]; simp

theorem natDigits_fuel (f1 f2 n : Nat) (acc : GoString) (h1 : n < f1) (h2 : n < f2) :
    natDigits f1 n acc = natDigits f2 n acc := by
  induction f1 generalizing f2 n acc with
  | zero => omega
  | succ g ih =>
    cases f2 with
    | zero => omega
    | succ h =>
      simp only [natDigits]
      split
      · rfl
      · apply ih <;> omega

theorem formatNat_lt_ten (n : Nat) (h : n < 10) : formatNat n = [UInt8.ofNat (48 + n)] := by
  simp [formatNat, natDigits, h]

theorem formatNat_ge_ten (n : Nat) (h : 10 ≤ n) :
    formatNat n = formatNat (n / 10) ++ [UInt8.ofNat (48 + n % 10)] := by
  have h' : ¬ n < 10 := by omega
  show natDigits (n + 1) n [] = natDigits (n / 10 + 1) (n / 10) [] ++ _
  rw [natDigits, if_neg h', natDigits_acc,
    natDigits_fuel n (n / 10 + 1) (n / 10) [] (by omega) (by omega)]

theorem formatNat_digits (n : Nat) : ∀ c ∈ formatNat n, (48 : UInt8) ≤ c ∧ c ≤ 57 := by
  induction n using Nat.strong_induction_on with
  | _ n ih =>
    by_cases h : n < 10
    · rw [formatNat_lt_ten n h]
      intro c hc
      simp only [List.mem_singleton] at hc
      subst hc
      exact (digit_byte_ok n h).2.2
    · rw [formatNat_ge_ten n (by omega)]
      intro c hc
      rcases List.mem_append.mp hc with hc | hc
      · exact ih (n / 10) (by omega) c hc
      · simp only [List.mem_singleton] at hc
        subst hc
        exact (digit_byte_ok (n % 10) (by omega)).2.2

theorem formatNat_ne_nil (n : Nat) : formatNat n ≠ [] := by
  by_cases h : n < 10
  · rw [formatNat_lt_ten n h]; simp
  · rw [formatNat_ge_ten n (by omega)]; simp

theorem parseUintLoop_formatNat (n : Nat) (hn : n < 2 ^ 64) (rest : GoString) :
    parseUintLoop 64 (formatNat n ++ rest) 0 = parseUintLoop 64 rest n := by
  induction n using Nat.strong_induction_on generalizing rest with
  | _ n ih =>
    by_cases h : n < 10
    · rw [formatNat_lt_ten n h]
      obtain ⟨h1, h2, -⟩ := digit_byte_ok n h
      simp only [List.singleton_append, parseUintLoop, h1, if_false, h2]
      have : ¬ (0 ≥ (2 ^ 64 - 1) / 10 + 1) := by norm_num
      simp only [this, if_false, zero_mul, zero_add]
      have : ¬ (n ≥ 2 ^ 64 ∨ n > 2 ^ 64 - 1) := by omega
      simp only [this, if_false]
      rfl
    · rw [formatNat_ge_ten n (by omega), List.append_assoc, ih (n / 10) (by omega) (by omega)]
      obtain ⟨h1, h2, -⟩ := digit_byte_ok (n % 10) (by omega)
      simp only [List.singleton_append, parseUintLoop, h1, if_false, h2]
      have : ¬ (n / 10 ≥ (2 ^ 64 - 1) / 10 + 1) := by omega
      simp only [this, if_false]
      have e : n / 10 * 10 + n % 10 = n := by omega
      rw [e]
      have : ¬ (n ≥ 2 ^ 64 ∨ n > 2 ^ 64 - 1) := by omega
      simp only [this, if_false]
      rfl

theorem ParseUint_formatNat (n : Nat) (hn : n < 2 ^ 64) :
    ParseUint (formatNat n) 64 = (n, .ok) := by
  unfold ParseUint
  rw [if_neg (formatNat_ne_nil n)]
  have := parseUintLoop_formatNat n hn []
  simpa [parseUintLoop] using this

theorem ParseInt_FormatInt (n : Int) (h1 : -2 ^ 63 ≤ n) (h2 : n < 2 ^ 63) :
    ParseInt (FormatInt n) 64 = (n, .ok) := by
  unfold FormatInt
  by_cases hneg : n < 0
  · simp only [hneg, if_true, ParseInt]
    have hu := ParseUint_formatNat n.natAbs (by omega)
    simp only [or_true, if_true, hu, reduceCtorEq, if_false, not_true_eq_false, false_and,
      true_and]
    have hle : ¬ (n.natAbs > 2 ^ (64 - 1)) := by omega
    rw [if_neg hle]
    congr 1
    omega
  · simp only [hneg, if_false]
    have hne := formatNat_ne_nil n.natAbs
    have hd := formatNat_digits n.natAbs
    have hu := ParseUint_formatNat n.natAbs (by omega)
    cases hs : formatNat n.natAbs with
    | nil => exact absurd hs hne
    | cons c cs =>
      rw [hs] at hd hu
      have hc := hd c (by simp)
      have h43 : c ≠ 43 := by
        intro h; subst h; exact absurd hc.1 (by decide)
      have h45 : c ≠ 45 := by
        intro h; subst h; exact absurd hc.1 (by decide)
      simp only [ParseInt, h43, h45, or_self, if_false, hu, reduceCtorEq, not_false_eq_true,
        true_and, false_and]
      have hle : ¬ (n.natAbs ≥ 2 ^ (64 - 1)) := by omega
      rw [if_neg hle]
      congr 1
      omega

theorem Atoi_Itoa (n : Int) (h1 : -2 ^ 63 ≤ n) (h2 : n < 2 ^ 63) :
    Atoi (Itoa n) = (n, .ok) := ParseInt_FormatInt n h1 h2

theorem HANDLE_MOVIE_ne_nil : HANDLE_MOVIE ≠ [] := by decide

theorem HANDLE_LIST_ne_nil : HANDLE_LIST ≠ [] := by decide

theorem HANDLE_HTML_ne_nil : HANDLE_HTML ≠ [] := by decide

theorem formatUrl_of_movie (url responseTime time : GoString) (h : HANDLE_MOVIE <:+: url) :
    formatUrl url responseTime time =
      ⟨ascii "movie", (Atoi (idSegment url HANDLE_MOVIE)).1, url, responseTime, time⟩ := by
  have h1 := (IndexOf_zero_ne_neg_one_iff HANDLE_MOVIE HANDLE_MOVIE_ne_nil url).mpr h
  simp only [formatUrl, idSegment, h1, ne_eq, not_false_eq_true, if_true]

theorem formatUrl_of_list (url responseTime time : GoString) (h0 : ¬ HANDLE_MOVIE <:+: url)
    (h : HANDLE_LIST <:+: url) :
    formatUrl url responseTime time =
      ⟨ascii "list", (Atoi (idSegment url HANDLE_LIST)).1, url, responseTime, time⟩ := by
  have h1 : IndexOf url HANDLE_MOVIE 0 = -1 := by
    by_contra hc
    exact h0 ((IndexOf_zero_ne_neg_one_iff HANDLE_MOVIE HANDLE_MOVIE_ne_nil url).mp hc)
  have h2 := (IndexOf_zero_ne_neg_one_iff HANDLE_LIST HANDLE_LIST_ne_nil url).mpr h
  simp only [formatUrl, idSegment, h1, h2, ne_eq, not_true_eq_false, not_false_eq_true,
    if_true, if_false]

theorem formatUrl_of_home (url responseTime time : GoString) (h0 : ¬ HANDLE_MOVIE <:+: url)
    (h : ¬ HANDLE_LIST <:+: url) :
    formatUrl url responseTime time = ⟨ascii "home", 1, url, responseTime, time⟩ := by
  have h1 : IndexOf url HANDLE_MOVIE 0 = -1 := by
    by_contra hc
    exact h0 ((IndexOf_zero_ne_neg_one_iff HANDLE_MOVIE HANDLE_MOVIE_ne_nil url).mp hc)
  have h2 : IndexOf url HANDLE_LIST 0 = -1 := by
    by_contra hc
    exact h ((IndexOf_zero_ne_neg_one_iff HANDLE_LIST HANDLE_LIST_ne_nil url).mp hc)
  simp only [formatUrl, h1, h2, ne_eq, not_true_eq_false, if_false]

/-- C4. `formatUrl` classifies a hit as "movie" when the url contains "/movie/",
otherwise as "list" when it contains "/list/", and otherwise as "home" with
resource id 1. -/
theorem formatUrl_classification (url responseTime time : GoString) :
    (HANDLE_MOVIE <:+: url → (formatUrl url responseTime time).unType = ascii "movie") ∧
    (¬ HANDLE_MOVIE <:+: url → HANDLE_LIST <:+: url →
      (formatUrl url responseTime time).unType = ascii "list") ∧
    (¬ HANDLE_MOVIE <:+: url → ¬ HANDLE_LIST <:+: url →
      (formatUrl url responseTime time).unType = ascii "home" ∧
      (formatUrl url responseTime time).unRid = 1) := by
  refine ⟨fun h => ?_, fun h0 h => ?_, fun h0 h => ?_⟩
  · rw [formatUrl_of_movie url responseTime time h]
  · rw [formatUrl_of_list url responseTime time h0 h]
  · rw [formatUrl_of_home url responseTime time h0 h]
    exact ⟨rfl, rfl⟩

/-- C4, at concrete urls: "/movie/42.html" is a movie hit, "/list/7.html" a list hit,
and "/index" a home hit with id 1. -/
theorem formatUrl_classification_witness :
    (formatUrl (ascii "/movie/42.html") [] []).unType = ascii "movie" ∧
    (formatUrl (ascii "/list/7.html") [] []).unType = ascii "list" ∧
    ((formatUrl (ascii "/index") [] []).unType = ascii "home" ∧
      (formatUrl (ascii "/index") [] []).unRid = 1) :=
  ⟨(formatUrl_classification (ascii "/movie/42.html") [] []).1 (by decide),
   (formatUrl_classification (ascii "/list/7.html") [] []).2.1 (by decide) (by decide),
   (formatUrl_classification (ascii "/index") [] []).2.2 (by decide) (by decide)⟩

theorem IndexOf_first (needle pre post : GoString) (hne : needle ≠ [])
    (h : ¬ needle <:+: pre ++ needle.dropLast) :
    IndexOf (pre ++ (needle ++ post)) needle 0 = (pre.length : Int) := by
  unfold IndexOf
  have hlen : 0 < needle.length := List.length_pos.mpr hne
  have hl : ¬ ((0 : Int) < 0 ∨ (0 : Int) > ((pre ++ (needle ++ post)).length : Int) - 1) := by
    simp only [List.length_append, Nat.cast_add]
    omega
  simp only [hne, hl, if_false, Int.toNat_zero, List.drop_zero, stringsIndex]
  rw [stringsIndexFrom_append_first needle pre (needle ++ post) 0
    (no_early_occurrence needle pre post hne h) (List.prefix_append _ _)]
  simp only [zero_add]
  have : ¬ ((pre.length : Int) = -1) := by omega
  simp [this]

theorem idSegment_of_first (handle pre seg post : GoString) (hne : handle ≠ [])
    (h1 : ¬ handle <:+: pre ++ handle.dropLast)
    (h2 : ¬ HANDLE_HTML <:+: pre ++ handle ++ seg ++ HANDLE_HTML.dropLast) :
    idSegment (pre ++ handle ++ seg ++ HANDLE_HTML ++ post) handle = seg := by
  unfold idSegment
  have e1 : pre ++ handle ++ seg ++ HANDLE_HTML ++ post =
      pre ++ (handle ++ (seg ++ HANDLE_HTML ++ post)) := by simp [List.append_assoc]
  have e2 : pre ++ handle ++ seg ++ HANDLE_HTML ++ post =
      (pre ++ handle ++ seg) ++ (HANDLE_HTML ++ post) := by simp [List.append_assoc]
  have p1 : IndexOf (pre ++ handle ++ seg ++ HANDLE_HTML ++ post) handle 0 = (pre.length : Int) := by
    rw [e1]; exact IndexOf_first handle pre _ hne h1
  have p2 : IndexOf (pre ++ handle ++ seg ++ HANDLE_HTML ++ post) HANDLE_HTML 0 =
      ((pre ++ handle ++ seg).length : Int) := by
    rw [e2]; exact IndexOf_first HANDLE_HTML _ _ HANDLE_HTML_ne_nil h2
  rw [p1, p2]
  have e3 : pre ++ handle ++ seg ++ HANDLE_HTML ++ post =
      (pre ++ handle) ++ seg ++ (HANDLE_HTML ++ post) := by simp [List.append_assoc]
  have e4 : ((pre ++ handle ++ seg).length : Int) - ((pre.length : Int) + (handle.length : Int)) =
      (seg.length : Int) := by
    simp only [List.length_append, Nat.cast_add]; omega
  have e5 : (pre.length : Int) + (handle.length : Int) = ((pre ++ handle).length : Int) := by
    simp only [List.length_append, Nat.cast_add]
  rw [e4, e5, e3]
  exact Substr_middle (pre ++ handle) seg (HANDLE_HTML ++ post)

/-- C5 (amended). When the first "/movie/" of the url is immediately followed by the
decimal rendering of an in-range integer `n` and then by the first ".html" of the
url, `formatUrl` returns a movie hit with id `n`; likewise for "/list/" in a url
without "/movie/". -/
theorem formatUrl_id_of_first_marker (pre post responseTime time : GoString) (n : Int)
    (hlo : -2 ^ 63 ≤ n) (hhi : n < 2 ^ 63) :
    (¬ HANDLE_MOVIE <:+: pre ++ HANDLE_MOVIE.dropLast →
      ¬ HANDLE_HTML <:+: pre ++ HANDLE_MOVIE ++ Itoa n ++ HANDLE_HTML.dropLast →
      (formatUrl (pre ++ HANDLE_MOVIE ++ Itoa n ++ HANDLE_HTML ++ post) responseTime time).unType
          = ascii "movie" ∧
      (formatUrl (pre ++ HANDLE_MOVIE ++ Itoa n ++ HANDLE_HTML ++ post) responseTime time).unRid
          = n) ∧
    (¬ HANDLE_MOVIE <:+: pre ++ HANDLE_LIST ++ Itoa n ++ HANDLE_HTML ++ post →
      ¬ HANDLE_LIST <:+: pre ++ HANDLE_LIST.dropLast →
      ¬ HANDLE_HTML <:+: pre ++ HANDLE_LIST ++ Itoa n ++ HANDLE_HTML.dropLast →
      (formatUrl (pre ++ HANDLE_LIST ++ Itoa n ++ HANDLE_HTML ++ post) responseTime time).unType
          = ascii "list" ∧
      (formatUrl (pre ++ HANDLE_LIST ++ Itoa n ++ HANDLE_HTML ++ post) responseTime time).unRid
          = n) := by
  constructor
  · intro h1 h2
    have hin : HANDLE_MOVIE <:+: pre ++ HANDLE_MOVIE ++ Itoa n ++ HANDLE_HTML ++ post :=
      ⟨pre, Itoa n ++ HANDLE_HTML ++ post, by simp [List.append_assoc]⟩
    rw [formatUrl_of_movie _ responseTime time hin,
      idSegment_of_first HANDLE_MOVIE pre (Itoa n) post HANDLE_MOVIE_ne_nil h1 h2,
      Atoi_Itoa n hlo hhi]
    exact ⟨rfl, rfl⟩
  · intro h0 h1 h2
    have hin : HANDLE_LIST <:+: pre ++ HANDLE_LIST ++ Itoa n ++ HANDLE_HTML ++ post :=
      ⟨pre, Itoa n ++ HANDLE_HTML ++ post, by simp [List.append_assoc]⟩
    rw [formatUrl_of_list _ responseTime time h0 hin,
      idSegment_of_first HANDLE_LIST pre (Itoa n) post HANDLE_LIST_ne_nil h1 h2,
      Atoi_Itoa n hlo hhi]
    exact ⟨rfl, rfl⟩

/-- C5 (amended), at "http://h/movie/42.html?x" and "http://h/list/7.html". -/
theorem formatUrl_id_of_first_marker_witness :
    ((formatUrl (ascii "http://h" ++ HANDLE_MOVIE ++ Itoa 42 ++ HANDLE_HTML ++ ascii "?x")
        [] []).unType = ascii "movie" ∧
     (formatUrl (ascii "http://h" ++ HANDLE_MOVIE ++ Itoa 42 ++ HANDLE_HTML ++ ascii "?x")
        [] []).unRid = 42) ∧
    ((formatUrl (ascii "http://h" ++ HANDLE_LIST ++ Itoa 7 ++ HANDLE_HTML ++ []) [] []).unType
        = ascii "list" ∧
     (formatUrl (ascii "http://h" ++ HANDLE_LIST ++ Itoa 7 ++ HANDLE_HTML ++ []) [] []).unRid
        = 7) :=
  ⟨(formatUrl_id_of_first_marker (ascii "http://h") (ascii "?x") [] [] 42 (by decide)
      (by decide)).1 (by decide) (by decide),
   (formatUrl_id_of_first_marker (ascii "http://h") [] [] [] 7 (by decide)
      (by decide)).2 (by decide) (by decide) (by decide)⟩

/-- C5, as stated, fails: the url "/a.html/movie/42.html" contains "/movie/"
immediately followed by the digits of 42 and ".html", yet `formatUrl` returns id 0,
because the id segment ends at the first ".html" of the whole url. -/
theorem formatUrl_id_counterexample :
    (HANDLE_MOVIE ++ Itoa 42 ++ HANDLE_HTML <:+: ascii "/a.html/movie/42.html") ∧
    (formatUrl (ascii "/a.html/movie/42.html") [] []).unType = ascii "movie" ∧
    (formatUrl (ascii "/a.html/movie/42.html") [] []).unRid = 0 ∧
    (formatUrl (ascii "/a.html/movie/42.html") [] []).unRid ≠ 42 := by
  decide

theorem ParseInt_error_value (s : GoString) (bitSize : Nat) :
    ((ParseInt s bitSize).2 = .errSyntax → (ParseInt s bitSize).1 = 0) ∧
    ((ParseInt s bitSize).2 = .errRange →
      (ParseInt s bitSize).1 = (2 : Int) ^ (bitSize - 1) - 1 ∨
      (ParseInt s bitSize).1 = -(2 : Int) ^ (bitSize - 1)) := by
  unfold ParseInt
  cases s with
  | nil => simp
  | cons c cs =>
    simp only
    split_ifs <;> simp

theorem ParseInt_range_value (s : GoString) (bitSize : Nat)
    (h : (ParseInt s bitSize).2 = .errRange) :
    (ParseInt s bitSize).1 =
      if s.head? = some 45 then -(2 : Int) ^ (bitSize - 1) else (2 : Int) ^ (bitSize - 1) - 1 := by
  unfold ParseInt at h ⊢
  cases s with
  | nil => simp at h
  | cons c cs =>
    simp only at h ⊢
    by_cases hc : c = 45
    · subst hc
      split_ifs at h ⊢ <;> simp_all
    · have hh : ¬ ((c :: cs).head? = some 45) := by simpa using hc
      split_ifs at h ⊢ <;> simp_all

/-- C6 (amended). For a url with the movie (or list) marker, `formatUrl` returns id 0
when `Atoi` rejects the id segment with a syntax error; when `Atoi` rejects it as out
of range, the id is the bound of the 64-bit `int` range nearest to the number
written: -2^63 when the segment starts with a minus sign, 2^63 - 1 otherwise. -/
theorem formatUrl_id_on_atoi_error (url responseTime time : GoString) :
    (HANDLE_MOVIE <:+: url →
      ((Atoi (idSegment url HANDLE_MOVIE)).2 = .errSyntax →
        (formatUrl url responseTime time).unRid = 0) ∧
      ((Atoi (idSegment url HANDLE_MOVIE)).2 = .errRange →
        (formatUrl url responseTime time).unRid =
          if (idSegment url HANDLE_MOVIE).head? = some 45 then -2 ^ 63 else 2 ^ 63 - 1)) ∧
    (¬ HANDLE_MOVIE <:+: url → HANDLE_LIST <:+: url →
      ((Atoi (idSegment url HANDLE_LIST)).2 = .errSyntax →
        (formatUrl url responseTime time).unRid = 0) ∧
      ((Atoi (idSegment url HANDLE_LIST)).2 = .errRange →
        (formatUrl url responseTime time).unRid =
          if (idSegment url HANDLE_LIST).head? = some 45 then -2 ^ 63 else 2 ^ 63 - 1)) := by
  constructor
  · intro h
    rw [formatUrl_of_movie url responseTime time h]
    exact ⟨(ParseInt_error_value (idSegment url HANDLE_MOVIE) 64).1,
      ParseInt_range_value (idSegment url HANDLE_MOVIE) 64⟩
  · intro h0 h
    rw [formatUrl_of_list url responseTime time h0 h]
    exact ⟨(ParseInt_error_value (idSegment url HANDLE_LIST) 64).1,
      ParseInt_range_value (idSegment url HANDLE_LIST) 64⟩

/-- C6 (amended), at "/movie/abc.html" (syntax error, id 0), at
"/list/99999999999999999999.html" (too great, id 2^63 - 1) and at the movie url with
the id segment "-99999999999999999999" (too small, id -2^63). -/
theorem formatUrl_id_on_atoi_error_witness :
    (formatUrl (ascii "/movie/abc.html") [] []).unRid = 0 ∧
    (formatUrl (ascii "/list/99999999999999999999.html") [] []).unRid = 2 ^ 63 - 1 ∧
    (formatUrl (ascii "/movie/" ++ ascii "-99999999999999999999.html") [] []).unRid = -2 ^ 63 :=
  ⟨((formatUrl_id_on_atoi_error (ascii "/movie/abc.html") [] []).1 (by decide)).1 (by decide),
   (((formatUrl_id_on_atoi_error (ascii "/list/99999999999999999999.html") [] []).2
      (by decide) (by decide)).2 (by decide)).trans (by decide),
   (((formatUrl_id_on_atoi_error (ascii "/movie/" ++ ascii "-99999999999999999999.html")
      [] []).1 (by decide)).2 (by decide)).trans (by decide)⟩

/-- C6, as stated, fails: for "/movie/99999999999999999999.html" `Atoi` reports an
out-of-range error on the id segment and `formatUrl` returns id 2^63 - 1, not 0. -/
theorem formatUrl_id_range_counterexample :
    (HANDLE_MOVIE <:+: ascii "/movie/99999999999999999999.html") ∧
    (Atoi (idSegment (ascii "/movie/99999999999999999999.html") HANDLE_MOVIE)).2 = .errRange ∧
    (formatUrl (ascii "/movie/99999999999999999999.html") [] []).unRid = 9223372036854775807 ∧
    (formatUrl (ascii "/movie/99999999999999999999.html") [] []).unRid ≠ 0 := by
  decide

theorem trimLeftSpace_suffix (f : Nat) (s : GoString) : trimLeftSpace f s <:+ s := by
  induction f generalizing s with
  | zero => exact List.suffix_refl s
  | succ f ih =>
    simp only [trimLeftSpace]
    split
    · exact (ih _).trans (List.drop_suffix _ _)
    · exact List.suffix_refl s

theorem trimRightSpaceRev_suffix (f : Nat) (s : GoString) : trimRightSpaceRev f s <:+ s := by
  induction f generalizing s with
  | zero => exact List.suffix_refl s
  | succ f ih =>
    simp only [trimRightSpaceRev]
    split
    · exact (ih _).trans (List.drop_suffix _ _)
    · exact List.suffix_refl s

theorem TrimSpace_within (s : GoString) : TrimSpace s <:+: s := by
  unfold TrimSpace
  have h1 := trimLeftSpace_suffix s.length s
  have h2 := trimRightSpaceRev_suffix (trimLeftSpace s.length s).length
    (trimLeftSpace s.length s).reverse
  have h3 : (trimRightSpaceRev (trimLeftSpace s.length s).length
      (trimLeftSpace s.length s).reverse).reverse <+: trimLeftSpace s.length s := by
    rw [← List.reverse_suffix]; simpa using h2
  exact h3.isInfix.trans h1.isInfix

theorem cutLogFetchData_no_marker (urlQuery : GoString → Option (GoString → GoString))
    (logStr : GoString) (h : ¬ ascii "/dig?" <:+: logStr) :
    cutLogFetchData urlQuery logStr = ⟨[], [], []⟩ := by
  have h' : ¬ ascii "/dig?" <:+: TrimSpace logStr :=
    fun hc => h (hc.trans (TrimSpace_within logStr))
  have h1 : IndexOf (TrimSpace logStr) (ascii "/dig?") 0 = -1 := by
    by_contra hc
    exact h' ((IndexOf_zero_ne_neg_one_iff (ascii "/dig?") (by decide) _).mp hc)
  simp only [cutLogFetchData, h1, if_true]

/-- C1 (what the code does). For every raw line without the substring "/dig?",
`logConsumer` still sends one hit on the max queue and one on the avg queue: the
home hit with id 1 and empty url, response time and timestamp. -/
theorem logConsumer_emits_without_marker (urlQuery : GoString → Option (GoString → GoString))
    (logStr : GoString) (h : ¬ ascii "/dig?" <:+: logStr) :
    logConsumer urlQuery [logStr] = ([emptyHomeHit], [emptyHomeHit]) := by
  simp only [logConsumer, classify, cutLogFetchData_no_marker urlQuery logStr h]
  rfl

/-- C1, at the line "GET /index.html HTTP/1.1", which has no "/dig?": both queues
receive a hit, and handling the "avg" request made of it creates the key
"count_home_1" in the empty store. -/
theorem logConsumer_emits_without_marker_witness :
    ¬ ascii "/dig?" <:+: ascii "GET /index.html HTTP/1.1" ∧
    logConsumer (fun _ => none) [ascii "GET /index.html HTTP/1.1"] =
      ([emptyHomeHit], [emptyHomeHit]) ∧
    (logConsumer (fun _ => none) [ascii "GET /index.html HTTP/1.1"]).1 ≠ [] ∧
    (logConsumer (fun _ => none) [ascii "GET /index.html HTTP/1.1"]).2 ≠ [] ∧
    (dataStorage
      ((avgCounter (logConsumer (fun _ => none) [ascii "GET /index.html HTTP/1.1"]).2).map
        (fun b => (newYear2024, b))) emptyStore).store (ascii "count_home_1") =
      some (.str (ascii "1")) :=
  ⟨by decide,
   logConsumer_emits_without_marker (fun _ => none) (ascii "GET /index.html HTTP/1.1")
     (by decide),
   by decide, by decide, by decide⟩

theorem stringsIndexFrom_found (needle : GoString) (s : GoString) (i : Nat)
    (h : stringsIndexFrom needle s i ≠ -1) :
    needle <+: s.drop (stringsIndexFrom needle s i - i).toNat := by
  induction s generalizing i with
  | nil =>
    simp only [stringsIndexFrom] at h ⊢
    split at h
    · next hn => simp [hn]
    · exact absurd rfl h
  | cons c cs ih =>
    simp only [stringsIndexFrom] at h ⊢
    split
    · next hp => simpa using List.isPrefixOf_iff_prefix.mp hp
    · next hp =>
      simp only [hp, Bool.false_eq_true, if_false] at h
      have := ih (i + 1) h
      rcases stringsIndexFrom_ge needle cs (i + 1) with hg | hg
      · exact absurd hg h
      · have e : (stringsIndexFrom needle cs (i + 1) - (i : Int)).toNat =
            (stringsIndexFrom needle cs (i + 1) - ((i + 1 : Nat) : Int)).toNat + 1 := by
          push_cast at hg ⊢; omega
        rw [e, List.drop_succ_cons]
        exact this

theorem IndexOf_found (s needle : GoString) (start : Int) (hne : needle ≠ [])
    (h : IndexOf s needle start ≠ -1) :
    0 ≤ IndexOf s needle start ∧ needle <+: s.drop (IndexOf s needle start).toNat := by
  unfold IndexOf at h ⊢
  simp only [hne, if_false] at h ⊢
  split at h
  · exact absurd rfl h
  · next hs =>
    simp only [hs, if_false]
    simp only [not_or, not_lt] at hs
    split at h
    · exact absurd rfl h
    · next hp =>
      simp only [hp, if_false]
      have hf := stringsIndexFrom_found needle (s.drop start.toNat) 0 hp
      rcases stringsIndexFrom_ge needle (s.drop start.toNat) 0 with hg | hg
      · exact absurd hg hp
      · simp only [stringsIndex] at hf hg ⊢
        simp only [Nat.cast_zero, sub_zero] at hf hg
        refine ⟨by omega, ?_⟩
        have e : (start + stringsIndexFrom needle (List.drop start.toNat s) 0).toNat =
            start.toNat + (stringsIndexFrom needle (List.drop start.toNat s) 0).toNat := by
          omega
        rw [e, ← List.drop_drop]
        exact hf

theorem Substr_head (s : GoString) (index n : Int) (c : UInt8)
    (hc : [c] <+: s.drop index.toNat) :
    Substr s index n = [] ∨ (Substr s index n).head? = some c := by
  unfold Substr
  simp only
  by_cases h1 : index < 0 ∨ index ≥ (s.length : Int) ∨ s = []
  · left; rw [if_pos h1]
  · rw [if_neg h1]
    by_cases h2 : (if index + n ≥ (s.length : Int) then (s.length : Int) else index + n) ≤ index
    · left; rw [if_pos h2]
    · right
      rw [if_neg h2]
      obtain ⟨t, ht⟩ := hc
      rw [← ht]
      have : 0 < ((if index + n ≥ (s.length : Int) then (s.length : Int) else index + n)
          - index).toNat := by
        omega
      obtain ⟨k, hk⟩ := Nat.exists_eq_succ_of_ne_zero (Nat.pos_iff_ne_zero.mp this)
      rw [hk]
      simp

/-- C3 (what the code does). Whatever the line, the response time returned by
`cutLogFetchData` is empty or begins with a backtick: it is cut with
`Substr(logStr, pos4, pos3)`, that is from the second backtick on, and so it never
is a non-empty token standing between the two backticks. -/
theorem cutLogFetchData_responseTime_shape
    (urlQuery : GoString → Option (GoString → GoString)) (logStr : GoString) :
    (cutLogFetchData urlQuery logStr).responseTime = [] ∨
    (cutLogFetchData urlQuery logStr).responseTime.head? = some 96 := by
  unfold cutLogFetchData
  simp only
  split
  · left; rfl
  · split
    · left; rfl
    · simp only
      by_cases h4 : IndexOf (TrimSpace logStr) (ascii "`")
          (IndexOf (TrimSpace logStr) (ascii "`") 0 + 1) = -1
      · left
        rw [h4]
        unfold Substr
        simp
      · obtain ⟨_, hpre⟩ := IndexOf_found (TrimSpace logStr) (ascii "`") _ (by decide) h4
        exact Substr_head _ _ _ 96 hpre

/-- C3, at a concrete line: the first two backticks enclose "10.5", the tracking
marker is present, and the response time returned is empty whatever `net/url`
makes of the query. -/
theorem cutLogFetchData_responseTime_lost
    (urlQuery : GoString → Option (GoString → GoString)) :
    (cutLogFetchData urlQuery
      (ascii "`10.5` GET /dig?url=%2Fmovie%2F42.html&time=1 HTTP/1.1")).responseTime = [] ∧
    (cutLogFetchData urlQuery
      (ascii "`10.5` GET /dig?url=%2Fmovie%2F42.html&time=1 HTTP/1.1")).responseTime
        ≠ ascii "10.5" := by
  rcases cutLogFetchData_responseTime_shape urlQuery
    (ascii "`10.5` GET /dig?url=%2Fmovie%2F42.html&time=1 HTTP/1.1") with h | h
  · rw [h]; exact ⟨rfl, by decide⟩
  · exfalso
    revert h
    unfold cutLogFetchData
    simp only
    rw [if_neg (by decide)]
    cases urlQuery _ with
    | none => simp
    | some data =>
      simp only
      have : Substr (TrimSpace (ascii "`10.5` GET /dig?url=%2Fmovie%2F42.html&time=1 HTTP/1.1"))
          (IndexOf (TrimSpace (ascii "`10.5` GET /dig?url=%2Fmovie%2F42.html&time=1 HTTP/1.1"))
            (ascii "`")
            (IndexOf (TrimSpace (ascii "`10.5` GET /dig?url=%2Fmovie%2F42.html&time=1 HTTP/1.1"))
              (ascii "`") 0 + 1))
          (IndexOf (TrimSpace (ascii "`10.5` GET /dig?url=%2Fmovie%2F42.html&time=1 HTTP/1.1"))
            (ascii "`") 0) = [] := by decide
      rw [this]
      simp

/-! ### The store -/

theorem cmdSET_same (s : Store) (k : GoString) (v : Val) : cmdSET s k v k = some v := by
  simp [cmdSET]

theorem cmdSET_other (s : Store) (k k' : GoString) (v : Val) (h : k' ≠ k) :
    cmdSET s k v k' = s k' := by
  simp [cmdSET, h]

/-! ### Keys -/

theorem sumKey_head (now : Clock) (u : urlNode) : (sumKey now u).head? = some 115 := rfl

theorem maxKey_head (now : Clock) (u : urlNode) : (maxKey now u).head? = some 109 := rfl

theorem countKey_head (t : GoString) (i : Int) : (countKey t i).head? = some 99 := rfl

theorem avgKey_head (t : GoString) (i : Int) : (avgKey t i).head? = some 97 := rfl

theorem ne_of_head_ne {a b : GoString} {x y : UInt8} (ha : a.head? = some x)
    (hb : b.head? = some y) (hxy : x ≠ y) : a ≠ b := by
  intro h
  rw [h, hb] at ha
  exact hxy (Option.some.inj ha).symm

theorem sumKey_ne_countKey (now : Clock) (u : urlNode) (t : GoString) (i : Int) :
    sumKey now u ≠ countKey t i :=
  ne_of_head_ne (sumKey_head now u) (countKey_head t i) (by decide)

theorem sumKey_ne_avgKey (now : Clock) (u : urlNode) (t : GoString) (i : Int) :
    sumKey now u ≠ avgKey t i :=
  ne_of_head_ne (sumKey_head now u) (avgKey_head t i) (by decide)

theorem maxKey_ne_countKey (now : Clock) (u : urlNode) (t : GoString) (i : Int) :
    maxKey now u ≠ countKey t i :=
  ne_of_head_ne (maxKey_head now u) (countKey_head t i) (by decide)

theorem maxKey_ne_avgKey (now : Clock) (u : urlNode) (t : GoString) (i : Int) :
    maxKey now u ≠ avgKey t i :=
  ne_of_head_ne (maxKey_head now u) (avgKey_head t i) (by decide)

theorem maxKey_ne_sumKey (now now' : Clock) (u u' : urlNode) : maxKey now u ≠ sumKey now' u' :=
  ne_of_head_ne (maxKey_head now u) (sumKey_head now' u') (by decide)

theorem avgKey_ne_countKey (t t' : GoString) (i i' : Int) : avgKey t i ≠ countKey t' i' :=
  ne_of_head_ne (avgKey_head t i) (countKey_head t' i') (by decide)

theorem split_at_first {α : Type} (a : α) (l₁ l₂ r₁ r₂ : List α) (h₁ : a ∉ l₁) (h₂ : a ∉ l₂)
    (h : l₁ ++ a :: r₁ = l₂ ++ a :: r₂) : l₁ = l₂ ∧ r₁ = r₂ := by
  induction l₁ generalizing l₂ with
  | nil =>
    cases l₂ with
    | nil => simpa using h
    | cons b bs =>
      simp only [List.nil_append, List.cons_append, List.cons.injEq] at h
      exact absurd (h.1 ▸ List.mem_cons_self _ _) h₂
  | cons c cs ih =>
    cases l₂ with
    | nil =>
      simp only [List.nil_append, List.cons_append, List.cons.injEq] at h
      exact absurd (h.1 ▸ List.mem_cons_self _ _) h₁
    | cons b bs =>
      simp only [List.cons_append, List.cons.injEq] at h
      have := ih bs (fun hc => h₁ (List.mem_cons_of_mem _ hc))
        (fun hc => h₂ (List.mem_cons_of_mem _ hc)) h.2
      exact ⟨by rw [h.1, this.1], this.2⟩

theorem split_at_last {α : Type} (a : α) (l₁ l₂ r₁ r₂ : List α) (h₁ : a ∉ r₁) (h₂ : a ∉ r₂)
    (h : l₁ ++ a :: r₁ = l₂ ++ a :: r₂) : l₁ = l₂ ∧ r₁ = r₂ := by
  have h' : r₁.reverse ++ a :: l₁.reverse = r₂.reverse ++ a :: l₂.reverse := by
    have := congrArg List.reverse h
    simpa using this
  have := split_at_first a r₁.reverse r₂.reverse l₁.reverse l₂.reverse
    (by simpa using h₁) (by simpa using h₂) h'
  exact ⟨List.reverse_injective this.2, List.reverse_injective this.1⟩

theorem decode_formatNat (n : Nat) :
    (formatNat n).foldl (fun v c => v * 10 + (c.toNat - 48)) 0 = n := by
  induction n using Nat.strong_induction_on with
  | _ n ih =>
    by_cases h : n < 10
    · rw [formatNat_lt_ten n h]
      simp [(digit_byte_ok n h).2.1]
    · rw [formatNat_ge_ten n (by omega), List.foldl_append, ih (n / 10) (by omega)]
      simp only [List.foldl_cons, List.foldl_nil, (digit_byte_ok (n % 10) (by omega)).2.1]
      omega

theorem formatNat_injective (a b : Nat) (h : formatNat a = formatNat b) : a = b := by
  rw [← decode_formatNat a, ← decode_formatNat b, h]

theorem formatNat_head_ne_minus (n : Nat) : (formatNat n).head? ≠ some 45 := by
  have hne := formatNat_ne_nil n
  have hd := formatNat_digits n
  cases hs : formatNat n with
  | nil => exact absurd hs hne
  | cons c cs =>
    rw [hs] at hd
    have hc := hd c (by simp)
    intro h
    simp only [List.head?_cons, Option.some.injEq] at h
    subst h
    exact absurd hc.1 (by decide)

theorem FormatInt_injective (i j : Int) (h : FormatInt i = FormatInt j) : i = j := by
  unfold FormatInt at h
  by_cases hi : i < 0 <;> by_cases hj : j < 0 <;> simp only [hi, hj, if_true, if_false] at h
  · have := formatNat_injective _ _ (List.cons.inj h).2
    omega
  · exact absurd (by rw [← h]; rfl) (formatNat_head_ne_minus j.natAbs)
  · exact absurd (by rw [h]; rfl) (formatNat_head_ne_minus i.natAbs)
  · have := formatNat_injective _ _ h
    omega

theorem FormatInt_no_underscore (i : Int) : (95 : UInt8) ∉ FormatInt i := by
  have hd := formatNat_digits i.natAbs
  have hn : (95 : UInt8) ∉ formatNat i.natAbs := by
    intro hc
    exact absurd (hd 95 hc).2 (by decide)
  unfold FormatInt
  split
  · intro hc
    rcases List.mem_cons.mp hc with h | h
    · exact absurd h (by decide)
    · exact hn h
  · exact hn

theorem countKey_injective (t t' : GoString) (i i' : Int) (h : countKey t i = countKey t' i') :
    t = t' ∧ i = i' := by
  unfold countKey at h
  have e : ∀ (x : GoString) (k : Int), ascii "count_" ++ x ++ ascii "_" ++ Itoa k =
      (ascii "count_" ++ x) ++ 95 :: Itoa k := by
    intro x k; simp [ascii, List.append_assoc]
  rw [e, e] at h
  have := split_at_last 95 _ _ _ _ (FormatInt_no_underscore i) (FormatInt_no_underscore i') h
  exact ⟨List.append_cancel_left this.1, FormatInt_injective i i' this.2⟩

theorem avgKey_injective (t t' : GoString) (i i' : Int) (h : avgKey t i = avgKey t' i') :
    t = t' ∧ i = i' := by
  unfold avgKey at h
  have e : ∀ (x : GoString) (k : Int), ascii "avg_" ++ x ++ ascii "_" ++ Itoa k =
      (ascii "avg_" ++ x) ++ 95 :: Itoa k := by
    intro x k; simp [ascii, List.append_assoc]
  rw [e, e] at h
  have := split_at_last 95 _ _ _ _ (FormatInt_no_underscore i) (FormatInt_no_underscore i') h
  exact ⟨List.append_cancel_left this.1, FormatInt_injective i i' this.2⟩

theorem step_avg_sum_state (now : Clock) (s : Store) (b : storageBlock) :
    (if (cmdSETNX s (sumKey now b.unode) (.str b.unode.responseTime)).2 = 0 then
      cmdSET (cmdSETNX s (sumKey now b.unode) (.str b.unode.responseTime)).1 (sumKey now b.unode)
        (.float (F64.add
          (respFloat64 (cmdGET (cmdSETNX s (sumKey now b.unode) (.str b.unode.responseTime)).1
            (sumKey now b.unode)))
          (ParseFloat b.unode.responseTime).1))
    else (cmdSETNX s (sumKey now b.unode) (.str b.unode.responseTime)).1) =
    cmdSET s (sumKey now b.unode) (sumAfter s (sumKey now b.unode) b.unode.responseTime) := by
  unfold cmdSETNX sumAfter cmdGET
  cases hs : s (sumKey now b.unode) with
  | none => simp
  | some v => simp [hs]

theorem dataStorageStep_avg (now : Clock) (s : Store) (b : storageBlock)
    (h : b.counterType = ascii "avg") :
    dataStorageStep now s b =
      (match s (countKey b.unode.unType b.unode.unRid) with
      | none =>
        ⟨cmdSET (cmdSET (cmdSET s (sumKey now b.unode)
            (sumAfter s (sumKey now b.unode) b.unode.responseTime))
            (countKey b.unode.unType b.unode.unRid) (.str (Itoa 1)))
            (avgKey b.unode.unType b.unode.unRid) (.str b.unode.responseTime), false⟩
      | some v =>
        match NewFromFloat (respFloat64
            (some (sumAfter s (sumKey now b.unode) b.unode.responseTime))) with
        | none =>
          ⟨cmdSET (cmdSET s (sumKey now b.unode)
            (sumAfter s (sumKey now b.unode) b.unode.responseTime))
            (countKey b.unode.unType b.unode.unRid)
            (.str (Itoa (wrapInt (respInt (some v) + 1)))), true⟩
        | some sumDec =>
          match NewFromFloat (F64.ofInt (wrapInt (respInt (some v) + 1))) with
          | none =>
            ⟨cmdSET (cmdSET s (sumKey now b.unode)
              (sumAfter s (sumKey now b.unode) b.unode.responseTime))
              (countKey b.unode.unType b.unode.unRid)
              (.str (Itoa (wrapInt (respInt (some v) + 1)))), true⟩
          | some countDec =>
            match sumDec.Div countDec with
            | none =>
              ⟨cmdSET (cmdSET s (sumKey now b.unode)
                (sumAfter s (sumKey now b.unode) b.unode.responseTime))
                (countKey b.unode.unType b.unode.unRid)
                (.str (Itoa (wrapInt (respInt (some v) + 1)))), true⟩
            | some div =>
              ⟨cmdSET (cmdSET (cmdSET s (sumKey now b.unode)
                (sumAfter s (sumKey now b.unode) b.unode.responseTime))
                (countKey b.unode.unType b.unode.unRid)
                (.str (Itoa (wrapInt (respInt (some v) + 1)))))
                (avgKey b.unode.unType b.unode.unRid) (.str div.String), false⟩) := by
  unfold dataStorageStep
  rw [if_pos h]
  have hK : ascii "sum_" ++ ascii "day_" ++ getTime now b.unode.unTime (ascii "day")
      ++ b.unode.unType ++ Itoa b.unode.unRid = sumKey now b.unode := rfl
  have hC : ascii "count_" ++ b.unode.unType ++ ascii "_" ++ Itoa b.unode.unRid =
      countKey b.unode.unType b.unode.unRid := rfl
  have hA : ascii "avg_" ++ b.unode.unType ++ ascii "_" ++ Itoa b.unode.unRid =
      avgKey b.unode.unType b.unode.unRid := rfl
  simp only [hK, hC, hA, step_avg_sum_state]
  have hne : countKey b.unode.unType b.unode.unRid ≠ sumKey now b.unode :=
    (sumKey_ne_countKey now b.unode _ _).symm
  simp only [cmdEXIST, cmdGET, cmdSET_same, cmdSET_other _ _ _ _ hne]
  cases hc : s (countKey b.unode.unType b.unode.unRid) with
  | none => simp
  | some v => simp

theorem dataStorageStep_max (now : Clock) (s : Store) (b : storageBlock)
    (h : b.counterType = ascii "max") :
    dataStorageStep now s b =
      (match s (maxKey now b.unode) with
      | none => ⟨cmdSET s (maxKey now b.unode) (.str b.unode.responseTime), false⟩
      | some v =>
        match FloatCompare (.float64 (respFloat64 (some v)))
            (.float64 (ParseFloat b.unode.responseTime).1) with
        | none => ⟨s, true⟩
        | some r =>
          if r.1 = -1 then
            ⟨cmdSET s (maxKey now b.unode) (.float (respFloat64 (some v))), false⟩
          else ⟨s, false⟩) := by
  unfold dataStorageStep
  have h0 : ¬ b.counterType = ascii "avg" := by rw [h]; decide
  rw [if_neg h0, if_pos h]
  have hK : ascii "max_" ++ ascii "day_" ++ getTime now b.unode.unTime (ascii "day")
      ++ b.unode.unType ++ Itoa b.unode.unRid = maxKey now b.unode := rfl
  simp only [hK, cmdEXIST, cmdGET]
  cases hc : s (maxKey now b.unode) with
  | none => simp
  | some v =>
    simp only [one_ne_zero, if_false]
    cases FloatCompare (.float64 (respFloat64 (some v)))
        (.float64 (ParseFloat b.unode.responseTime).1) with
    | none => rfl
    | some r => rfl

theorem dataStorageStep_other (now : Clock) (s : Store) (b : storageBlock)
    (h0 : b.counterType ≠ ascii "avg") (h1 : b.counterType ≠ ascii "max") :
    dataStorageStep now s b = ⟨s, false⟩ := by
  unfold dataStorageStep
  rw [if_neg h0, if_neg h1]

/-- An "avg" request leaves every key but its sum, count and avg key as it was. -/
theorem dataStorageStep_avg_frame (now : Clock) (s : Store) (b : storageBlock)
    (h : b.counterType = ascii "avg") (k : GoString) (h1 : k ≠ sumKey now b.unode)
    (h2 : k ≠ countKey b.unode.unType b.unode.unRid)
    (h3 : k ≠ avgKey b.unode.unType b.unode.unRid) :
    (dataStorageStep now s b).store k = s k := by
  rw [dataStorageStep_avg now s b h]
  split
  · simp only [cmdSET_other _ _ _ _ h1, cmdSET_other _ _ _ _ h2, cmdSET_other _ _ _ _ h3]
  · split
    · simp only [cmdSET_other _ _ _ _ h1, cmdSET_other _ _ _ _ h2]
    · split
      · simp only [cmdSET_other _ _ _ _ h1, cmdSET_other _ _ _ _ h2]
      · split
        · simp only [cmdSET_other _ _ _ _ h1, cmdSET_other _ _ _ _ h2]
        · simp only [cmdSET_other _ _ _ _ h1, cmdSET_other _ _ _ _ h2,
            cmdSET_other _ _ _ _ h3]

/-- A "max" request leaves every key but its max key as it was. -/
theorem dataStorageStep_max_frame (now : Clock) (s : Store) (b : storageBlock)
    (h : b.counterType = ascii "max") (k : GoString) (h1 : k ≠ maxKey now b.unode) :
    (dataStorageStep now s b).store k = s k := by
  rw [dataStorageStep_max now s b h]
  split
  · simp only [cmdSET_other _ _ _ _ h1]
  · split
    · rfl
    · split
      · simp only [cmdSET_other _ _ _ _ h1]
      · rfl

/-- The sum key after an "avg" request. -/
theorem dataStorageStep_avg_sum (now : Clock) (s : Store) (b : storageBlock)
    (h : b.counterType = ascii "avg") :
    (dataStorageStep now s b).store (sumKey now b.unode) =
      some (sumAfter s (sumKey now b.unode) b.unode.responseTime) := by
  have h2 := sumKey_ne_countKey now b.unode b.unode.unType b.unode.unRid
  have h3 := sumKey_ne_avgKey now b.unode b.unode.unType b.unode.unRid
  rw [dataStorageStep_avg now s b h]
  split
  · simp only [cmdSET_other _ _ _ _ h2, cmdSET_other _ _ _ _ h3, cmdSET_same]
  · split
    · simp only [cmdSET_other _ _ _ _ h2, cmdSET_same]
    · split
      · simp only [cmdSET_other _ _ _ _ h2, cmdSET_same]
      · split
        · simp only [cmdSET_other _ _ _ _ h2, cmdSET_same]
        · simp only [cmdSET_other _ _ _ _ h2, cmdSET_other _ _ _ _ h3, cmdSET_same]

theorem getTime_day (now : Clock) (logTime : GoString) (hy : now.year ≤ 9999) :
    getTime now logTime (ascii "day") = dayStamp now := by
  unfold getTime reparse dayStamp Clock.Unix
  have : ¬ now.year > 9999 := by omega
  simp [this]

theorem sumKey_eq_dayStamp (now : Clock) (u : urlNode) (hy : now.year ≤ 9999) :
    sumKey now u = ascii "sum_day_" ++ dayStamp now ++ u.unType ++ Itoa u.unRid := by
  unfold sumKey
  rw [getTime_day now u.unTime hy]
  rfl

theorem maxKey_eq_dayStamp (now : Clock) (u : urlNode) (hy : now.year ≤ 9999) :
    maxKey now u = ascii "max_day_" ++ dayStamp now ++ u.unType ++ Itoa u.unRid := by
  unfold maxKey
  rw [getTime_day now u.unTime hy]
  rfl

/-- C7 (amended). The running sum of an "avg" request is kept under
"sum_day_" ++ day ++ type ++ decimal id, and the running maximum of a "max" request
under "max_day_" ++ day ++ type ++ decimal id, where day is the decimal Unix time of
midnight (UTC) of the wall-clock day and nothing separates day, type and id. An
"avg" request changes no key besides this one and its count and avg keys, a "max"
request no other key. -/
theorem storage_day_keys (now : Clock) (s : Store) (b : storageBlock)
    (hy : now.year ≤ 9999) :
    (b.counterType = ascii "avg" →
      (dataStorageStep now s b).store
          (ascii "sum_day_" ++ dayStamp now ++ b.unode.unType ++ Itoa b.unode.unRid) =
        some (sumAfter s
          (ascii "sum_day_" ++ dayStamp now ++ b.unode.unType ++ Itoa b.unode.unRid)
          b.unode.responseTime) ∧
      ∀ k, k ≠ ascii "sum_day_" ++ dayStamp now ++ b.unode.unType ++ Itoa b.unode.unRid →
        k ≠ countKey b.unode.unType b.unode.unRid →
        k ≠ avgKey b.unode.unType b.unode.unRid →
        (dataStorageStep now s b).store k = s k) ∧
    (b.counterType = ascii "max" →
      (s (ascii "max_day_" ++ dayStamp now ++ b.unode.unType ++ Itoa b.unode.unRid) = none →
        (dataStorageStep now s b).store
            (ascii "max_day_" ++ dayStamp now ++ b.unode.unType ++ Itoa b.unode.unRid) =
          some (.str b.unode.responseTime)) ∧
      ∀ k, k ≠ ascii "max_day_" ++ dayStamp now ++ b.unode.unType ++ Itoa b.unode.unRid →
        (dataStorageStep now s b).store k = s k) := by
  rw [← sumKey_eq_dayStamp now b.unode hy, ← maxKey_eq_dayStamp now b.unode hy]
  refine ⟨fun h => ⟨dataStorageStep_avg_sum now s b h, fun k h1 h2 h3 =>
    dataStorageStep_avg_frame now s b h k h1 h2 h3⟩, fun h => ⟨fun hn => ?_, fun k h1 =>
    dataStorageStep_max_frame now s b h k h1⟩⟩
  rw [dataStorageStep_max now s b h, hn]
  exact cmdSET_same _ _ _

/-- C7 (amended), on 2024-01-01 for the movie 42: the first "avg" request creates
"sum_day_1704067200movie42" and the first "max" request "max_day_1704067200movie42",
each holding the response time. -/
theorem storage_day_keys_witness :
    (dataStorageStep newYear2024 emptyStore (avgBlock (movie42 "10.5"))).store
        (ascii "sum_day_1704067200movie42") = some (.str (ascii "10.5")) ∧
    (dataStorageStep newYear2024 emptyStore (maxBlock (movie42 "10.5"))).store
        (ascii "max_day_1704067200movie42") = some (.str (ascii "10.5")) :=
  ⟨((storage_day_keys newYear2024 emptyStore (avgBlock (movie42 "10.5")) (by decide)).1
      (by decide)).1,
   ((storage_day_keys newYear2024 emptyStore (maxBlock (movie42 "10.5")) (by decide)).2
      (by decide)).1 (by decide)⟩

/-- C7, as stated, fails: on 2024-01-01 an "avg" and a "max" request for the movie
42 leave the keys "sum_day_2024-01-01_movie42" and "max_day_2024-01-01_movie42"
absent; the values are under "sum_day_1704067200movie42" and
"max_day_1704067200movie42". -/
theorem spec_day_keys_counterexample :
    specSumKey newYear2024 (ascii "movie") 42 = ascii "sum_day_2024-01-01_movie42" ∧
    specMaxKey newYear2024 (ascii "movie") 42 = ascii "max_day_2024-01-01_movie42" ∧
    (dataStorageStep newYear2024 emptyStore (avgBlock (movie42 "10.5"))).store
        (specSumKey newYear2024 (ascii "movie") 42) = none ∧
    (dataStorageStep newYear2024 emptyStore (avgBlock (movie42 "10.5"))).store
        (ascii "sum_day_1704067200movie42") = some (.str (ascii "10.5")) ∧
    (dataStorageStep newYear2024 emptyStore (maxBlock (movie42 "10.5"))).store
        (specMaxKey newYear2024 (ascii "movie") 42) = none ∧
    (dataStorageStep newYear2024 emptyStore (maxBlock (movie42 "10.5"))).store
        (ascii "max_day_1704067200movie42") = some (.str (ascii "10.5")) := by
  decide

theorem respInt_Itoa (n : Int) (h1 : -2 ^ 63 ≤ n) (h2 : n < 2 ^ 63) :
    respInt (some (.str (Itoa n))) = n := by
  simp only [respInt, Itoa, ParseInt_FormatInt n h1 h2, if_true]

theorem wrapInt_of_range (n : Int) (h1 : -2 ^ 63 ≤ n) (h2 : n < 2 ^ 63) : wrapInt n = n := by
  unfold wrapInt
  omega

/-- The count key after an "avg" request of its resource. -/
theorem dataStorageStep_avg_count (now : Clock) (s : Store) (b : storageBlock)
    (h : b.counterType = ascii "avg") :
    (dataStorageStep now s b).store (countKey b.unode.unType b.unode.unRid) =
      some (.str (Itoa (match s (countKey b.unode.unType b.unode.unRid) with
        | none => 1
        | some v => wrapInt (respInt (some v) + 1)))) := by
  have h3 := (avgKey_ne_countKey b.unode.unType b.unode.unType b.unode.unRid
    b.unode.unRid).symm
  rw [dataStorageStep_avg now s b h]
  split
  · simp only [cmdSET_other _ _ _ _ h3, cmdSET_same]
  · split
    · simp only [cmdSET_same]
    · split
      · simp only [cmdSET_same]
      · split
        · simp only [cmdSET_same]
        · simp only [cmdSET_other _ _ _ _ h3, cmdSET_same]

theorem dataStorage_cons_ok (r : Clock × storageBlock) (rest : List (Clock × storageBlock))
    (s : Store) (h : (dataStorage (r :: rest) s).panicked = false) :
    (dataStorageStep r.1 s r.2).panicked = false ∧
    dataStorage (r :: rest) s = dataStorage rest (dataStorageStep r.1 s r.2).store := by
  obtain ⟨now, b⟩ := r
  simp only [dataStorage] at h ⊢
  by_cases hp : (dataStorageStep now s b).panicked = true
  · rw [if_pos hp] at h
    rw [h] at hp
    exact absurd hp (by decide)
  · rw [if_neg hp]
    exact ⟨by simpa using hp, rfl⟩

/-- The sum key while `dataStorage` runs over "avg" requests that all use it: from
a state in which the key holds `v`, a run without panic ends with the key holding
`v` itself when there is no request, and otherwise the `float64` obtained by adding
the parsed response times, in order, to the number read from `v`. -/
theorem sum_run (K : GoString) (reqs : List (Clock × storageBlock)) :
    ∀ (s : Store) (v : Val), s K = some v →
      (∀ r ∈ reqs, r.2.counterType = ascii "avg" ∧ sumKey r.1 r.2.unode = K) →
      (dataStorage reqs s).panicked = false →
      (dataStorage reqs s).store K =
        some (if reqs = [] then v else
          .float ((reqs.map (fun r => r.2.unode.responseTime)).foldl
            (fun acc r => F64.add acc (ParseFloat r).1) (respFloat64 (some v)))) := by
  induction reqs with
  | nil =>
    intro s v hs _ _
    simpa [dataStorage] using hs
  | cons r rest ih =>
    intro s v hs hall hrun
    obtain ⟨_, heq⟩ := dataStorage_cons_ok r rest s hrun
    rw [heq] at hrun ⊢
    obtain ⟨havg, hkey⟩ := hall r (List.mem_cons_self _ _)
    have hsum := dataStorageStep_avg_sum r.1 s r.2 havg
    rw [hkey] at hsum
    have hv' : sumAfter s K r.2.unode.responseTime =
        .float (F64.add (respFloat64 (some v)) (ParseFloat r.2.unode.responseTime).1) := by
      simp only [sumAfter, hs]
    rw [hv'] at hsum
    rw [ih _ _ hsum (fun x hx => hall x (List.mem_cons_of_mem _ hx)) hrun]
    by_cases hrest : rest = []
    · subst hrest
      simp
    · simp [hrest, respFloat64]

/-- C10 (amended). For "avg" requests that all map to one sum key, absent at the
start, a run of `dataStorage` without panic ends with that key holding the first
response time as a string when there is one request, and otherwise the `float64`
sum of the response times: the first read back from the store, the later ones
parsed and added in order in binary floating point. -/
theorem sum_after_updates (K : GoString) (first : Clock × storageBlock)
    (reqs : List (Clock × storageBlock)) (s : Store) (h0 : s K = none)
    (hall : ∀ r ∈ first :: reqs, r.2.counterType = ascii "avg" ∧ sumKey r.1 r.2.unode = K)
    (hrun : (dataStorage (first :: reqs) s).panicked = false) :
    (dataStorage (first :: reqs) s).store K =
      some (if reqs = [] then .str first.2.unode.responseTime else
        .float (floatSum first.2.unode.responseTime
          (reqs.map (fun r => r.2.unode.responseTime)))) := by
  obtain ⟨_, heq⟩ := dataStorage_cons_ok first reqs s hrun
  rw [heq] at hrun ⊢
  obtain ⟨havg, hkey⟩ := hall first (List.mem_cons_self _ _)
  have hsum := dataStorageStep_avg_sum first.1 s first.2 havg
  rw [hkey] at hsum
  have hv' : sumAfter s K first.2.unode.responseTime = .str first.2.unode.responseTime := by
    simp only [sumAfter, h0]
  rw [hv'] at hsum
  rw [sum_run K reqs _ _ hsum (fun x hx => hall x (List.mem_cons_of_mem _ hx)) hrun]
  rfl

/-- C10 (amended), on 2024-01-01 for the movie 42 with response times "10.5" and
"20.0": the sum key ends with the float 30.5, that is 61 * 2^-1. -/
theorem sum_after_updates_witness :
    (dataStorage [(newYear2024, avgBlock (movie42 "10.5")),
        (newYear2024, avgBlock (movie42 "20.0"))] emptyStore).store
        (ascii "sum_day_1704067200movie42") = some (.float (.fin 61 (-1))) :=
  sum_after_updates (ascii "sum_day_1704067200movie42")
    (newYear2024, avgBlock (movie42 "10.5")) [(newYear2024, avgBlock (movie42 "20.0"))]
    emptyStore (by decide) (by decide) (by decide)

theorem NewFromFloat_sum_tenth : NewFromFloat (.fin 1351079888211149 (-52)) =
    some ⟨30000000000000004, -17⟩ := by decide

set_option maxRecDepth 100000 in
/-- C10, as stated, fails: with response times "0.1" and "0.2" on one sum key the
value stored is the float 1351079888211149 * 2^-52, which the client prints as
0.30000000000000004, not the decimal sum 0.3. -/
theorem sum_after_updates_counterexample :
    (dataStorage [(newYear2024, avgBlock (movie42 "0.1")),
        (newYear2024, avgBlock (movie42 "0.2"))] emptyStore).panicked = false ∧
    (dataStorage [(newYear2024, avgBlock (movie42 "0.1")),
        (newYear2024, avgBlock (movie42 "0.2"))] emptyStore).store
        (sumKey newYear2024 (movie42 "0.1")) = some (.float (.fin 1351079888211149 (-52))) ∧
    ((dataStorage [(newYear2024, avgBlock (movie42 "0.1")),
        (newYear2024, avgBlock (movie42 "0.2"))] emptyStore).store
        (sumKey newYear2024 (movie42 "0.1"))).bind Val.denotes =
      some ((30000000000000004 : ℚ) / 10 ^ 17) ∧
    ((dataStorage [(newYear2024, avgBlock (movie42 "0.1")),
        (newYear2024, avgBlock (movie42 "0.2"))] emptyStore).store
        (sumKey newYear2024 (movie42 "0.1"))).bind Val.denotes ≠
      some ((1 : ℚ) / 10 + 2 / 10) := by
  have h1 : (dataStorage [(newYear2024, avgBlock (movie42 "0.1")),
        (newYear2024, avgBlock (movie42 "0.2"))] emptyStore).store
        (sumKey newYear2024 (movie42 "0.1")) = some (.float (.fin 1351079888211149 (-52))) := by
    decide
  refine ⟨by decide, h1, ?_, ?_⟩
  · rw [h1]
    simp only [Option.bind, Val.denotes, NewFromFloat_sum_tenth, Option.map]
    norm_num
  · rw [h1]
    simp only [Option.bind, Val.denotes, NewFromFloat_sum_tenth, Option.map]
    norm_num

/-- The avg key after an "avg" request whose count key existed, when the request
ends without panic: the decimal quotient of the sum just stored by the new
count. -/
theorem dataStorageStep_avg_mean (now : Clock) (s : Store) (b : storageBlock) (v : Val)
    (h : b.counterType = ascii "avg")
    (hc : s (countKey b.unode.unType b.unode.unRid) = some v)
    (hp : (dataStorageStep now s b).panicked = false) :
    ∃ m, meanString (respFloat64 (some (sumAfter s (sumKey now b.unode) b.unode.responseTime)))
        (wrapInt (respInt (some v) + 1)) = some m ∧
      (dataStorageStep now s b).store (avgKey b.unode.unType b.unode.unRid) =
        some (.str m) := by
  rw [dataStorageStep_avg now s b h, hc] at hp ⊢
  simp only at hp ⊢
  unfold meanString
  cases h1 : NewFromFloat (respFloat64
      (some (sumAfter s (sumKey now b.unode) b.unode.responseTime))) with
  | none => rw [h1] at hp; simp at hp
  | some sumDec =>
    rw [h1] at hp
    simp only at hp ⊢
    cases h2 : NewFromFloat (F64.ofInt (wrapInt (respInt (some v) + 1))) with
    | none => rw [h2] at hp; simp at hp
    | some countDec =>
      rw [h2] at hp
      simp only at hp ⊢
      cases h3 : sumDec.Div countDec with
      | none => rw [h3] at hp; simp at hp
      | some div =>
        exact ⟨div.String, by simp [Option.bind, h3], cmdSET_same _ _ _⟩

/-- The three keys of a resource while `dataStorage` runs over "avg" requests of
that resource on one sum key: from a state after `n ≥ 1` updates, a run without
panic over further requests ends with the avg key holding the decimal quotient of
the accumulated `float64` sum by the final count. -/
theorem mean_run (K t : GoString) (i : Int) (reqs : List (Clock × storageBlock)) :
    ∀ (s : Store) (v : Val) (n : Nat), s K = some v →
      s (countKey t i) = some (.str (Itoa (n : Int))) → 1 ≤ n →
      (∀ r ∈ reqs, r.2.counterType = ascii "avg" ∧ r.2.unode.unType = t ∧
        r.2.unode.unRid = i ∧ sumKey r.1 r.2.unode = K) →
      (dataStorage reqs s).panicked = false →
      n + reqs.length < 2 ^ 63 → reqs ≠ [] →
      ∃ m, meanString ((reqs.map (fun r => r.2.unode.responseTime)).foldl
            (fun acc r => F64.add acc (ParseFloat r).1) (respFloat64 (some v)))
          ((n + reqs.length : Nat) : Int) = some m ∧
        (dataStorage reqs s).store (avgKey t i) = some (.str m) := by
  induction reqs with
  | nil => intro s v n _ _ _ _ _ _ hne; exact absurd rfl hne
  | cons r rest ih =>
    intro s v n hs hcnt hn hall hrun hlt _
    obtain ⟨hstep, heq⟩ := dataStorage_cons_ok r rest s hrun
    rw [heq] at hrun ⊢
    obtain ⟨havg, ht, hi, hkey⟩ := hall r (List.mem_cons_self _ _)
    simp only [List.length_cons] at hlt
    have hsum := dataStorageStep_avg_sum r.1 s r.2 havg
    have hv' : sumAfter s K r.2.unode.responseTime =
        .float (F64.add (respFloat64 (some v)) (ParseFloat r.2.unode.responseTime).1) := by
      simp only [sumAfter, hs]
    rw [hkey, hv'] at hsum
    have hcount := dataStorageStep_avg_count r.1 s r.2 havg
    rw [ht, hi, hcnt] at hcount
    simp only at hcount
    rw [respInt_Itoa (n : Int) (by omega) (by omega),
      wrapInt_of_range ((n : Int) + 1) (by omega) (by omega)] at hcount
    have hcount' : (dataStorageStep r.1 s r.2).store (countKey t i) =
        some (.str (Itoa ((n + 1 : Nat) : Int))) := by
      rw [hcount]; rfl
    obtain ⟨m, hm, hstore⟩ := dataStorageStep_avg_mean r.1 s r.2 (.str (Itoa (n : Int))) havg
      (by rw [ht, hi]; exact hcnt) hstep
    rw [hkey, hv', respInt_Itoa (n : Int) (by omega) (by omega),
      wrapInt_of_range ((n : Int) + 1) (by omega) (by omega)] at hm
    rw [ht, hi] at hstore
    by_cases hrest : rest = []
    · subst hrest
      refine ⟨m, ?_, ?_⟩
      · simpa [respFloat64] using hm
      · simpa [dataStorage] using hstore
    · obtain ⟨m', hm', hstore'⟩ := ih _ _ (n + 1) hsum hcount' (by omega)
        (fun x hx => hall x (List.mem_cons_of_mem _ hx)) hrun (by omega) hrest
      refine ⟨m', ?_, hstore'⟩
      have e : n + (rest.length + 1) = n + 1 + rest.length := by omega
      simp only [List.map_cons, List.foldl_cons, List.length_cons, e]
      simpa [respFloat64] using hm'

/-- The mean on a store that serves `EXIST` as the existence test. For `k` "avg"
requests of one resource that share one sum key (one wall-clock day), applied
without panic to a store that holds neither that sum key nor the count key of the
resource, the avg key ends with the first response time as a string when `k = 1`,
and otherwise with `meanString S k`: the quotient, rounded at 16 decimal places, by
`k` of the decimal `NewFromFloat` makes of the accumulated `float64` sum `S`, which
is the shortest decimal that converts back to `S` and not the exact value of `S`. -/
theorem mean_after_updates (K t : GoString) (i : Int) (first : Clock × storageBlock)
    (reqs : List (Clock × storageBlock)) (s : Store)
    (hK : s K = none) (hC : s (countKey t i) = none)
    (hall : ∀ r ∈ first :: reqs, r.2.counterType = ascii "avg" ∧ r.2.unode.unType = t ∧
      r.2.unode.unRid = i ∧ sumKey r.1 r.2.unode = K)
    (hrun : (dataStorage (first :: reqs) s).panicked = false)
    (hlen : reqs.length + 1 < 2 ^ 63) :
    (reqs = [] → (dataStorage (first :: reqs) s).store (avgKey t i) =
      some (.str first.2.unode.responseTime)) ∧
    (reqs ≠ [] → ∃ m,
      meanString (floatSum first.2.unode.responseTime
          (reqs.map (fun r => r.2.unode.responseTime)))
        ((reqs.length + 1 : Nat) : Int) = some m ∧
      (dataStorage (first :: reqs) s).store (avgKey t i) = some (.str m)) := by
  obtain ⟨_, heq⟩ := dataStorage_cons_ok first reqs s hrun
  rw [heq] at hrun ⊢
  obtain ⟨havg, ht, hi, hkey⟩ := hall first (List.mem_cons_self _ _)
  have hsum := dataStorageStep_avg_sum first.1 s first.2 havg
  have hv' : sumAfter s K first.2.unode.responseTime = .str first.2.unode.responseTime := by
    simp only [sumAfter, hK]
  rw [hkey, hv'] at hsum
  have hcount := dataStorageStep_avg_count first.1 s first.2 havg
  rw [ht, hi, hC] at hcount
  have havgv : (dataStorageStep first.1 s first.2).store (avgKey t i) =
      some (.str first.2.unode.responseTime) := by
    rw [dataStorageStep_avg first.1 s first.2 havg, ht, hi, hC]
    exact cmdSET_same _ _ _
  constructor
  · intro hnil
    subst hnil
    simpa [dataStorage] using havgv
  · intro hne
    obtain ⟨m, hm, hstore⟩ := mean_run K t i reqs _ _ 1 hsum hcount (le_refl 1)
      (fun x hx => hall x (List.mem_cons_of_mem _ hx)) hrun (by omega) hne
    refine ⟨m, ?_, hstore⟩
    have e : 1 + reqs.length = reqs.length + 1 := by omega
    rw [e] at hm
    exact hm

set_option maxRecDepth 100000 in
/-- The mean on a store that serves `EXIST`, on 2024-01-01 for the movie 42 with
response times "10.5" and "20.0": the avg key ends with "15.25". -/
theorem mean_after_updates_witness :
    ∃ m, meanString (floatSum (ascii "10.5") [ascii "20.0"]) 2 = some m ∧
      (dataStorage [(newYear2024, avgBlock (movie42 "10.5")),
          (newYear2024, avgBlock (movie42 "20.0"))] emptyStore).store
          (ascii "avg_movie_42") = some (.str m) ∧ m = ascii "15.25" := by
  obtain ⟨m, hm, hs⟩ := (mean_after_updates (ascii "sum_day_1704067200movie42") (ascii "movie")
    42 (newYear2024, avgBlock (movie42 "10.5")) [(newYear2024, avgBlock (movie42 "20.0"))]
    emptyStore (by decide) (by decide) (by decide) (by decide) (by decide)).2 (by decide)
  have h2 : meanString (floatSum (ascii "10.5") [ascii "20.0"]) 2 = some (ascii "15.25") := by
    decide
  refine ⟨m, hm, hs, ?_⟩
  have hm' : meanString (floatSum (ascii "10.5") [ascii "20.0"]) 2 = some m := hm
  rw [h2] at hm'
  exact (Option.some.inj hm').symm

theorem NewFromString_mean_big :
    NewFromString (ascii "3333333333333333.3333333333333333") =
      some ⟨33333333333333333333333333333333, -16⟩ := by decide

set_option maxRecDepth 100000 in
/-- On a store that serves `EXIST` the value under the avg key is not the exact
mean either: the response times "10000000000000000", "1", "1" of one
resource on one day leave the mean "3333333333333333.3333333333333333", which is
not (10000000000000000 + 1 + 1) / 3 = 3333333333333334, and the same three updates
in the order "1", "1", "10000000000000000" leave "3333333333333334"; and the
response times "10" on 2024-01-01 and "20" on 2024-01-02 leave the mean "10", the
sum of the second day alone divided by the count of both days. -/
theorem mean_after_updates_counterexample :
    (dataStorage [(newYear2024, avgBlock (movie42 "10000000000000000")),
        (newYear2024, avgBlock (movie42 "1")), (newYear2024, avgBlock (movie42 "1"))]
        emptyStore).panicked = false ∧
    (dataStorage [(newYear2024, avgBlock (movie42 "10000000000000000")),
        (newYear2024, avgBlock (movie42 "1")), (newYear2024, avgBlock (movie42 "1"))]
        emptyStore).store (avgKey (ascii "movie") 42) =
      some (.str (ascii "3333333333333333.3333333333333333")) ∧
    (dataStorage [(newYear2024, avgBlock (movie42 "1")),
        (newYear2024, avgBlock (movie42 "1")),
        (newYear2024, avgBlock (movie42 "10000000000000000"))]
        emptyStore).store (avgKey (ascii "movie") 42) =
      some (.str (ascii "3333333333333334")) ∧
    ((dataStorage [(newYear2024, avgBlock (movie42 "10000000000000000")),
        (newYear2024, avgBlock (movie42 "1")), (newYear2024, avgBlock (movie42 "1"))]
        emptyStore).store (avgKey (ascii "movie") 42)).bind Val.denotes ≠
      some (((10000000000000000 : ℚ) + 1 + 1) / 3) ∧
    (dataStorage [(newYear2024, avgBlock (movie42 "10")),
        (nextDay2024, avgBlock (movie42 "20"))]
        emptyStore).store (avgKey (ascii "movie") 42) = some (.str (ascii "10")) := by
  have h1 : (dataStorage [(newYear2024, avgBlock (movie42 "10000000000000000")),
        (newYear2024, avgBlock (movie42 "1")), (newYear2024, avgBlock (movie42 "1"))]
        emptyStore).store (avgKey (ascii "movie") 42) =
      some (.str (ascii "3333333333333333.3333333333333333")) := by decide
  refine ⟨by decide, h1, by decide, ?_, by decide⟩
  rw [h1]
  simp only [Option.bind, Val.denotes, NewFromString_mean_big, Option.map]
  norm_num

/-- C11. Lazy creation: when the sum, count, avg and max keys of a hit are all
absent, an "avg" request for it ends without panic and leaves the response time
string under the sum key, "1" under the count key and the response time string
under the avg key; a "max" request for it leaves the response time string under the
max key. -/
theorem lazy_creation (now : Clock) (s : Store) (model : GoString) (u : urlNode)
    (hs : s (sumKey now u) = none) (hc : s (countKey u.unType u.unRid) = none)
    (ha : s (avgKey u.unType u.unRid) = none) (hm : s (maxKey now u) = none) :
    ((dataStorageStep now s ⟨ascii "avg", model, u⟩).panicked = false ∧
      (dataStorageStep now s ⟨ascii "avg", model, u⟩).store (sumKey now u) =
        some (.str u.responseTime) ∧
      (dataStorageStep now s ⟨ascii "avg", model, u⟩).store (countKey u.unType u.unRid) =
        some (.str (ascii "1")) ∧
      (dataStorageStep now s ⟨ascii "avg", model, u⟩).store (avgKey u.unType u.unRid) =
        some (.str u.responseTime)) ∧
    ((dataStorageStep now s ⟨ascii "max", model, u⟩).panicked = false ∧
      (dataStorageStep now s ⟨ascii "max", model, u⟩).store (maxKey now u) =
        some (.str u.responseTime)) := by
  have _ := ha
  constructor
  · have h2 := sumKey_ne_countKey now u u.unType u.unRid
    have h3 := sumKey_ne_avgKey now u u.unType u.unRid
    have h4 := (avgKey_ne_countKey u.unType u.unType u.unRid u.unRid).symm
    rw [dataStorageStep_avg now s ⟨ascii "avg", model, u⟩ rfl]
    simp only [hc, sumAfter, hs]
    refine ⟨trivial, ?_, ?_, ?_⟩
    · simp only [cmdSET_other _ _ _ _ h2, cmdSET_other _ _ _ _ h3, cmdSET_same]
    · simp only [cmdSET_other _ _ _ _ h4, cmdSET_same]
      rfl
    · simp only [cmdSET_same]
  · rw [dataStorageStep_max now s ⟨ascii "max", model, u⟩ rfl]
    simp only [hm]
    exact ⟨trivial, cmdSET_same _ _ _⟩

/-- C11, for the movie 42 with response time "10.5" on 2024-01-01 and the empty
store: sum "10.5", count "1", avg "10.5", max "10.5". -/
theorem lazy_creation_witness :
    ((dataStorageStep newYear2024 emptyStore (avgBlock (movie42 "10.5"))).panicked = false ∧
      (dataStorageStep newYear2024 emptyStore (avgBlock (movie42 "10.5"))).store
        (ascii "sum_day_1704067200movie42") = some (.str (ascii "10.5")) ∧
      (dataStorageStep newYear2024 emptyStore (avgBlock (movie42 "10.5"))).store
        (ascii "count_movie_42") = some (.str (ascii "1")) ∧
      (dataStorageStep newYear2024 emptyStore (avgBlock (movie42 "10.5"))).store
        (ascii "avg_movie_42") = some (.str (ascii "10.5"))) ∧
    ((dataStorageStep newYear2024 emptyStore (maxBlock (movie42 "10.5"))).panicked = false ∧
      (dataStorageStep newYear2024 emptyStore (maxBlock (movie42 "10.5"))).store
        (ascii "max_day_1704067200movie42") = some (.str (ascii "10.5"))) :=
  lazy_creation newYear2024 emptyStore (ascii "SET") (movie42 "10.5") (by decide) (by decide)
    (by decide) (by decide)

/-- C12. An "avg" request for a hit of type `T` and id `I` keeps the count under
"count_" ++ T ++ "_" ++ decimal I and, when it ends without panic, the mean under
"avg_" ++ T ++ "_" ++ decimal I; the value left under the count key is the same
whatever the clock reading and the timestamp of the hit. -/
theorem count_avg_key_names (now : Clock) (s : Store) (b : storageBlock)
    (h : b.counterType = ascii "avg") :
    (dataStorageStep now s b).store
        (ascii "count_" ++ b.unode.unType ++ ascii "_" ++ Itoa b.unode.unRid) =
      some (.str (Itoa
        (match s (ascii "count_" ++ b.unode.unType ++ ascii "_" ++ Itoa b.unode.unRid) with
        | none => 1
        | some v => wrapInt (respInt (some v) + 1)))) ∧
    ((dataStorageStep now s b).panicked = false →
      ∃ m, (dataStorageStep now s b).store
        (ascii "avg_" ++ b.unode.unType ++ ascii "_" ++ Itoa b.unode.unRid) = some (.str m)) ∧
    (∀ (now' : Clock) (unTime' : GoString),
      (dataStorageStep now' s
          ⟨b.counterType, b.storageModel,
            ⟨b.unode.unType, b.unode.unRid, b.unode.unUrl, b.unode.responseTime, unTime'⟩⟩).store
          (ascii "count_" ++ b.unode.unType ++ ascii "_" ++ Itoa b.unode.unRid) =
        (dataStorageStep now s b).store
          (ascii "count_" ++ b.unode.unType ++ ascii "_" ++ Itoa b.unode.unRid)) := by
  have hC : ascii "count_" ++ b.unode.unType ++ ascii "_" ++ Itoa b.unode.unRid =
      countKey b.unode.unType b.unode.unRid := rfl
  have hA : ascii "avg_" ++ b.unode.unType ++ ascii "_" ++ Itoa b.unode.unRid =
      avgKey b.unode.unType b.unode.unRid := rfl
  rw [hC, hA]
  refine ⟨dataStorageStep_avg_count now s b h, fun hp => ?_, fun now' unTime' => ?_⟩
  · cases hc : s (countKey b.unode.unType b.unode.unRid) with
    | none =>
      refine ⟨b.unode.responseTime, ?_⟩
      rw [dataStorageStep_avg now s b h, hc]
      exact cmdSET_same _ _ _
    | some v =>
      obtain ⟨m, _, hm⟩ := dataStorageStep_avg_mean now s b v h hc hp
      exact ⟨m, hm⟩
  · rw [dataStorageStep_avg_count now s b h]
    exact dataStorageStep_avg_count now' s _ h

/-- C12, for the movie 42: the first "avg" request creates "count_movie_42" and
"avg_movie_42". -/
theorem count_avg_key_names_witness :
    (dataStorageStep newYear2024 emptyStore (avgBlock (movie42 "10.5"))).store
        (ascii "count_movie_42") = some (.str (ascii "1")) ∧
    ∃ m, (dataStorageStep newYear2024 emptyStore (avgBlock (movie42 "10.5"))).store
        (ascii "avg_movie_42") = some (.str m) :=
  ⟨(count_avg_key_names newYear2024 emptyStore (avgBlock (movie42 "10.5")) (by decide)).1,
   (count_avg_key_names newYear2024 emptyStore (avgBlock (movie42 "10.5")) (by decide)).2.1
     (by decide)⟩

/-- C14. For a fixed clock reading and a fixed `timeType`, `getTime` returns the same
string for every `logTime`; hence the sum key and the max key of a hit do not depend
on the timestamp the hit carries. -/
theorem getTime_ignores_logTime (now : Clock) (timeType logTime logTime' : GoString)
    (u : urlNode) :
    getTime now logTime timeType = getTime now logTime' timeType ∧
    sumKey now ⟨u.unType, u.unRid, u.unUrl, u.responseTime, logTime'⟩ = sumKey now u ∧
    maxKey now ⟨u.unType, u.unRid, u.unUrl, u.responseTime, logTime'⟩ = maxKey now u :=
  ⟨rfl, rfl, rfl⟩

/-- C18. A request changes at most the keys of its own resource: an "avg" request
its sum, count and avg key, a "max" request its max key, and a request of another
kind nothing. -/
theorem dataStorageStep_frame (now : Clock) (s : Store) (b : storageBlock) :
    (b.counterType = ascii "avg" → ∀ k, k ≠ sumKey now b.unode →
      k ≠ countKey b.unode.unType b.unode.unRid → k ≠ avgKey b.unode.unType b.unode.unRid →
      (dataStorageStep now s b).store k = s k) ∧
    (b.counterType = ascii "max" → ∀ k, k ≠ maxKey now b.unode →
      (dataStorageStep now s b).store k = s k) ∧
    (b.counterType ≠ ascii "avg" → b.counterType ≠ ascii "max" →
      (dataStorageStep now s b).store = s) :=
  ⟨fun h k h1 h2 h3 => dataStorageStep_avg_frame now s b h k h1 h2 h3,
   fun h k h1 => dataStorageStep_max_frame now s b h k h1,
   fun h0 h1 => by rw [dataStorageStep_other now s b h0 h1]⟩

/-- C18, on a store that holds the max key of the movie 42: an "avg" request of the
movie leaves that key alone, a "max" request of the list 7 leaves it alone, and a
request of kind "sum" leaves the store as it is. -/
theorem dataStorageStep_frame_witness :
    (dataStorageStep newYear2024
        (cmdSET emptyStore (ascii "max_day_1704067200movie42") (.str (ascii "10.5")))
        (avgBlock (movie42 "20.0"))).store (ascii "max_day_1704067200movie42") =
      some (.str (ascii "10.5")) ∧
    (dataStorageStep newYear2024
        (cmdSET emptyStore (ascii "max_day_1704067200movie42") (.str (ascii "10.5")))
        (maxBlock (list7 "20.0"))).store (ascii "max_day_1704067200movie42") =
      some (.str (ascii "10.5")) ∧
    (dataStorageStep newYear2024
        (cmdSET emptyStore (ascii "max_day_1704067200movie42") (.str (ascii "10.5")))
        ⟨ascii "sum", ascii "SET", movie42 "20.0"⟩).store =
      cmdSET emptyStore (ascii "max_day_1704067200movie42") (.str (ascii "10.5")) :=
  ⟨(dataStorageStep_frame newYear2024 _ (avgBlock (movie42 "20.0"))).1 (by decide) _
      (by decide) (by decide) (by decide),
   (dataStorageStep_frame newYear2024 _ (maxBlock (list7 "20.0"))).2.1 (by decide) _
      (by decide),
   (dataStorageStep_frame newYear2024 _ ⟨ascii "sum", ascii "SET", movie42 "20.0"⟩).2.2
      (by decide) (by decide)⟩

theorem split_at_first_of {α : Type} (p : α → Prop) (a b : α) (l₁ l₂ r₁ r₂ : List α)
    (h₁ : ∀ x ∈ l₁, ¬ p x) (h₂ : ∀ x ∈ l₂, ¬ p x) (ha : p a) (hb : p b)
    (h : l₁ ++ a :: r₁ = l₂ ++ b :: r₂) : l₁ = l₂ ∧ a = b ∧ r₁ = r₂ := by
  induction l₁ generalizing l₂ with
  | nil =>
    cases l₂ with
    | nil => simpa using h
    | cons c cs =>
      simp only [List.nil_append, List.cons_append, List.cons.injEq] at h
      exact absurd (h.1 ▸ ha) (h₂ c (List.mem_cons_self _ _))
  | cons c cs ih =>
    cases l₂ with
    | nil =>
      simp only [List.nil_append, List.cons_append, List.cons.injEq] at h
      exact absurd (h.1 ▸ hb) (h₁ c (List.mem_cons_self _ _))
    | cons d ds =>
      simp only [List.cons_append, List.cons.injEq] at h
      have := ih ds (fun x hx => h₁ x (List.mem_cons_of_mem _ hx))
        (fun x hx => h₂ x (List.mem_cons_of_mem _ hx)) h.2
      exact ⟨by rw [h.1, this.1], this.2⟩

theorem FormatInt_bytes (i : Int) : ∀ c ∈ FormatInt i, ¬ (57 : UInt8) < c := by
  have hd := formatNat_digits i.natAbs
  intro c hc
  unfold FormatInt at hc
  split at hc
  · rcases List.mem_cons.mp hc with h | h
    · subst h; decide
    · exact UInt8.not_lt.mpr (hd c h).2
  · exact UInt8.not_lt.mpr (hd c hc).2

theorem type_id_injective (t t' : GoString) (i i' : Int)
    (ht : t ∈ [ascii "movie", ascii "list", ascii "home"])
    (ht' : t' ∈ [ascii "movie", ascii "list", ascii "home"])
    (h : t ++ Itoa i = t' ++ Itoa i') : t = t' ∧ i = i' := by
  have hne : ∀ x ∈ [ascii "movie", ascii "list", ascii "home"], x ≠ [] := by decide
  have hhead : ∀ x ∈ [ascii "movie", ascii "list", ascii "home"],
      ∀ y ∈ [ascii "movie", ascii "list", ascii "home"], x.head? = y.head? → x = y := by
    decide
  have key : t = t' := by
    apply hhead t ht t' ht'
    have := congrArg List.head? h
    rwa [List.head?_append_of_ne_nil _ (hne t ht),
      List.head?_append_of_ne_nil _ (hne t' ht')] at this
  subst key
  exact ⟨rfl, FormatInt_injective i i' (List.append_cancel_left h)⟩

theorem day_type_id_injective (d d' : Int) (t t' : GoString) (i i' : Int)
    (ht : t ∈ [ascii "movie", ascii "list", ascii "home"])
    (ht' : t' ∈ [ascii "movie", ascii "list", ascii "home"])
    (h : FormatInt d ++ t ++ Itoa i = FormatInt d' ++ t' ++ Itoa i') :
    FormatInt d = FormatInt d' ∧ t = t' ∧ i = i' := by
  have hsplit : ∀ x ∈ [ascii "movie", ascii "list", ascii "home"],
      ∃ a r, x = a :: r ∧ (57 : UInt8) < a := by
    intro x hx
    simp only [List.mem_cons, List.mem_singleton, List.not_mem_nil, or_false] at hx
    rcases hx with rfl | rfl | rfl
    · exact ⟨109, ascii "ovie", rfl, by decide⟩
    · exact ⟨108, ascii "ist", rfl, by decide⟩
    · exact ⟨104, ascii "ome", rfl, by decide⟩
  obtain ⟨a, r, rfl, ha⟩ := hsplit t ht
  obtain ⟨a', r', rfl, ha'⟩ := hsplit t' ht'
  have h' : FormatInt d ++ a :: (r ++ Itoa i) = FormatInt d' ++ a' :: (r' ++ Itoa i') := by
    simpa [List.append_assoc] using h
  obtain ⟨h1, h2, h3⟩ := split_at_first_of (fun c => (57 : UInt8) < c) a a' _ _ _ _
    (FormatInt_bytes d) (FormatInt_bytes d') ha ha' h'
  have h4 : (a :: r) ++ Itoa i = (a' :: r') ++ Itoa i' := by
    simp only [List.cons_append, h2, h3]
  have := type_id_injective _ _ i i' ht ht' h4
  exact ⟨h1, this.1, this.2⟩

theorem getTime_eq_FormatInt (now : Clock) (logTime timeType : GoString) :
    ∃ n : Int, getTime now logTime timeType = FormatInt n := ⟨_, rfl⟩

/-- C19. The keys are free of collisions for the types "movie", "list" and "home":
two hits have the same sum key, or the same max key, only if `getTime` gave the same
day string and they have the same type and id; they have the same count key, or the
same avg key, only if they have the same type and id; and a key of one family is
never a key of another family. -/
theorem keys_collision_free (now now' : Clock) (u u' : urlNode) :
    (u.unType ∈ [ascii "movie", ascii "list", ascii "home"] →
      u'.unType ∈ [ascii "movie", ascii "list", ascii "home"] →
      (sumKey now u = sumKey now' u' →
        getTime now u.unTime (ascii "day") = getTime now' u'.unTime (ascii "day") ∧
        u.unType = u'.unType ∧ u.unRid = u'.unRid) ∧
      (maxKey now u = maxKey now' u' →
        getTime now u.unTime (ascii "day") = getTime now' u'.unTime (ascii "day") ∧
        u.unType = u'.unType ∧ u.unRid = u'.unRid)) ∧
    (countKey u.unType u.unRid = countKey u'.unType u'.unRid →
      u.unType = u'.unType ∧ u.unRid = u'.unRid) ∧
    (avgKey u.unType u.unRid = avgKey u'.unType u'.unRid →
      u.unType = u'.unType ∧ u.unRid = u'.unRid) ∧
    sumKey now u ≠ maxKey now' u' ∧ sumKey now u ≠ countKey u'.unType u'.unRid ∧
    sumKey now u ≠ avgKey u'.unType u'.unRid ∧ maxKey now u ≠ countKey u'.unType u'.unRid ∧
    maxKey now u ≠ avgKey u'.unType u'.unRid ∧
    countKey u.unType u.unRid ≠ avgKey u'.unType u'.unRid := by
  refine ⟨fun ht ht' => ⟨fun h => ?_, fun h => ?_⟩, countKey_injective _ _ _ _,
    avgKey_injective _ _ _ _, (maxKey_ne_sumKey now' now u' u).symm,
    sumKey_ne_countKey now u _ _, sumKey_ne_avgKey now u _ _, maxKey_ne_countKey now u _ _,
    maxKey_ne_avgKey now u _ _, (avgKey_ne_countKey _ _ _ _).symm⟩
  · obtain ⟨d, hd⟩ := getTime_eq_FormatInt now u.unTime (ascii "day")
    obtain ⟨d', hd'⟩ := getTime_eq_FormatInt now' u'.unTime (ascii "day")
    unfold sumKey at h
    rw [hd, hd'] at h ⊢
    have h' : FormatInt d ++ u.unType ++ Itoa u.unRid =
        FormatInt d' ++ u'.unType ++ Itoa u'.unRid := by
      have h2 : (ascii "sum_" ++ ascii "day_") ++ (FormatInt d ++ u.unType ++ Itoa u.unRid) =
          (ascii "sum_" ++ ascii "day_") ++ (FormatInt d' ++ u'.unType ++ Itoa u'.unRid) := by
        simpa [List.append_assoc] using h
      exact List.append_cancel_left h2
    exact day_type_id_injective d d' _ _ _ _ ht ht' h'
  · obtain ⟨d, hd⟩ := getTime_eq_FormatInt now u.unTime (ascii "day")
    obtain ⟨d', hd'⟩ := getTime_eq_FormatInt now' u'.unTime (ascii "day")
    unfold maxKey at h
    rw [hd, hd'] at h ⊢
    have h' : FormatInt d ++ u.unType ++ Itoa u.unRid =
        FormatInt d' ++ u'.unType ++ Itoa u'.unRid := by
      have h2 : (ascii "max_" ++ ascii "day_") ++ (FormatInt d ++ u.unType ++ Itoa u.unRid) =
          (ascii "max_" ++ ascii "day_") ++ (FormatInt d' ++ u'.unType ++ Itoa u'.unRid) := by
        simpa [List.append_assoc] using h
      exact List.append_cancel_left h2
    exact day_type_id_injective d d' _ _ _ _ ht ht' h'

/-- C19, on an example: the sum keys of the movie 42 handled on 2024-01-01 and on
2024-01-02 differ, and so do the max keys of the movie 42 and of the list 7 handled
at the same time. -/
theorem keys_collision_free_witness :
    sumKey newYear2024 (movie42 "10.5") ≠ sumKey nextDay2024 (movie42 "10.5") ∧
    maxKey newYear2024 (movie42 "10.5") ≠ maxKey newYear2024 (list7 "10.5") ∧
    sumKey newYear2024 (movie42 "10.5") = ascii "sum_day_1704067200movie42" ∧
    sumKey nextDay2024 (movie42 "10.5") = ascii "sum_day_1704153600movie42" :=
  ⟨fun h => absurd
      (((keys_collision_free newYear2024 nextDay2024 (movie42 "10.5") (movie42 "10.5")).1
        (by decide) (by decide)).1 h).1 (by decide),
   fun h => absurd
      (((keys_collision_free newYear2024 newYear2024 (movie42 "10.5") (list7 "10.5")).1
        (by decide) (by decide)).2 h).2.1 (by decide),
   by decide, by decide⟩

theorem Decimal.toRat_rescale (d : Decimal) (e : Int) (h : e ≤ d.exp) :
    d.toRat = ((d.value * 10 ^ (d.exp - e).toNat : Int) : ℚ) * (10 : ℚ) ^ e := by
  unfold Decimal.toRat
  have hk : ((d.exp - e).toNat : Int) = d.exp - e := Int.toNat_of_nonneg (by omega)
  have h10 : (10 : ℚ) ≠ 0 := by norm_num
  have : (10 : ℚ) ^ d.exp = (10 : ℚ) ^ (d.exp - e).toNat * (10 : ℚ) ^ e := by
    rw [← zpow_natCast, ← zpow_add₀ h10, hk]
    congr 1; omega
  rw [this]
  push_cast
  ring

theorem Decimal.Cmp_spec (d d2 : Decimal) :
    (d.Cmp d2 = -1 ↔ d.toRat < d2.toRat) ∧ (d.Cmp d2 = 0 ↔ d.toRat = d2.toRat) ∧
    (d.Cmp d2 = 1 ↔ d2.toRat < d.toRat) := by
  have hpos : (0 : ℚ) < (10 : ℚ) ^ (min d.exp d2.exp) := zpow_pos (by norm_num) _
  rw [Decimal.toRat_rescale d (min d.exp d2.exp) (min_le_left _ _),
    Decimal.toRat_rescale d2 (min d.exp d2.exp) (min_le_right _ _)]
  unfold Decimal.Cmp
  simp only
  generalize d.value * 10 ^ (d.exp - min d.exp d2.exp).toNat = a
  generalize d2.value * 10 ^ (d2.exp - min d.exp d2.exp).toNat = b
  have hlt : ((a : ℚ) * (10 : ℚ) ^ (min d.exp d2.exp) < (b : ℚ) * (10 : ℚ) ^ (min d.exp d2.exp))
      ↔ a < b := by
    rw [mul_lt_mul_right hpos]; exact Int.cast_lt
  have hgt : ((b : ℚ) * (10 : ℚ) ^ (min d.exp d2.exp) < (a : ℚ) * (10 : ℚ) ^ (min d.exp d2.exp))
      ↔ b < a := by
    rw [mul_lt_mul_right hpos]; exact Int.cast_lt
  have heq : ((a : ℚ) * (10 : ℚ) ^ (min d.exp d2.exp) = (b : ℚ) * (10 : ℚ) ^ (min d.exp d2.exp))
      ↔ a = b := by
    rw [mul_left_inj' (ne_of_gt hpos)]; exact Int.cast_inj
  rw [hlt, hgt, heq]
  split_ifs with h1 h2
  · refine ⟨⟨fun _ => h1, fun _ => rfl⟩, ⟨fun h => absurd h (by decide), fun h => by omega⟩,
      ⟨fun h => absurd h (by decide), fun h => by omega⟩⟩
  · refine ⟨⟨fun h => absurd h (by decide), fun h => absurd h h1⟩, ⟨fun _ => h2, fun _ => rfl⟩,
      ⟨fun h => absurd h (by decide), fun h => by omega⟩⟩
  · refine ⟨⟨fun h => absurd h (by decide), fun h => absurd h h1⟩,
      ⟨fun h => absurd h (by decide), fun h => absurd h h2⟩, ⟨fun _ => by omega, fun _ => rfl⟩⟩

theorem Decimal.Cmp_range (d d2 : Decimal) : d.Cmp d2 = -1 ∨ d.Cmp d2 = 0 ∨ d.Cmp d2 = 1 := by
  unfold Decimal.Cmp
  simp only
  split
  · exact Or.inl rfl
  · split
    · exact Or.inr (Or.inl rfl)
    · exact Or.inr (Or.inr rfl)

theorem NewFromFloat_fin (m e : Int) : ∃ d, NewFromFloat (.fin m e) = some d := by
  simp only [NewFromFloat]
  split_ifs <;> exact ⟨_, rfl⟩

theorem Iface.decimal_of_comparable (f : Iface) (h : f.comparable = true) :
    ∃ d, f.decimal = some d := by
  cases f with
  | float64 x =>
    cases x with
    | fin m e => exact NewFromFloat_fin m e
    | inf b => simp [Iface.comparable] at h
    | nan => simp [Iface.comparable] at h
  | string s =>
    simp only [Iface.comparable] at h
    exact Option.isSome_iff_exists.mp h
  | other => simp [Iface.comparable] at h

theorem FloatCompare_of_decimal (f1 f2 : Iface) (d1 d2 : Decimal)
    (h1 : f1.decimal = some d1) (h2 : f2.decimal = some d2) :
    FloatCompare f1 f2 = some (d1.Cmp d2, false) := by
  cases f1 with
  | float64 x =>
    cases f2 with
    | float64 y =>
      simp only [Iface.decimal] at h1 h2
      simp only [FloatCompare, h1, h2]
    | string s =>
      simp only [Iface.decimal] at h1 h2
      simp only [FloatCompare, h1, h2]
    | other => simp [Iface.decimal] at h2
  | string s =>
    cases f2 with
    | float64 y =>
      simp only [Iface.decimal] at h1 h2
      simp only [FloatCompare, h1, h2]
    | string s2 =>
      simp only [Iface.decimal] at h1 h2
      simp only [FloatCompare, h1, h2]
    | other => simp [Iface.decimal] at h2
  | other => simp [Iface.decimal] at h1

/-- C17 (amended). When the `float64` operands are finite, `FloatCompare` returns,
and its error is non-nil exactly when an operand is neither a `float64` nor a string
or is a string that is not a valid decimal literal; `n` is then 2, and when the
error is nil `n` is -1, 0 or 1. -/
theorem FloatCompare_error (f1 f2 : Iface) (h1 : f1.finiteFloat = true)
    (h2 : f2.finiteFloat = true) :
    ∃ n err, FloatCompare f1 f2 = some (n, err) ∧
      (err = true ↔ (f1.unusable = true ∨ f2.unusable = true)) ∧
      (err = true → n = 2) ∧ (err = false → n = -1 ∨ n = 0 ∨ n = 1) := by
  by_cases hb1 : f1.unusable = true
  · refine ⟨2, true, ?_, by simp [hb1], fun _ => rfl, fun h => absurd h (by decide)⟩
    cases f1 with
    | float64 x => simp [Iface.unusable] at hb1
    | string s =>
      simp only [Iface.unusable, Option.isNone_iff_eq_none] at hb1
      simp only [FloatCompare, hb1]
    | other => rfl
  · by_cases hb2 : f2.unusable = true
    · refine ⟨2, true, ?_, by simp [hb2], fun _ => rfl, fun h => absurd h (by decide)⟩
      cases f1 with
      | float64 x =>
        cases x with
        | fin m e =>
          obtain ⟨d, hd⟩ := NewFromFloat_fin m e
          cases f2 with
          | float64 y => simp [Iface.unusable] at hb2
          | string s =>
            simp only [Iface.unusable, Option.isNone_iff_eq_none] at hb2
            simp only [FloatCompare, hd, hb2]
          | other => simp only [FloatCompare, hd]
        | inf b => simp [Iface.finiteFloat] at h1
        | nan => simp [Iface.finiteFloat] at h1
      | string s =>
        simp only [Iface.unusable, Option.isNone_iff_eq_none] at hb1
        obtain ⟨d, hd⟩ := Option.ne_none_iff_exists'.mp hb1
        cases f2 with
        | float64 y => simp [Iface.unusable] at hb2
        | string s2 =>
          simp only [Iface.unusable, Option.isNone_iff_eq_none] at hb2
          simp only [FloatCompare, hd, hb2]
        | other => simp only [FloatCompare, hd]
      | other => simp [Iface.unusable] at hb1
    · have c1 : f1.comparable = true := by
        cases f1 with
        | float64 x =>
          cases x with
          | fin m e => rfl
          | inf b => simp [Iface.finiteFloat] at h1
          | nan => simp [Iface.finiteFloat] at h1
        | string s =>
          cases hs : NewFromString s <;> simp_all [Iface.comparable, Iface.unusable]
        | other => simp [Iface.unusable] at hb1
      have c2 : f2.comparable = true := by
        cases f2 with
        | float64 x =>
          cases x with
          | fin m e => rfl
          | inf b => simp [Iface.finiteFloat] at h2
          | nan => simp [Iface.finiteFloat] at h2
        | string s =>
          cases hs : NewFromString s <;> simp_all [Iface.comparable, Iface.unusable]
        | other => simp [Iface.unusable] at hb2
      obtain ⟨d1, hd1⟩ := Iface.decimal_of_comparable f1 c1
      obtain ⟨d2, hd2⟩ := Iface.decimal_of_comparable f2 c2
      refine ⟨d1.Cmp d2, false, FloatCompare_of_decimal f1 f2 d1 d2 hd1 hd2, ?_,
        fun h => absurd h (by decide), fun _ => Decimal.Cmp_range d1 d2⟩
      simp [hb1, hb2]

/-- C17 (amended), on the operands 1.5 and "abc": the error is non-nil and `n` is 2;
and on 1.5 and "1.50": the error is nil and `n` is 0. -/
theorem FloatCompare_error_witness :
    FloatCompare (.float64 (.fin 3 (-1))) (.string (ascii "abc")) = some (2, true) ∧
    FloatCompare (.float64 (.fin 3 (-1))) (.string (ascii "1.50")) = some (0, false) ∧
    ∃ n err, FloatCompare (.float64 (.fin 3 (-1))) .other = some (n, err) ∧
      (err = true ↔ ((Iface.float64 (.fin 3 (-1))).unusable = true ∨
        Iface.other.unusable = true)) ∧
      (err = true → n = 2) ∧ (err = false → n = -1 ∨ n = 0 ∨ n = 1) :=
  ⟨by decide, by decide, FloatCompare_error (.float64 (.fin 3 (-1))) .other (by decide)
    (by decide)⟩

/-- C17, as stated, fails: with the `float64` operand NaN and an operand that is
neither a `float64` nor a string, `FloatCompare` does not return an error with
`n = 2`; it panics inside `decimal.NewFromFloat`. The same happens with NaN or an
infinity next to a valid operand. -/
theorem FloatCompare_error_counterexample :
    Iface.other.unusable = true ∧
    FloatCompare (.float64 .nan) .other = none ∧
    FloatCompare (.float64 .nan) .other ≠ some (2, true) ∧
    FloatCompare (.string (ascii "1.5")) (.float64 (.inf false)) = none := by
  decide

/-! ### Binary length and normal form -/

theorem bitLenAux_spec (fuel : Nat) : ∀ n, n ≤ fuel → 0 < n →
    2 ^ (bitLenAux fuel n - 1) ≤ n ∧ n < 2 ^ (bitLenAux fuel n) ∧ 0 < bitLenAux fuel n := by
  induction fuel with
  | zero => intro n h1 h2; omega
  | succ f ih =>
    intro n h1 h2
    have hn : n ≠ 0 := by omega
    simp only [bitLenAux, hn, if_false]
    by_cases h : n / 2 = 0
    · have hn1 : n = 1 := by omega
      subst hn1
      have : bitLenAux f (1 / 2) = 0 := by
        cases f <;> simp [bitLenAux]
      rw [this]
      simp
    · have hpos : 0 < n / 2 := Nat.pos_of_ne_zero h
      obtain ⟨a, b, c⟩ := ih (n / 2) (by omega) hpos
      refine ⟨?_, ?_, by omega⟩
      · have e : bitLenAux f (n / 2) + 1 - 1 = (bitLenAux f (n / 2) - 1) + 1 := by omega
        rw [e, pow_succ]
        omega
      · rw [pow_succ]
        omega

theorem bitLen_spec (n : Nat) (h : 0 < n) :
    2 ^ (bitLen n - 1) ≤ n ∧ n < 2 ^ (bitLen n) ∧ 0 < bitLen n :=
  bitLenAux_spec n n (le_refl n) h

theorem bitLen_zero : bitLen 0 = 0 := rfl

/-- The binary length is determined by the two powers of 2 around the number. -/
theorem bitLen_unique (n k : Nat) (h1 : 2 ^ k ≤ n) (h2 : n < 2 ^ (k + 1)) :
    bitLen n = k + 1 := by
  have hn : 0 < n := lt_of_lt_of_le (by positivity) h1
  obtain ⟨a, b, c⟩ := bitLen_spec n hn
  have u1 : k < bitLen n := by
    by_contra hc
    have : 2 ^ bitLen n ≤ 2 ^ k := Nat.pow_le_pow_right (by norm_num) (by omega)
    omega
  have u2 : bitLen n - 1 < k + 1 := by
    by_contra hc
    have : 2 ^ (k + 1) ≤ 2 ^ (bitLen n - 1) := Nat.pow_le_pow_right (by norm_num) (by omega)
    omega
  omega

theorem bitLen_mul_pow (m k : Nat) (h : 0 < m) : bitLen (m * 2 ^ k) = bitLen m + k := by
  obtain ⟨a, b, c⟩ := bitLen_spec m h
  have e : bitLen m + k = (bitLen m - 1 + k) + 1 := by omega
  rw [e]
  apply bitLen_unique
  · rw [pow_add]; exact Nat.mul_le_mul_right _ a
  · have : bitLen m - 1 + k + 1 = bitLen m + k := by omega
    rw [this, pow_add]
    exact Nat.mul_lt_mul_of_lt_of_le b (le_refl _) (by positivity)

theorem bitLen_le_of_le (a b : Nat) (h : a ≤ b) : bitLen a ≤ bitLen b := by
  by_cases ha : a = 0
  · subst ha; simp [bitLen_zero]
  · have hb : 0 < b := by omega
    obtain ⟨a1, a2, a3⟩ := bitLen_spec a (Nat.pos_of_ne_zero ha)
    obtain ⟨b1, b2, b3⟩ := bitLen_spec b hb
    by_contra hc
    have : 2 ^ bitLen b ≤ 2 ^ (bitLen a - 1) := Nat.pow_le_pow_right (by norm_num) (by omega)
    omega

theorem bitLen_le_iff (n k : Nat) : bitLen n ≤ k ↔ n < 2 ^ k := by
  by_cases hn : n = 0
  · subst hn; simp [bitLen_zero]
  · obtain ⟨a, b, c⟩ := bitLen_spec n (Nat.pos_of_ne_zero hn)
    constructor
    · intro h
      exact lt_of_lt_of_le b (Nat.pow_le_pow_right (by norm_num) h)
    · intro h
      by_contra hc
      have : 2 ^ k ≤ 2 ^ (bitLen n - 1) := Nat.pow_le_pow_right (by norm_num) (by omega)
      omega

/-- `normAux` keeps the value `m * 2^e`. -/
theorem normAux_value (fuel m : Nat) (e : Int) :
    ((normAux fuel m e).1 : ℚ) * (2 : ℚ) ^ (normAux fuel m e).2 = (m : ℚ) * (2 : ℚ) ^ e := by
  induction fuel generalizing m e with
  | zero => rfl
  | succ f ih =>
    simp only [normAux]
    split
    · next h =>
      rw [ih]
      have hm : m = 2 * (m / 2) := by omega
      conv_rhs => rw [hm]
      rw [zpow_add₀ (by norm_num : (2 : ℚ) ≠ 0)]
      push_cast
      ring
    · rfl

/-- `normAux` strips the factors 2 of `m * 2^k` for odd `m`. -/
theorem normAux_odd_mul (fuel m k : Nat) (e : Int) (hodd : m % 2 = 1) (hf : k ≤ fuel) :
    normAux fuel (m * 2 ^ k) e = (m, e + k) := by
  induction k generalizing fuel e with
  | zero =>
    cases fuel with
    | zero => simp [normAux]
    | succ f =>
      simp only [normAux, pow_zero, mul_one]
      have : ¬ (m % 2 = 0 ∧ m ≠ 0) := by omega
      simp [this]
  | succ k ih =>
    cases fuel with
    | zero => omega
    | succ f =>
      simp only [normAux]
      have h1 : m * 2 ^ (k + 1) % 2 = 0 ∧ m * 2 ^ (k + 1) ≠ 0 := by
        constructor
        · rw [pow_succ, ← mul_assoc]; exact Nat.mul_mod_left _ _
        · have : 0 < m := by omega
          positivity
      rw [if_pos h1]
      have h2 : m * 2 ^ (k + 1) / 2 = m * 2 ^ k := by
        rw [pow_succ, ← mul_assoc]; exact Nat.mul_div_cancel _ (by norm_num)
      rw [h2, ih f (e + 1) (by omega)]
      congr 1
      push_cast
      ring

/-- Any positive number is an odd number times a power of 2. -/
theorem odd_part (n : Nat) (h : 0 < n) : ∃ m k, m % 2 = 1 ∧ n = m * 2 ^ k := by
  induction n using Nat.strong_induction_on with
  | _ n ih =>
    by_cases hodd : n % 2 = 1
    · exact ⟨n, 0, hodd, by simp⟩
    · obtain ⟨m, k, hm, hk⟩ := ih (n / 2) (by omega) (by omega)
      refine ⟨m, k + 1, hm, ?_⟩
      rw [pow_succ, ← mul_assoc, ← hk]
      omega

theorem pow_lt_self_succ (k : Nat) : k < 2 ^ k := Nat.lt_two_pow k

/-! ### Rounding to the nearest integer, ties to even -/

theorem roundHalfEven_spec (n d : Nat) (hd : 0 < d) :
    ((roundHalfEven n d : ℚ) - 1 / 2 ≤ (n : ℚ) / d) ∧
    ((n : ℚ) / d ≤ (roundHalfEven n d : ℚ) + 1 / 2) ∧
    ((n : ℚ) / d = (roundHalfEven n d : ℚ) - 1 / 2 → roundHalfEven n d % 2 = 0) ∧
    ((n : ℚ) / d = (roundHalfEven n d : ℚ) + 1 / 2 → roundHalfEven n d % 2 = 0) := by
  have hdq : (0 : ℚ) < (d : ℚ) := by exact_mod_cast hd
  have hn : (n : ℚ) = (d : ℚ) * ((n / d : Nat) : ℚ) + ((n % d : Nat) : ℚ) := by
    exact_mod_cast (Nat.div_add_mod n d).symm
  have hrem : ((n % d : Nat) : ℚ) < (d : ℚ) := by exact_mod_cast Nat.mod_lt n hd
  have hrem0 : (0 : ℚ) ≤ ((n % d : Nat) : ℚ) := by positivity
  have hy : (n : ℚ) / d = ((n / d : Nat) : ℚ) + ((n % d : Nat) : ℚ) / d := by
    rw [hn]; field_simp; ring
  rw [hy]
  unfold roundHalfEven
  simp only
  by_cases h1 : 2 * (n % d) < d
  · rw [if_pos h1]
    have h1q : 2 * ((n % d : Nat) : ℚ) < (d : ℚ) := by exact_mod_cast h1
    have hf : ((n % d : Nat) : ℚ) / d < 1 / 2 := by
      rw [div_lt_iff₀ hdq]; linarith
    have hf0 : (0 : ℚ) ≤ ((n % d : Nat) : ℚ) / d := by positivity
    refine ⟨by linarith, by linarith, fun h => ?_, fun h => ?_⟩
    · exfalso; linarith
    · exfalso; linarith
  · rw [if_neg h1]
    by_cases h2 : d < 2 * (n % d)
    · rw [if_pos h2]
      have h2q : (d : ℚ) < 2 * ((n % d : Nat) : ℚ) := by exact_mod_cast h2
      have hf : 1 / 2 < ((n % d : Nat) : ℚ) / d := by
        rw [lt_div_iff₀ hdq]; linarith
      have hf1 : ((n % d : Nat) : ℚ) / d < 1 := by
        rw [div_lt_iff₀ hdq]; linarith
      push_cast
      refine ⟨by linarith, by linarith, fun h => ?_, fun h => ?_⟩
      · exfalso; linarith
      · exfalso; linarith
    · rw [if_neg h2]
      have h3 : 2 * (n % d) = d := by omega
      have h3q : 2 * ((n % d : Nat) : ℚ) = (d : ℚ) := by exact_mod_cast h3
      have hf : ((n % d : Nat) : ℚ) / d = 1 / 2 := by
        rw [div_eq_iff (ne_of_gt hdq)]; linarith
      rw [hf]
      by_cases h4 : n / d % 2 = 0
      · rw [if_pos h4]
        refine ⟨by linarith, by linarith, fun _ => h4, fun _ => h4⟩
      · rw [if_neg h4]
        push_cast
        refine ⟨by linarith, by linarith, fun _ => by omega, fun _ => by omega⟩

/-- Rounding to nearest is monotone in the quotient. -/
theorem roundHalfEven_mono (n1 d1 n2 d2 : Nat) (h1 : 0 < d1) (h2 : 0 < d2)
    (h : (n1 : ℚ) / d1 ≤ (n2 : ℚ) / d2) : roundHalfEven n1 d1 ≤ roundHalfEven n2 d2 := by
  obtain ⟨a1, _, c1, _⟩ := roundHalfEven_spec n1 d1 h1
  obtain ⟨_, b2, _, d2'⟩ := roundHalfEven_spec n2 d2 h2
  by_contra hc
  have hlt : roundHalfEven n2 d2 + 1 ≤ roundHalfEven n1 d1 := by omega
  have hltq : (roundHalfEven n2 d2 : ℚ) + 1 ≤ (roundHalfEven n1 d1 : ℚ) := by
    exact_mod_cast hlt
  have e1 : (n1 : ℚ) / d1 = (roundHalfEven n1 d1 : ℚ) - 1 / 2 := by linarith
  have e2 : (n2 : ℚ) / d2 = (roundHalfEven n2 d2 : ℚ) + 1 / 2 := by linarith
  have p1 := c1 e1
  have p2 := d2' e2
  have e3 : (roundHalfEven n1 d1 : ℚ) = (roundHalfEven n2 d2 : ℚ) + 1 := by linarith
  have e4 : roundHalfEven n1 d1 = roundHalfEven n2 d2 + 1 := by exact_mod_cast e3
  omega

theorem roundHalfEven_congr (n1 d1 n2 d2 : Nat) (h1 : 0 < d1) (h2 : 0 < d2)
    (h : (n1 : ℚ) / d1 = (n2 : ℚ) / d2) : roundHalfEven n1 d1 = roundHalfEven n2 d2 :=
  le_antisymm (roundHalfEven_mono n1 d1 n2 d2 h1 h2 (le_of_eq h))
    (roundHalfEven_mono n2 d2 n1 d1 h2 h1 (le_of_eq h.symm))

theorem roundHalfEven_nat (k : Nat) : roundHalfEven k 1 = k := by
  simp [roundHalfEven, Nat.mod_one]

/-- Rounding an exact integer quotient returns it. -/
theorem roundHalfEven_exact (n d k : Nat) (hd : 0 < d) (h : (n : ℚ) / d = (k : ℚ)) :
    roundHalfEven n d = k := by
  rw [roundHalfEven_congr n d k 1 hd (by norm_num) (by simpa using h), roundHalfEven_nat]

theorem roundHalfEven_le_of_le (n d k : Nat) (hd : 0 < d) (h : (n : ℚ) / d ≤ (k : ℚ)) :
    roundHalfEven n d ≤ k := by
  have := roundHalfEven_mono n d k 1 hd (by norm_num) (by simpa using h)
  rwa [roundHalfEven_nat] at this

theorem le_roundHalfEven_of_le (n d k : Nat) (hd : 0 < d) (h : (k : ℚ) ≤ (n : ℚ) / d) :
    k ≤ roundHalfEven n d := by
  have := roundHalfEven_mono k 1 n d (by norm_num) hd (by simpa using h)
  rwa [roundHalfEven_nat] at this

theorem roundHalfEven_eq_zero (n d : Nat) (hd : 0 < d) (h : (n : ℚ) / d < 1 / 2) :
    roundHalfEven n d = 0 := by
  obtain ⟨a, _, _, _⟩ := roundHalfEven_spec n d hd
  have : (roundHalfEven n d : ℚ) < 1 := by linarith
  have : roundHalfEven n d < 1 := by exact_mod_cast this
  omega

/-! ### Rounding to `float64` -/

theorem pow_toNat_ratio (b : ℚ) (k : Int) :
    b ^ k.toNat / b ^ (-k).toNat = b ^ k := by
  by_cases h : 0 ≤ k
  · have h1 : (-k).toNat = 0 := by omega
    have h2 : (k.toNat : Int) = k := Int.toNat_of_nonneg h
    rw [h1, pow_zero, div_one, ← zpow_natCast, h2]
  · have h1 : k.toNat = 0 := by omega
    have h2 : ((-k).toNat : Int) = -k := Int.toNat_of_nonneg (by omega)
    rw [h1, pow_zero, one_div, ← zpow_natCast, h2, zpow_neg, inv_inv]

/-- The quotient `(num * b^(-k)) / (den * b^k)` of the scaled terms is
`(num / den) / b^k`. -/
theorem scaled_ratio (b : Nat) (hb : 0 < b) (num den : Nat) (k : Int) :
    ((num * b ^ (-k).toNat : Nat) : ℚ) / ((den * b ^ k.toNat : Nat) : ℚ) =
      ((num : ℚ) / den) / (b : ℚ) ^ k := by
  have hbq : (b : ℚ) ≠ 0 := by exact_mod_cast (Nat.pos_iff_ne_zero.mp hb)
  rw [← pow_toNat_ratio (b : ℚ) k]
  push_cast
  have h1 : (b : ℚ) ^ k.toNat ≠ 0 := pow_ne_zero _ hbq
  have h2 : (b : ℚ) ^ (-k).toNat ≠ 0 := pow_ne_zero _ hbq
  by_cases hden : (den : ℚ) = 0
  · simp [hden]
  · field_simp

theorem lg_exists (num den : Nat) (hn : 0 < num) (hd : 0 < den) :
    (2 : ℚ) ^ ((bitLen num : Int) - (bitLen den : Int) - 1) < (num : ℚ) / den ∧
    (num : ℚ) / den < (2 : ℚ) ^ ((bitLen num : Int) - (bitLen den : Int) + 1) := by
  obtain ⟨a1, a2, a3⟩ := bitLen_spec num hn
  obtain ⟨b1, b2, b3⟩ := bitLen_spec den hd
  have hdq : (0 : ℚ) < (den : ℚ) := by exact_mod_cast hd
  have two : (2 : ℚ) ≠ 0 := by norm_num
  have a1q : (2 : ℚ) ^ ((bitLen num : Int) - 1) ≤ (num : ℚ) := by
    have : ((bitLen num - 1 : Nat) : Int) = (bitLen num : Int) - 1 := by omega
    rw [← this, zpow_natCast]
    exact_mod_cast a1
  have a2q : (num : ℚ) < (2 : ℚ) ^ (bitLen num : Int) := by
    rw [zpow_natCast]; exact_mod_cast a2
  have b1q : (2 : ℚ) ^ ((bitLen den : Int) - 1) ≤ (den : ℚ) := by
    have : ((bitLen den - 1 : Nat) : Int) = (bitLen den : Int) - 1 := by omega
    rw [← this, zpow_natCast]
    exact_mod_cast b1
  have b2q : (den : ℚ) < (2 : ℚ) ^ (bitLen den : Int) := by
    rw [zpow_natCast]; exact_mod_cast b2
  have pd : (0 : ℚ) < (2 : ℚ) ^ (bitLen den : Int) := zpow_pos (by norm_num) _
  have pd1 : (0 : ℚ) < (2 : ℚ) ^ ((bitLen den : Int) - 1) := zpow_pos (by norm_num) _
  constructor
  · rw [lt_div_iff₀ hdq]
    have e : (2 : ℚ) ^ ((bitLen num : Int) - (bitLen den : Int) - 1) * (2 : ℚ) ^ (bitLen den : Int)
        = (2 : ℚ) ^ ((bitLen num : Int) - 1) := by
      rw [← zpow_add₀ two]; congr 1; ring
    have p : (0 : ℚ) < (2 : ℚ) ^ ((bitLen num : Int) - (bitLen den : Int) - 1) :=
      zpow_pos (by norm_num) _
    calc (2 : ℚ) ^ ((bitLen num : Int) - (bitLen den : Int) - 1) * (den : ℚ)
        < (2 : ℚ) ^ ((bitLen num : Int) - (bitLen den : Int) - 1) * (2 : ℚ) ^ (bitLen den : Int) :=
          mul_lt_mul_of_pos_left b2q p
      _ = (2 : ℚ) ^ ((bitLen num : Int) - 1) := e
      _ ≤ (num : ℚ) := a1q
  · rw [div_lt_iff₀ hdq]
    have e : (2 : ℚ) ^ ((bitLen num : Int) - (bitLen den : Int) + 1) *
        (2 : ℚ) ^ ((bitLen den : Int) - 1) = (2 : ℚ) ^ (bitLen num : Int) := by
      rw [← zpow_add₀ two]; congr 1; ring
    have p : (0 : ℚ) < (2 : ℚ) ^ ((bitLen num : Int) - (bitLen den : Int) + 1) :=
      zpow_pos (by norm_num) _
    calc (num : ℚ) < (2 : ℚ) ^ (bitLen num : Int) := a2q
      _ = (2 : ℚ) ^ ((bitLen num : Int) - (bitLen den : Int) + 1) *
          (2 : ℚ) ^ ((bitLen den : Int) - 1) := e.symm
      _ ≤ (2 : ℚ) ^ ((bitLen num : Int) - (bitLen den : Int) + 1) * (den : ℚ) :=
          mul_le_mul_of_nonneg_left b1q (le_of_lt p)

theorem ge_test (num den : Nat) (hd : 0 < den) (L : Int) :
    den * 2 ^ L.toNat ≤ num * 2 ^ (-L).toNat ↔ (2 : ℚ) ^ L ≤ (num : ℚ) / den := by
  have hdq : (0 : ℚ) < (den : ℚ) := by exact_mod_cast hd
  have two : (2 : ℚ) ≠ 0 := by norm_num
  have pA : (0 : ℚ) < (2 : ℚ) ^ L.toNat := by positivity
  have pB : (0 : ℚ) < (2 : ℚ) ^ (-L).toNat := by positivity
  rw [← pow_toNat_ratio 2 L, div_le_div_iff₀ pB hdq]
  constructor
  · intro h
    have : ((den * 2 ^ L.toNat : Nat) : ℚ) ≤ ((num * 2 ^ (-L).toNat : Nat) : ℚ) := by
      exact_mod_cast h
    push_cast at this
    linarith
  · intro h
    have : ((den * 2 ^ L.toNat : Nat) : ℚ) ≤ ((num * 2 ^ (-L).toNat : Nat) : ℚ) := by
      push_cast; linarith
    exact_mod_cast this

/-- What `F64.round` computes: with `lg` the binary exponent of the quotient, the
quotient is rounded to a multiple of `2^e`, `e = max (lg - 52) (-1074)`. -/
theorem F64.round_spec (neg : Bool) (num den : Nat) (hn : 0 < num) (hd : 0 < den) :
    ∃ lg : Int, (2 : ℚ) ^ lg ≤ (num : ℚ) / den ∧ (num : ℚ) / den < (2 : ℚ) ^ (lg + 1) ∧
      F64.round neg num den =
        (if (bitLen (roundHalfEven (num * 2 ^ (-(max (lg - 52) (-1074))).toNat)
              (den * 2 ^ (max (lg - 52) (-1074)).toNat)) : Int) + max (lg - 52) (-1074) > 1024
          then .inf neg
          else F64.mk neg (roundHalfEven (num * 2 ^ (-(max (lg - 52) (-1074))).toNat)
              (den * 2 ^ (max (lg - 52) (-1074)).toNat)) (max (lg - 52) (-1074))) := by
  obtain ⟨h1, h2⟩ := lg_exists num den hn hd
  have hne : num ≠ 0 := by omega
  by_cases hge : den * 2 ^ ((bitLen num : Int) - (bitLen den : Int)).toNat ≤
      num * 2 ^ (-((bitLen num : Int) - (bitLen den : Int))).toNat
  · refine ⟨(bitLen num : Int) - (bitLen den : Int), (ge_test num den hd _).mp hge, h2, ?_⟩
    unfold F64.round
    simp only [hne, if_false, hge, decide_True, if_true]
  · refine ⟨(bitLen num : Int) - (bitLen den : Int) - 1, le_of_lt h1, ?_, ?_⟩
    · have := (ge_test num den hd _).not.mp hge
      have e : (bitLen num : Int) - (bitLen den : Int) - 1 + 1 =
          (bitLen num : Int) - (bitLen den : Int) := by ring
      rw [e]
      exact lt_of_not_le this
    · unfold F64.round
      simp only [hne, if_false, hge, decide_False, Bool.false_eq_true]

theorem lg_mono (x y : ℚ) (a b : Int) (h : x ≤ y) (ha : (2 : ℚ) ^ a ≤ x)
    (hb : y < (2 : ℚ) ^ (b + 1)) : a ≤ b := by
  by_contra hc
  have : (2 : ℚ) ^ (b + 1) ≤ (2 : ℚ) ^ a := zpow_le_zpow_right₀ (by norm_num) (by omega)
  linarith

theorem scaled_ratio_two (num den : Nat) (k : Int) :
    ((num * 2 ^ (-k).toNat : Nat) : ℚ) / ((den * 2 ^ k.toNat : Nat) : ℚ) =
      ((num : ℚ) / den) / (2 : ℚ) ^ k := by
  have := scaled_ratio 2 (by norm_num) num den k
  simpa using this

theorem scaled_ratio_ten (num : Nat) (k : Int) :
    ((num * 10 ^ k.toNat : Nat) : ℚ) / ((10 ^ (-k).toNat : Nat) : ℚ) =
      (num : ℚ) * (10 : ℚ) ^ k := by
  have h := pow_toNat_ratio (10 : ℚ) k
  rw [← h]
  push_cast
  ring

theorem mant_le (num den : Nat) (hd : 0 < den) (lg e : Int) (he : lg - 52 ≤ e)
    (hhi : (num : ℚ) / den < (2 : ℚ) ^ (lg + 1)) :
    roundHalfEven (num * 2 ^ (-e).toNat) (den * 2 ^ e.toNat) ≤ 2 ^ 53 := by
  apply roundHalfEven_le_of_le _ _ _ (by positivity)
  rw [scaled_ratio_two, div_le_iff₀ (zpow_pos (by norm_num) _)]
  have two : (2 : ℚ) ≠ 0 := by norm_num
  have h1 : (2 : ℚ) ^ (lg + 1) ≤ (2 : ℚ) ^ ((53 : Int) + e) :=
    zpow_le_zpow_right₀ (by norm_num) (by omega)
  have h2 : (((2 ^ 53 : Nat) : ℚ)) * (2 : ℚ) ^ e = (2 : ℚ) ^ ((53 : Int) + e) := by
    rw [zpow_add₀ two]; norm_num
  rw [h2]
  linarith

theorem mant_ge (num den : Nat) (hd : 0 < den) (lg e : Int) (he : e ≤ lg - 52)
    (hlo : (2 : ℚ) ^ lg ≤ (num : ℚ) / den) :
    2 ^ 52 ≤ roundHalfEven (num * 2 ^ (-e).toNat) (den * 2 ^ e.toNat) := by
  apply le_roundHalfEven_of_le _ _ _ (by positivity)
  rw [scaled_ratio_two, le_div_iff₀ (zpow_pos (by norm_num) _)]
  have two : (2 : ℚ) ≠ 0 := by norm_num
  have h1 : (2 : ℚ) ^ ((52 : Int) + e) ≤ (2 : ℚ) ^ lg :=
    zpow_le_zpow_right₀ (by norm_num) (by omega)
  have h2 : (((2 ^ 52 : Nat) : ℚ)) * (2 : ℚ) ^ e = (2 : ℚ) ^ ((52 : Int) + e) := by
    rw [zpow_add₀ two]; norm_num
  rw [h2]
  linarith

/-- The normal form `F64.mk` builds: the odd part of the mantissa. -/
theorem F64.mk_eq (neg : Bool) (m : Nat) (e : Int) (hm : m ≠ 0) :
    ∃ m1 k : Nat, m1 % 2 = 1 ∧ m = m1 * 2 ^ k ∧
      F64.mk neg m e = .fin (if neg then -(m1 : Int) else (m1 : Int)) (e + k) := by
  obtain ⟨m1, k, hodd, hmk⟩ := odd_part m (Nat.pos_of_ne_zero hm)
  refine ⟨m1, k, hodd, hmk, ?_⟩
  have hk : k ≤ m := by
    have h1 : k < 2 ^ k := pow_lt_self_succ k
    have h2 : 0 < m1 := by omega
    have h3 : 2 ^ k ≤ m1 * 2 ^ k := Nat.le_mul_of_pos_left _ h2
    omega
  have hn : normAux m m e = (m1, e + k) := by
    have := normAux_odd_mul m m1 k e hodd hk
    rw [← hmk] at this
    exact this
  unfold F64.mk
  simp only [hm, if_false, hn]

theorem F64.mk_toRat (neg : Bool) (m : Nat) (e : Int) :
    (F64.mk neg m e).toRat = (if neg then -1 else 1) * ((m : ℚ) * (2 : ℚ) ^ e) := by
  by_cases hm : m = 0
  · subst hm
    simp [F64.mk, F64.toRat]
  · have hv := normAux_value m m e
    unfold F64.mk
    simp only [hm, if_false, F64.toRat]
    cases neg
    · simp only [Bool.false_eq_true, if_false, one_mul]
      rw [← hv]; push_cast; ring
    · simp only [if_true]
      rw [← hv]; push_cast; ring

theorem F64.mk_valid (neg : Bool) (m : Nat) (e : Int) (h1 : m ≤ 2 ^ 53) (h2 : -1074 ≤ e)
    (h3 : (bitLen m : Int) + e ≤ 1024) : (F64.mk neg m e).valid = true := by
  by_cases hm : m = 0
  · subst hm
    simp [F64.mk, F64.valid]
  · obtain ⟨m1, k, hodd, hmk, heq⟩ := F64.mk_eq neg m e hm
    rw [heq]
    have hm1 : 0 < m1 := by omega
    have hbl : bitLen m = bitLen m1 + k := by rw [hmk]; exact bitLen_mul_pow m1 k hm1
    have hlt : m1 < 2 ^ 53 := by
      have h4 : m1 ≤ m1 * 2 ^ k := Nat.le_mul_of_pos_right _ (by positivity)
      have h5 : m1 ≤ 2 ^ 53 := by omega
      rcases Nat.lt_or_ge m1 (2 ^ 53) with h | h
      · exact h
      · have : m1 = 2 ^ 53 := by omega
        rw [this] at hodd
        norm_num at hodd
    have hb : bitLen m1 ≤ 53 := (bitLen_le_iff m1 53).mpr hlt
    have hna : (if neg then -(m1 : Int) else (m1 : Int)).natAbs = m1 := by
      cases neg <;> simp
    have hmod : (if neg then -(m1 : Int) else (m1 : Int)) % 2 = 1 := by
      cases neg
      · simp only [Bool.false_eq_true, if_false]; omega
      · simp only [if_true]; omega
    simp only [F64.valid, hna, decide_eq_true_eq]
    right
    refine ⟨hmod, hb, by omega, by omega⟩

/-- A finite result of `F64.round` is a `float64` in normal form. -/
theorem F64.round_valid (neg : Bool) (num den : Nat) (hd : 0 < den) (m e : Int)
    (h : F64.round neg num den = .fin m e) : (F64.fin m e).valid = true := by
  by_cases hn : num = 0
  · subst hn
    simp only [F64.round, if_true] at h
    rw [← h]; decide
  · obtain ⟨lg, hlo, hhi, heq⟩ := F64.round_spec neg num den (Nat.pos_of_ne_zero hn) hd
    rw [heq] at h
    split_ifs at h with hc
    rw [← h]
    exact F64.mk_valid neg _ _ (mant_le num den hd lg _ (le_max_left _ _) hhi)
      (le_max_right _ _) (by omega)

theorem F64.round_nonneg (num den : Nat) : 0 ≤ (F64.round false num den).toRat := by
  by_cases hn : num = 0
  · simp [F64.round, hn, F64.toRat]
  · simp only [F64.round, hn, if_false]
    split_ifs <;>
      first
      | (simp [F64.toRat]; done)
      | (rw [F64.mk_toRat]
         simp only [Bool.false_eq_true, if_false, one_mul]
         positivity)

/-- Rounding is monotone: a quotient that is not greater has a result that is
not greater, as long as the greater one stays finite. -/
theorem F64.round_mono (n1 d1 n2 d2 : Nat) (hd1 : 0 < d1) (hd2 : 0 < d2)
    (h : (n1 : ℚ) / d1 ≤ (n2 : ℚ) / d2) (m2 e2 : Int)
    (r2 : F64.round false n2 d2 = .fin m2 e2) :
    (F64.round false n1 d1).toRat ≤ (F64.fin m2 e2).toRat := by
  have hd1q : (0 : ℚ) < (d1 : ℚ) := by exact_mod_cast hd1
  have hd2q : (0 : ℚ) < (d2 : ℚ) := by exact_mod_cast hd2
  by_cases hn1 : n1 = 0
  · subst hn1
    rw [← r2]
    simp only [F64.round, if_true, F64.toRat]
    have := F64.round_nonneg n2 d2
    simpa [F64.round, F64.toRat] using this
  have hn1p : 0 < n1 := Nat.pos_of_ne_zero hn1
  have hq1 : (0 : ℚ) < (n1 : ℚ) / d1 := div_pos (by exact_mod_cast hn1p) hd1q
  have hn2p : 0 < n2 := by
    rcases Nat.eq_zero_or_pos n2 with h0 | h0
    · subst h0; simp at h; linarith
    · exact h0
  obtain ⟨lg1, hlo1, hhi1, heq1⟩ := F64.round_spec false n1 d1 hn1p hd1
  obtain ⟨lg2, hlo2, hhi2, heq2⟩ := F64.round_spec false n2 d2 hn2p hd2
  have hlg : lg1 ≤ lg2 := lg_mono _ _ lg1 lg2 h hlo1 hhi2
  rw [heq2] at r2
  split_ifs at r2 with hc2
  rw [← r2, heq1]
  split_ifs with hc1
  · rw [F64.mk_toRat]
    simp only [F64.toRat, Bool.false_eq_true, if_false, one_mul]
    positivity
  rw [F64.mk_toRat, F64.mk_toRat]
  simp only [Bool.false_eq_true, if_false, one_mul]
  have two : (2 : ℚ) ≠ 0 := by norm_num
  rcases eq_or_lt_of_le (max_le_max (sub_le_sub_right hlg 52) (le_refl (-1074 : Int)))
    with he | he
  · rw [← he]
    apply mul_le_mul_of_nonneg_right _ (le_of_lt (zpow_pos (by norm_num) _))
    have := roundHalfEven_mono (n1 * 2 ^ (-(max (lg1 - 52) (-1074))).toNat)
      (d1 * 2 ^ (max (lg1 - 52) (-1074)).toNat)
      (n2 * 2 ^ (-(max (lg1 - 52) (-1074))).toNat)
      (d2 * 2 ^ (max (lg1 - 52) (-1074)).toNat) (by positivity) (by positivity)
      (by
        rw [scaled_ratio_two, scaled_ratio_two]
        exact div_le_div_of_nonneg_right h (le_of_lt (zpow_pos (by norm_num) _)))
    exact_mod_cast this
  · have hE2 : max (lg2 - 52) (-1074) = lg2 - 52 := by
      rcases le_total (lg2 - 52) (-1074) with hh | hh
      · exfalso
        rw [max_eq_right hh] at he
        have := le_max_right (lg1 - 52) (-1074 : Int)
        omega
      · exact max_eq_left hh
    have ha := mant_le n1 d1 hd1 lg1 _ (le_max_left _ (-1074 : Int)) hhi1
    have hb := mant_ge n2 d2 hd2 lg2 (max (lg2 - 52) (-1074)) (by rw [hE2]) hlo2
    have haq : ((roundHalfEven (n1 * 2 ^ (-(max (lg1 - 52) (-1074))).toNat)
        (d1 * 2 ^ (max (lg1 - 52) (-1074)).toNat) : Nat) : ℚ) ≤ (2 : ℚ) ^ (53 : Int) := by
      have : (((2 ^ 53 : Nat) : Nat) : ℚ) = (2 : ℚ) ^ (53 : Int) := by norm_num
      rw [← this]; exact_mod_cast ha
    have hbq : (2 : ℚ) ^ (52 : Int) ≤ ((roundHalfEven (n2 * 2 ^ (-(max (lg2 - 52) (-1074))).toNat)
        (d2 * 2 ^ (max (lg2 - 52) (-1074)).toNat) : Nat) : ℚ) := by
      have : (((2 ^ 52 : Nat) : Nat) : ℚ) = (2 : ℚ) ^ (52 : Int) := by norm_num
      rw [← this]; exact_mod_cast hb
    have p1 : (0 : ℚ) < (2 : ℚ) ^ (max (lg1 - 52) (-1074)) := zpow_pos (by norm_num) _
    have p2 : (0 : ℚ) < (2 : ℚ) ^ (max (lg2 - 52) (-1074)) := zpow_pos (by norm_num) _
    have hstep : (2 : ℚ) ^ (53 : Int) * (2 : ℚ) ^ (max (lg1 - 52) (-1074)) ≤
        (2 : ℚ) ^ (52 : Int) * (2 : ℚ) ^ (max (lg2 - 52) (-1074)) := by
      rw [← zpow_add₀ two, ← zpow_add₀ two]
      exact zpow_le_zpow_right₀ (by norm_num) (by omega)
    calc _ ≤ (2 : ℚ) ^ (53 : Int) * (2 : ℚ) ^ (max (lg1 - 52) (-1074)) :=
          mul_le_mul_of_nonneg_right haq (le_of_lt p1)
      _ ≤ (2 : ℚ) ^ (52 : Int) * (2 : ℚ) ^ (max (lg2 - 52) (-1074)) := hstep
      _ ≤ _ := mul_le_mul_of_nonneg_right hbq (le_of_lt p2)

/-- Rounding is exact on the values of `float64`. -/
theorem F64.round_exact (num den : Nat) (hd : 0 < den) (m : Nat) (e : Int)
    (hm : m % 2 = 1) (hb : bitLen m ≤ 53) (he : -1074 ≤ e)
    (hmax : (bitLen m : Int) + e ≤ 1024)
    (h : (num : ℚ) / den = (m : ℚ) * (2 : ℚ) ^ e) :
    F64.round false num den = .fin (m : Int) e := by
  have hdq : (0 : ℚ) < (den : ℚ) := by exact_mod_cast hd
  have two : (2 : ℚ) ≠ 0 := by norm_num
  have hmp : 0 < m := by omega
  have hnp : 0 < num := by
    rcases Nat.eq_zero_or_pos num with h0 | h0
    · subst h0
      have : (0 : ℚ) < (m : ℚ) * (2 : ℚ) ^ e :=
        mul_pos (by exact_mod_cast hmp) (zpow_pos (by norm_num) _)
      rw [Nat.cast_zero, zero_div] at h
      linarith
    · exact h0
  obtain ⟨lg, hlo, hhi, heq⟩ := F64.round_spec false num den hnp hd
  obtain ⟨b1, b2, b3⟩ := bitLen_spec m hmp
  have pe : (0 : ℚ) < (2 : ℚ) ^ e := zpow_pos (by norm_num) _
  have q1 : (2 : ℚ) ^ ((bitLen m : Int) - 1 + e) ≤ (num : ℚ) / den := by
    rw [h, zpow_add₀ two]
    apply mul_le_mul_of_nonneg_right _ (le_of_lt pe)
    have : ((bitLen m - 1 : Nat) : Int) = (bitLen m : Int) - 1 := by omega
    rw [← this, zpow_natCast]
    exact_mod_cast b1
  have q2 : (num : ℚ) / den < (2 : ℚ) ^ ((bitLen m : Int) - 1 + e + 1) := by
    have e1 : (bitLen m : Int) - 1 + e + 1 = (bitLen m : Int) + e := by ring
    rw [h, e1, zpow_add₀ two]
    apply mul_lt_mul_of_pos_right _ pe
    rw [zpow_natCast]
    exact_mod_cast b2
  have hlg : lg = (bitLen m : Int) - 1 + e :=
    le_antisymm (lg_mono _ _ _ _ (le_refl _) hlo q2) (lg_mono _ _ _ _ (le_refl _) q1 hhi)
  have hE : max (lg - 52) (-1074) ≤ e := max_le (by omega) he
  obtain ⟨j, hj⟩ : ∃ j : Nat, e = max (lg - 52) (-1074) + (j : Int) :=
    ⟨(e - max (lg - 52) (-1074)).toNat, by omega⟩
  have hr : roundHalfEven (num * 2 ^ (-(max (lg - 52) (-1074))).toNat)
      (den * 2 ^ (max (lg - 52) (-1074)).toNat) = m * 2 ^ j := by
    apply roundHalfEven_exact _ _ _ (by positivity)
    rw [scaled_ratio_two, h, div_eq_iff (ne_of_gt (zpow_pos (by norm_num) _))]
    push_cast
    rw [mul_assoc, ← zpow_natCast (2 : ℚ) j, ← zpow_add₀ two]
    congr 2
    omega
  rw [heq, hr]
  have hbl : bitLen (m * 2 ^ j) = bitLen m + j := bitLen_mul_pow m j hmp
  have hc : ¬ ((bitLen (m * 2 ^ j) : Int) + max (lg - 52) (-1074) > 1024) := by
    rw [hbl]; push_cast; omega
  simp only [hc, if_false]
  have hjm : j ≤ m * 2 ^ j := by
    have h1 : j < 2 ^ j := pow_lt_self_succ j
    have h3 : 2 ^ j ≤ m * 2 ^ j := Nat.le_mul_of_pos_left _ hmp
    omega
  have hne : m * 2 ^ j ≠ 0 := by positivity
  unfold F64.mk
  simp only [hne, if_false, normAux_odd_mul (m * 2 ^ j) m j _ hm hjm, Bool.false_eq_true]
  rw [hj]

/-! ### `NewFromFloat` converts back to the float -/

theorem roundHalfEven_cases (n d : Nat) :
    roundHalfEven n d = n / d ∨ roundHalfEven n d = n / d + 1 := by
  unfold roundHalfEven
  simp only
  split_ifs <;> simp

theorem shortestAux_roundsTo (m : Nat) (e dexp : Int) :
    ∀ (fuel p : Nat) (d : Decimal), shortestAux m e dexp fuel p = some d →
      ∃ c : Nat, d.value = (c : Int) ∧ roundsTo c d.exp m e = true := by
  intro fuel
  induction fuel with
  | zero => intro p d h; simp [shortestAux] at h
  | succ fuel ih =>
    intro p d h
    simp only [shortestAux] at h
    split_ifs at h with h1 h2 h3
    · have hd := Option.some.inj h
      subst hd
      rcases roundHalfEven_cases (m * 2 ^ e.toNat * 10 ^ (-(dexp - (p : Int) + 1)).toNat)
        (2 ^ (-e).toNat * 10 ^ (dexp - (p : Int) + 1).toNat) with hc | hc
      · exact ⟨_, rfl, by rw [hc]; exact h1.1⟩
      · exact ⟨_, rfl, by rw [hc]; exact h1.2⟩
    · have hd := Option.some.inj h
      subst hd
      exact ⟨_, rfl, h2⟩
    · have hd := Option.some.inj h
      subst hd
      exact ⟨_, rfl, h3⟩
    · exact ih _ _ h

theorem F64.mk_odd (m : Nat) (e : Int) (hm : m % 2 = 1) :
    F64.mk false m e = .fin (m : Int) e := by
  have h := normAux_odd_mul m m 0 e hm (Nat.zero_le _)
  simp only [pow_zero, mul_one, Nat.cast_zero, add_zero] at h
  have hne : m ≠ 0 := by omega
  simp [F64.mk, hne, h]

theorem exact_roundsTo (m : Nat) (e : Int) (hm : m % 2 = 1) (hb : bitLen m ≤ 53)
    (he : -1074 ≤ e) (hmax : (bitLen m : Int) + e ≤ 1024) :
    roundsTo (m * 2 ^ e.toNat * 5 ^ (-e).toNat) (min e 0) m e = true := by
  unfold roundsTo
  rw [decide_eq_true_eq, F64.mk_odd m e hm]
  apply F64.round_exact _ _ (by positivity) m e hm hb he hmax
  rw [scaled_ratio_ten]
  have two : (2 : ℚ) ≠ 0 := by norm_num
  have five : (5 : ℚ) ≠ 0 := by norm_num
  rcases le_total 0 e with h | h
  · have h1 : (-e).toNat = 0 := by omega
    have h2 : ((e.toNat : Nat) : Int) = e := Int.toNat_of_nonneg h
    rw [min_eq_right h, h1]
    push_cast
    rw [mul_one, zpow_zero, mul_one, ← zpow_natCast (2 : ℚ), h2]
  · have h1 : e.toNat = 0 := by omega
    have h2 : (((-e).toNat : Nat) : Int) = -e := Int.toNat_of_nonneg (by omega)
    rw [min_eq_left h, h1]
    push_cast
    rw [mul_one, ← zpow_natCast (5 : ℚ), h2]
    have : (10 : ℚ) ^ e = (2 : ℚ) ^ e * (5 : ℚ) ^ e := by
      rw [← mul_zpow]; norm_num
    rw [this, zpow_neg]
    field_simp
    ring

/-- The decimal `NewFromFloat` makes of a positive `float64` in normal form
rounds back to it. -/
theorem NewFromFloat_roundsTo (m : Nat) (e : Int) (hm : m % 2 = 1) (hb : bitLen m ≤ 53)
    (he : -1074 ≤ e) (hmax : (bitLen m : Int) + e ≤ 1024) :
    ∃ (c : Nat) (k : Int), NewFromFloat (.fin (m : Int) e) = some ⟨(c : Int), k⟩ ∧
      F64.round false (c * 10 ^ k.toNat) (10 ^ (-k).toNat) = .fin (m : Int) e := by
  have hne : (m : Int) ≠ 0 := by omega
  have hnn : ¬ ((m : Int) < 0) := by omega
  simp only [NewFromFloat, hne, if_false, hnn, Int.natAbs_ofNat]
  cases hs : shortestAux m e (log10Floor m e) 17 1 with
  | some d =>
    obtain ⟨c, hc, hr⟩ := shortestAux_roundsTo m e _ _ _ d hs
    refine ⟨c, d.exp, ?_, ?_⟩
    · simp only [hc]
    · unfold roundsTo at hr
      rw [decide_eq_true_eq, F64.mk_odd m e hm] at hr
      exact hr
  | none =>
    refine ⟨m * 2 ^ e.toNat * 5 ^ (-e).toNat, min e 0, rfl, ?_⟩
    have hr := exact_roundsTo m e hm hb he hmax
    unfold roundsTo at hr
    rw [decide_eq_true_eq, F64.mk_odd m e hm] at hr
    exact hr

/-! ### `NewFromFloat` keeps the order -/

theorem odd_pow_inj (m1 m2 : Nat) (e1 e2 : Int) (h1 : m1 % 2 = 1)
    (hle : e1 ≤ e2) (h : (m1 : ℚ) * (2 : ℚ) ^ e1 = (m2 : ℚ) * (2 : ℚ) ^ e2) :
    m1 = m2 ∧ e1 = e2 := by
  have two : (2 : ℚ) ≠ 0 := by norm_num
  obtain ⟨j, hj⟩ : ∃ j : Nat, e2 = e1 + (j : Int) := ⟨(e2 - e1).toNat, by omega⟩
  have hq : (m1 : ℚ) = (m2 : ℚ) * (2 : ℚ) ^ j := by
    have p : (2 : ℚ) ^ e1 ≠ 0 := zpow_ne_zero _ two
    rw [hj, zpow_add₀ two, zpow_natCast] at h
    have : (m1 : ℚ) * (2 : ℚ) ^ e1 = ((m2 : ℚ) * (2 : ℚ) ^ j) * (2 : ℚ) ^ e1 := by
      rw [h]; ring
    exact mul_right_cancel₀ p this
  have hn : m1 = m2 * 2 ^ j := by exact_mod_cast hq
  cases j with
  | zero => simp at hn; exact ⟨hn, by simpa using hj.symm⟩
  | succ j =>
    exfalso
    rw [pow_succ] at hn
    have : m1 = 2 * (m2 * 2 ^ j) := by rw [hn]; ring
    omega

theorem odd_toRat_inj (m1 m2 : Nat) (e1 e2 : Int) (h1 : m1 % 2 = 1) (h2 : m2 % 2 = 1)
    (h : (m1 : ℚ) * (2 : ℚ) ^ e1 = (m2 : ℚ) * (2 : ℚ) ^ e2) : m1 = m2 ∧ e1 = e2 := by
  rcases le_total e1 e2 with hle | hle
  · exact odd_pow_inj m1 m2 e1 e2 h1 hle h
  · obtain ⟨a, b⟩ := odd_pow_inj m2 m1 e2 e1 h2 hle h.symm
    exact ⟨a.symm, b.symm⟩

theorem NewFromFloat_pos_strict (n1 n2 c1 c2 : Nat) (e1 e2 k1 k2 : Int)
    (hm1 : n1 % 2 = 1) (hb1 : bitLen n1 ≤ 53) (he1 : -1074 ≤ e1)
    (hx1 : (bitLen n1 : Int) + e1 ≤ 1024)
    (hm2 : n2 % 2 = 1) (hb2 : bitLen n2 ≤ 53) (he2 : -1074 ≤ e2)
    (hx2 : (bitLen n2 : Int) + e2 ≤ 1024)
    (d1 : NewFromFloat (.fin (n1 : Int) e1) = some ⟨(c1 : Int), k1⟩)
    (d2 : NewFromFloat (.fin (n2 : Int) e2) = some ⟨(c2 : Int), k2⟩)
    (h : (n1 : ℚ) * (2 : ℚ) ^ e1 < (n2 : ℚ) * (2 : ℚ) ^ e2) :
    (c1 : ℚ) * (10 : ℚ) ^ k1 < (c2 : ℚ) * (10 : ℚ) ^ k2 := by
  obtain ⟨a1, j1, da1, r1⟩ := NewFromFloat_roundsTo n1 e1 hm1 hb1 he1 hx1
  obtain ⟨a2, j2, da2, r2⟩ := NewFromFloat_roundsTo n2 e2 hm2 hb2 he2 hx2
  rw [d1] at da1
  rw [d2] at da2
  have q1 := Option.some.inj da1
  have q2 := Option.some.inj da2
  simp only [Decimal.mk.injEq, Nat.cast_inj] at q1 q2
  obtain ⟨rfl, rfl⟩ := q1
  obtain ⟨rfl, rfl⟩ := q2
  by_contra hc
  have hle : (c2 : ℚ) * (10 : ℚ) ^ k2 ≤ (c1 : ℚ) * (10 : ℚ) ^ k1 := le_of_not_lt hc
  have hm := F64.round_mono (c2 * 10 ^ k2.toNat) (10 ^ (-k2).toNat) (c1 * 10 ^ k1.toNat)
    (10 ^ (-k1).toNat) (by positivity) (by positivity)
    (by rw [scaled_ratio_ten, scaled_ratio_ten]; exact hle) _ _ r1
  rw [r2] at hm
  simp only [F64.toRat, Int.cast_natCast] at hm
  linarith

theorem NewFromFloat_pos_mono (n1 n2 c1 c2 : Nat) (e1 e2 k1 k2 : Int)
    (hm1 : n1 % 2 = 1) (hb1 : bitLen n1 ≤ 53) (he1 : -1074 ≤ e1)
    (hx1 : (bitLen n1 : Int) + e1 ≤ 1024)
    (hm2 : n2 % 2 = 1) (hb2 : bitLen n2 ≤ 53) (he2 : -1074 ≤ e2)
    (hx2 : (bitLen n2 : Int) + e2 ≤ 1024)
    (d1 : NewFromFloat (.fin (n1 : Int) e1) = some ⟨(c1 : Int), k1⟩)
    (d2 : NewFromFloat (.fin (n2 : Int) e2) = some ⟨(c2 : Int), k2⟩)
    (h : (n1 : ℚ) * (2 : ℚ) ^ e1 ≤ (n2 : ℚ) * (2 : ℚ) ^ e2) :
    (c1 : ℚ) * (10 : ℚ) ^ k1 ≤ (c2 : ℚ) * (10 : ℚ) ^ k2 := by
  rcases lt_or_eq_of_le h with hlt | heq
  · exact le_of_lt (NewFromFloat_pos_strict n1 n2 c1 c2 e1 e2 k1 k2 hm1 hb1 he1 hx1
      hm2 hb2 he2 hx2 d1 d2 hlt)
  · obtain ⟨rfl, rfl⟩ := odd_toRat_inj n1 n2 e1 e2 hm1 hm2 heq
    rw [d1] at d2
    have q := Option.some.inj d2
    simp only [Decimal.mk.injEq, Nat.cast_inj] at q
    obtain ⟨rfl, rfl⟩ := q
    exact le_refl _

/-- The shape of `NewFromFloat` on a `float64` in normal form: zero, or the sign
of the float applied to the decimal of its magnitude. -/
theorem NewFromFloat_shape (m e : Int) (hv : (F64.fin m e).valid = true) :
    (m = 0 ∧ NewFromFloat (.fin m e) = some ⟨0, 0⟩) ∨
    (∃ (n c : Nat) (k : Int), (m = (n : Int) ∨ m = -(n : Int)) ∧ n % 2 = 1 ∧ bitLen n ≤ 53 ∧
      -1074 ≤ e ∧ (bitLen n : Int) + e ≤ 1024 ∧ 0 < c ∧
      NewFromFloat (.fin (n : Int) e) = some ⟨(c : Int), k⟩ ∧
      NewFromFloat (.fin m e) = some ⟨if m < 0 then -(c : Int) else (c : Int), k⟩) := by
  simp only [F64.valid, decide_eq_true_eq] at hv
  by_cases h0 : m = 0
  · left
    exact ⟨h0, by simp [NewFromFloat, h0]⟩
  · right
    rcases hv with hv | ⟨hodd, hb, he, hx⟩
    · exact absurd hv.1 h0
    have hn : m.natAbs % 2 = 1 := by omega
    obtain ⟨c, k, hd, hr⟩ := NewFromFloat_roundsTo m.natAbs e hn hb he hx
    have hc : 0 < c := by
      rcases Nat.eq_zero_or_pos c with hz | hz
      · subst hz
        simp only [zero_mul, F64.round, if_true] at hr
        have := (F64.fin.injEq _ _ _ _ ▸ hr : (0 : Int) = (m.natAbs : Int) ∧ (0 : Int) = e)
        omega
      · exact hz
    refine ⟨m.natAbs, c, k, by omega, hn, hb, he, hx, hc, hd, ?_⟩
    have hne : ((m.natAbs : Nat) : Int) ≠ 0 := by omega
    have hnn : ¬ (((m.natAbs : Nat) : Int) < 0) := by omega
    simp only [NewFromFloat, hne, if_false, hnn, Int.natAbs_ofNat] at hd
    simp only [NewFromFloat, h0, if_false]
    have hd2 := Option.some.inj hd
    simp only [Decimal.mk.injEq] at hd2
    simp only [hd2.1, hd2.2]

/-- On `float64` values in normal form `NewFromFloat` is defined and keeps the
order, strictly. -/
theorem NewFromFloat_mono (x y : F64) (hx : x.valid = true) (hy : y.valid = true) :
    ∃ dx dy, NewFromFloat x = some dx ∧ NewFromFloat y = some dy ∧
      (x.toRat ≤ y.toRat → dx.toRat ≤ dy.toRat) ∧
      (x.toRat < y.toRat → dx.toRat < dy.toRat) := by
  cases x with
  | inf b => simp [F64.valid] at hx
  | nan => simp [F64.valid] at hx
  | fin m1 e1 =>
  cases y with
  | inf b => simp [F64.valid] at hy
  | nan => simp [F64.valid] at hy
  | fin m2 e2 =>
  have p1 : (0 : ℚ) < (2 : ℚ) ^ e1 := zpow_pos (by norm_num) _
  have p2 : (0 : ℚ) < (2 : ℚ) ^ e2 := zpow_pos (by norm_num) _
  rcases NewFromFloat_shape m1 e1 hx with ⟨z1, s1⟩ |
    ⟨n1, c1, k1, sg1, hm1, hb1, he1, hx1, hc1, da1, s1⟩ <;>
  rcases NewFromFloat_shape m2 e2 hy with ⟨z2, s2⟩ |
    ⟨n2, c2, k2, sg2, hm2, hb2, he2, hx2, hc2, da2, s2⟩
  · refine ⟨_, _, s1, s2, ?_, ?_⟩
    · intro _; simp [Decimal.toRat]
    · intro h; subst z1; subst z2; simp [F64.toRat] at h
  · have q2 : (0 : ℚ) < (10 : ℚ) ^ k2 := zpow_pos (by norm_num) _
    have hn2 : (0 : ℚ) < (n2 : ℚ) := by exact_mod_cast (by omega : 0 < n2)
    have hcq : (0 : ℚ) < (c2 : ℚ) := by exact_mod_cast hc2
    have A := mul_pos hn2 p2
    have B := mul_pos hcq q2
    refine ⟨_, _, s1, s2, ?_, ?_⟩ <;> subst z1 <;> rcases sg2 with rfl | rfl
    · intro _
      have : ¬ ((n2 : Int) < 0) := by omega
      simp only [Decimal.toRat, this, if_false]; push_cast; linarith
    · intro h
      simp only [F64.toRat] at h; push_cast at h; linarith
    · intro _
      have : ¬ ((n2 : Int) < 0) := by omega
      simp only [Decimal.toRat, this, if_false]; push_cast; linarith
    · intro h
      simp only [F64.toRat] at h; push_cast at h; linarith
  · have q1 : (0 : ℚ) < (10 : ℚ) ^ k1 := zpow_pos (by norm_num) _
    have hn1 : (0 : ℚ) < (n1 : ℚ) := by exact_mod_cast (by omega : 0 < n1)
    have hcq : (0 : ℚ) < (c1 : ℚ) := by exact_mod_cast hc1
    have A := mul_pos hn1 p1
    have B := mul_pos hcq q1
    refine ⟨_, _, s1, s2, ?_, ?_⟩ <;> subst z2 <;> rcases sg1 with rfl | rfl
    · intro h
      simp only [F64.toRat] at h; push_cast at h; linarith
    · intro _
      have : (-(n1 : Int) < 0) := by omega
      simp only [Decimal.toRat, this, if_true]; push_cast; linarith
    · intro h
      simp only [F64.toRat] at h; push_cast at h; linarith
    · intro _
      have : (-(n1 : Int) < 0) := by omega
      simp only [Decimal.toRat, this, if_true]; push_cast; linarith
  · have q1 : (0 : ℚ) < (10 : ℚ) ^ k1 := zpow_pos (by norm_num) _
    have hn1 : (0 : ℚ) < (n1 : ℚ) := by exact_mod_cast (by omega : 0 < n1)
    have hcq1 : (0 : ℚ) < (c1 : ℚ) := by exact_mod_cast hc1
    have A1 := mul_pos hn1 p1
    have B1 := mul_pos hcq1 q1
    have q2 : (0 : ℚ) < (10 : ℚ) ^ k2 := zpow_pos (by norm_num) _
    have hn2 : (0 : ℚ) < (n2 : ℚ) := by exact_mod_cast (by omega : 0 < n2)
    have hcq2 : (0 : ℚ) < (c2 : ℚ) := by exact_mod_cast hc2
    have A2 := mul_pos hn2 p2
    have B2 := mul_pos hcq2 q2
    have W12 := NewFromFloat_pos_mono n1 n2 c1 c2 e1 e2 k1 k2 hm1 hb1 he1 hx1 hm2 hb2 he2 hx2
      da1 da2
    have S12 := NewFromFloat_pos_strict n1 n2 c1 c2 e1 e2 k1 k2 hm1 hb1 he1 hx1 hm2 hb2 he2 hx2
      da1 da2
    have W21 := NewFromFloat_pos_mono n2 n1 c2 c1 e2 e1 k2 k1 hm2 hb2 he2 hx2 hm1 hb1 he1 hx1
      da2 da1
    have S21 := NewFromFloat_pos_strict n2 n1 c2 c1 e2 e1 k2 k1 hm2 hb2 he2 hx2 hm1 hb1 he1 hx1
      da2 da1
    have pn1 : ¬ ((n1 : Int) < 0) := by omega
    have pn2 : ¬ ((n2 : Int) < 0) := by omega
    have nn1 : (-(n1 : Int) < 0) := by omega
    have nn2 : (-(n2 : Int) < 0) := by omega
    refine ⟨_, _, s1, s2, ?_, ?_⟩ <;> rcases sg1 with rfl | rfl <;> rcases sg2 with rfl | rfl <;>
      intro h <;>
      simp only [F64.toRat, Decimal.toRat, pn1, pn2, nn1, nn2, if_true, if_false] at h ⊢ <;>
      push_cast at h ⊢
    · exact W12 h
    · linarith
    · linarith
    · have := W21 (by linarith); linarith
    · exact S12 h
    · linarith
    · linarith
    · have := S21 (by linarith); linarith

/-! ### The order `FloatCompare` and the max protocol see -/

theorem ParseFloat_valid (s : GoString) (m e : Int) (h : (ParseFloat s).1 = .fin m e) :
    (F64.fin m e).valid = true := by
  unfold ParseFloat at h
  simp only at h
  split_ifs at h
  cases hp : parseDecimal s with
  | none =>
    rw [hp] at h
    simp only at h
    rw [← h]; decide
  | some r =>
    obtain ⟨neg, mant, ex⟩ := r
    rw [hp] at h
    simp only at h
    cases hr : F64.round neg (mant * 10 ^ ex.toNat) (10 ^ (-ex).toNat) with
    | inf b => rw [hr] at h; simp at h
    | nan => rw [hr] at h; simp only at h; exact absurd h (by simp)
    | fin m1 e1 =>
      rw [hr] at h
      simp only at h
      rw [← h]
      exact F64.round_valid neg _ _ (by positivity) m1 e1 hr

theorem Val.numeric_valid (v : Val) (h : v.numeric = true) :
    (respFloat64 (some v)).valid = true := by
  cases v with
  | float f => exact h
  | str s =>
    simp only [Val.numeric] at h
    simp only [respFloat64]
    cases hp : ParseFloat s with
    | mk f er =>
      rw [hp] at h
      cases f with
      | inf b => simp at h
      | nan => simp at h
      | fin m e =>
        cases er with
        | ok =>
          simp only [if_true]
          exact ParseFloat_valid s m e (by rw [hp])
        | errSyntax => simp at h
        | errRange => simp at h

theorem FloatCompare_floats (x y : F64) (hx : x.valid = true) (hy : y.valid = true) :
    ∃ n, FloatCompare (.float64 x) (.float64 y) = some (n, false) ∧
      (n = -1 ↔ x.toRat < y.toRat) ∧ (n = 0 ↔ x.toRat = y.toRat) ∧
      (n = 1 ↔ y.toRat < x.toRat) := by
  obtain ⟨dx, dy, h1, h2, w1, s1⟩ := NewFromFloat_mono x y hx hy
  obtain ⟨dy', dx', h2', h1', w2, s2⟩ := NewFromFloat_mono y x hy hx
  rw [h2] at h2'
  rw [h1] at h1'
  obtain rfl := Option.some.inj h2'
  obtain rfl := Option.some.inj h1'
  obtain ⟨c1, c2, c3⟩ := Decimal.Cmp_spec dx dy
  refine ⟨dx.Cmp dy, FloatCompare_of_decimal _ _ dx dy h1 h2, ?_, ?_, ?_⟩
  · rw [c1]
    constructor
    · intro h
      by_contra hc
      have := w2 (le_of_not_lt hc)
      linarith
    · exact s1
  · rw [c2]
    constructor
    · intro h
      have a : x.toRat ≤ y.toRat := by
        by_contra hc
        have := s2 (lt_of_not_le hc)
        linarith
      have b : y.toRat ≤ x.toRat := by
        by_contra hc
        have := s1 (lt_of_not_le hc)
        linarith
      exact le_antisymm a b
    · intro h
      exact le_antisymm (w1 (le_of_eq h)) (w2 (le_of_eq h.symm))
  · rw [c3]
    constructor
    · intro h
      by_contra hc
      have := w1 (le_of_not_lt hc)
      linarith
    · exact s2

/-- On a store that serves `EXIST` as the existence test, a "max" request whose max
key already holds a numeric value `M`, and whose response time `R` is a number not
greater than `M`, leaves the whole store as it was and does not panic. -/
theorem max_not_greater_frame (now : Clock) (s : Store) (b : storageBlock) (v : Val)
    (hm : b.counterType = ascii "max") (hk : s (maxKey now b.unode) = some v)
    (hv : v.numeric = true) (hr : (Val.str b.unode.responseTime).numeric = true)
    (hle : (ParseFloat b.unode.responseTime).1.toRat ≤ (respFloat64 (some v)).toRat) :
    dataStorageStep now s b = ⟨s, false⟩ := by
  have vM := Val.numeric_valid v hv
  have vR := Val.numeric_valid _ hr
  have hR : respFloat64 (some (.str b.unode.responseTime)) =
      (ParseFloat b.unode.responseTime).1 := by
    simp only [Val.numeric] at hr
    simp only [respFloat64]
    cases hp : ParseFloat b.unode.responseTime with
    | mk f er =>
      rw [hp] at hr
      cases f <;> cases er <;> simp_all
  rw [hR] at vR
  obtain ⟨n, hc, h1, _, _⟩ := FloatCompare_floats _ _ vM vR
  rw [dataStorageStep_max now s b hm, hk]
  simp only [hc]
  have : ¬ (n = -1) := by
    rw [h1]; exact not_lt.mpr hle
  rw [if_neg this]

set_option maxRecDepth 100000 in
/-- On a store that serves `EXIST`: the max key of movie 42 holds "10.5" and a
request with response time "7.25" arrives; the store stays as it was. -/
theorem max_not_greater_frame_witness :
    dataStorageStep newYear2024
      (cmdSET emptyStore (maxKey newYear2024 (movie42 "7.25")) (.str (ascii "10.5")))
      (maxBlock (movie42 "7.25")) =
    ⟨cmdSET emptyStore (maxKey newYear2024 (movie42 "7.25")) (.str (ascii "10.5")), false⟩ :=
  max_not_greater_frame newYear2024
    (cmdSET emptyStore (maxKey newYear2024 (movie42 "7.25")) (.str (ascii "10.5")))
    (maxBlock (movie42 "7.25")) (.str (ascii "10.5")) (by decide) (cmdSET_same _ _ _)
    (by decide) (by decide)
    (by
      have e1 : (ParseFloat (maxBlock (movie42 "7.25")).unode.responseTime).1 = .fin 29 (-2) := by
        decide
      have e2 : respFloat64 (some (.str (ascii "10.5"))) = .fin 21 (-1) := by decide
      rw [e1, e2]
      simp only [F64.toRat]
      norm_num)

/-- C15 (amended). For operands that are finite `float64` values or valid decimal
literals, `FloatCompare` returns a nil error and -1, 0 or 1 as the decimal it makes
of the first operand is less than, equal to or greater than the decimal of the
second; for two `float64` values in normal form this is the order of the floats
themselves. -/
theorem FloatCompare_order (f1 f2 : Iface) (h1 : f1.comparable = true)
    (h2 : f2.comparable = true) :
    ∃ d1 d2 n, f1.decimal = some d1 ∧ f2.decimal = some d2 ∧
      FloatCompare f1 f2 = some (n, false) ∧
      (n = -1 ↔ d1.toRat < d2.toRat) ∧ (n = 0 ↔ d1.toRat = d2.toRat) ∧
      (n = 1 ↔ d2.toRat < d1.toRat) ∧
      (∀ x y, f1 = .float64 x → f2 = .float64 y → x.valid = true → y.valid = true →
        (n = -1 ↔ x.toRat < y.toRat) ∧ (n = 0 ↔ x.toRat = y.toRat) ∧
        (n = 1 ↔ y.toRat < x.toRat)) := by
  obtain ⟨d1, e1⟩ := Iface.decimal_of_comparable f1 h1
  obtain ⟨d2, e2⟩ := Iface.decimal_of_comparable f2 h2
  obtain ⟨c1, c2, c3⟩ := Decimal.Cmp_spec d1 d2
  have hc := FloatCompare_of_decimal f1 f2 d1 d2 e1 e2
  refine ⟨d1, d2, d1.Cmp d2, e1, e2, hc, c1, c2, c3, ?_⟩
  intro x y hx hy vx vy
  obtain ⟨n, hn, r⟩ := FloatCompare_floats x y vx vy
  rw [hx, hy, hn] at hc
  have : n = d1.Cmp d2 := by
    have := Option.some.inj hc
    exact (Prod.mk.inj this).1
  rw [← this]
  exact r

/-- C15 (amended), on an example: the float 10.5 against the literal "10.50", and
against the float 20. -/
theorem FloatCompare_order_witness :
    FloatCompare (.float64 (.fin 21 (-1))) (.string (ascii "10.50")) = some (0, false) ∧
    FloatCompare (.float64 (.fin 21 (-1))) (.float64 (.fin 5 2)) = some (-1, false) ∧
    ∃ d1 d2 n, (Iface.float64 (.fin 21 (-1))).decimal = some d1 ∧
      (Iface.float64 (.fin 5 2)).decimal = some d2 ∧
      FloatCompare (.float64 (.fin 21 (-1))) (.float64 (.fin 5 2)) = some (n, false) ∧
      (n = -1 ↔ d1.toRat < d2.toRat) ∧ (n = 0 ↔ d1.toRat = d2.toRat) ∧
      (n = 1 ↔ d2.toRat < d1.toRat) ∧
      (∀ x y, Iface.float64 (.fin 21 (-1)) = .float64 x → Iface.float64 (.fin 5 2) = .float64 y →
        x.valid = true → y.valid = true →
        (n = -1 ↔ x.toRat < y.toRat) ∧ (n = 0 ↔ x.toRat = y.toRat) ∧
        (n = 1 ↔ y.toRat < x.toRat)) :=
  ⟨by decide, by decide,
   FloatCompare_order (.float64 (.fin 21 (-1))) (.float64 (.fin 5 2)) (by decide) (by decide)⟩

set_option maxRecDepth 100000 in
/-- C15 as stated fails for a float against a string: the `float64` nearest to 0.1
is 3602879701896397 * 2^-55, which is greater than 0.10000000000000000001, yet
`FloatCompare` answers -1, and it answers 0 against the literal "0.1", because the
float is compared as its shortest decimal 0.1. -/
theorem FloatCompare_order_counterexample :
    (ParseFloat (ascii "0.1")).1 = .fin 3602879701896397 (-55) ∧
    (Iface.float64 (.fin 3602879701896397 (-55))).comparable = true ∧
    (Iface.string (ascii "0.10000000000000000001")).comparable = true ∧
    NewFromString (ascii "0.10000000000000000001") = some ⟨10000000000000000001, -20⟩ ∧
    (⟨10000000000000000001, -20⟩ : Decimal).toRat < (F64.fin 3602879701896397 (-55)).toRat ∧
    FloatCompare (.float64 (.fin 3602879701896397 (-55)))
      (.string (ascii "0.10000000000000000001")) = some (-1, false) ∧
    FloatCompare (.float64 (.fin 3602879701896397 (-55))) (.string (ascii "0.1")) =
      some (0, false) := by
  refine ⟨by decide, by decide, by decide, by decide, ?_, by decide, by decide⟩
  simp only [Decimal.toRat, F64.toRat]
  norm_num

theorem maxKey_step_reading (now : Clock) (s : Store) (b : storageBlock) (now1 : Clock)
    (u1 : urlNode) (v : Val) (hk : s (maxKey now1 u1) = some v) :
    (dataStorageStep now s b).store (maxKey now1 u1) = some v ∨
    (dataStorageStep now s b).store (maxKey now1 u1) = some (.float (respFloat64 (some v))) := by
  by_cases ha : b.counterType = ascii "avg"
  · left
    rw [dataStorageStep_avg_frame now s b ha _ (maxKey_ne_sumKey now1 now u1 b.unode)
      (maxKey_ne_countKey now1 u1 _ _) (maxKey_ne_avgKey now1 u1 _ _)]
    exact hk
  · by_cases hm : b.counterType = ascii "max"
    · by_cases hK : maxKey now1 u1 = maxKey now b.unode
      · rw [hK] at hk ⊢
        rw [dataStorageStep_max now s b hm, hk]
        simp only
        split
        · left; exact hk
        · split
          · right; exact cmdSET_same _ _ _
          · left; exact hk
      · left
        rw [dataStorageStep_max_frame now s b hm _ hK]
        exact hk
    · left
      rw [dataStorageStep_other now s b ha hm]
      exact hk

theorem maxKey_step_numeric (now : Clock) (s : Store) (b : storageBlock) (now1 : Clock)
    (u1 : urlNode) (v : Val) (hk : s (maxKey now1 u1) = some v) (hv : v.numeric = true) :
    ∃ v1, (dataStorageStep now s b).store (maxKey now1 u1) = some v1 ∧ v1.numeric = true ∧
      respFloat64 (some v1) = respFloat64 (some v) := by
  rcases maxKey_step_reading now s b now1 u1 v hk with h | h
  · exact ⟨v, h, hv, rfl⟩
  · exact ⟨_, h, Val.numeric_valid v hv, rfl⟩

theorem maxKey_run_numeric (reqs : List (Clock × storageBlock)) (now1 : Clock) (u1 : urlNode) :
    ∀ (s : Store) (v : Val), s (maxKey now1 u1) = some v → v.numeric = true →
      ∃ v1, (dataStorage reqs s).store (maxKey now1 u1) = some v1 ∧ v1.numeric = true ∧
        respFloat64 (some v1) = respFloat64 (some v) := by
  induction reqs with
  | nil => intro s v hk hv; exact ⟨v, hk, hv, rfl⟩
  | cons r rest ih =>
    intro s v hk hv
    obtain ⟨now, b⟩ := r
    obtain ⟨v1, h1, n1, r1⟩ := maxKey_step_numeric now s b now1 u1 v hk hv
    simp only [dataStorage]
    split_ifs with hp
    · exact ⟨v1, h1, n1, r1⟩
    · obtain ⟨v2, h2, n2, r2⟩ := ih _ v1 h1 n1
      exact ⟨v2, h2, n2, r2.trans r1⟩

/-- On a store that serves `EXIST` as the existence test, a max key that holds a
numeric value keeps a numeric value through every run of `dataStorage`, and the
number read from it after a step is never less than the number read before that
step (nor, after the run, less than at the start). -/
theorem max_never_decreases (reqs : List (Clock × storageBlock)) (s : Store) (now : Clock)
    (b : storageBlock) (now1 : Clock) (u1 : urlNode) (v : Val)
    (hk : s (maxKey now1 u1) = some v) (hv : v.numeric = true) :
    ∃ v1 v2, (dataStorage reqs s).store (maxKey now1 u1) = some v1 ∧ v1.numeric = true ∧
      (dataStorageStep now (dataStorage reqs s).store b).store (maxKey now1 u1) = some v2 ∧
      v2.numeric = true ∧
      (respFloat64 (some v)).toRat ≤ (respFloat64 (some v1)).toRat ∧
      (respFloat64 (some v1)).toRat ≤ (respFloat64 (some v2)).toRat := by
  obtain ⟨v1, h1, n1, r1⟩ := maxKey_run_numeric reqs now1 u1 s v hk hv
  obtain ⟨v2, h2, n2, r2⟩ := maxKey_step_numeric now _ b now1 u1 v1 h1 n1
  exact ⟨v1, v2, h1, n1, h2, n2, le_of_eq (by rw [r1]), le_of_eq (by rw [r2])⟩

set_option maxRecDepth 100000 in
/-- On a store that serves `EXIST`: the max key of movie 42 holds "10.5"; after a
request with response time "20.0" and then one with "7.25" it reads 10.5, not less
than before. -/
theorem max_never_decreases_witness :
    respFloat64 ((dataStorageStep newYear2024
      (dataStorage [(newYear2024, maxBlock (movie42 "20.0"))]
        (cmdSET emptyStore (maxKey newYear2024 (movie42 "")) (.str (ascii "10.5")))).store
      (maxBlock (movie42 "7.25"))).store (maxKey newYear2024 (movie42 ""))) = .fin 21 (-1) ∧
    ∃ v1 v2, (dataStorage [(newYear2024, maxBlock (movie42 "20.0"))]
        (cmdSET emptyStore (maxKey newYear2024 (movie42 "")) (.str (ascii "10.5")))).store
        (maxKey newYear2024 (movie42 "")) = some v1 ∧ v1.numeric = true ∧
      (dataStorageStep newYear2024
        (dataStorage [(newYear2024, maxBlock (movie42 "20.0"))]
          (cmdSET emptyStore (maxKey newYear2024 (movie42 "")) (.str (ascii "10.5")))).store
        (maxBlock (movie42 "7.25"))).store (maxKey newYear2024 (movie42 "")) = some v2 ∧
      v2.numeric = true ∧
      (respFloat64 (some (.str (ascii "10.5")))).toRat ≤ (respFloat64 (some v1)).toRat ∧
      (respFloat64 (some v1)).toRat ≤ (respFloat64 (some v2)).toRat :=
  ⟨by decide,
   max_never_decreases [(newYear2024, maxBlock (movie42 "20.0"))]
    (cmdSET emptyStore (maxKey newYear2024 (movie42 "")) (.str (ascii "10.5")))
    newYear2024 (maxBlock (movie42 "7.25")) newYear2024 (movie42 "") (.str (ascii "10.5"))
    (cmdSET_same _ _ _) (by decide)⟩

/-! ### The loop against a Redis server

The program sends `EXIST`, which is not a command of Redis; with the reading
`cmdEXISTRedis` every iteration takes the branch written for an absent key. -/

theorem dataStorageStepWith_cmdEXIST (now : Clock) (s : Store) (b : storageBlock) :
    dataStorageStepWith cmdEXIST now s b = dataStorageStep now s b := rfl

theorem dataStorageWith_cmdEXIST (reqs : List (Clock × storageBlock)) :
    ∀ s : Store, dataStorageWith cmdEXIST reqs s = dataStorage reqs s := by
  induction reqs with
  | nil => intro s; rfl
  | cons r rest ih =>
    intro s
    obtain ⟨now, b⟩ := r
    simp only [dataStorageWith, dataStorage, dataStorageStepWith_cmdEXIST, ih]

theorem redis_step_max (now : Clock) (s : Store) (b : storageBlock)
    (h : b.counterType = ascii "max") :
    dataStorageStepWith cmdEXISTRedis now s b =
      ⟨cmdSET s (maxKey now b.unode) (.str b.unode.responseTime), false⟩ := by
  unfold dataStorageStepWith
  have h0 : ¬ b.counterType = ascii "avg" := by rw [h]; decide
  rw [if_neg h0, if_pos h]
  simp only [cmdEXISTRedis, if_true]
  rfl

theorem redis_step_avg (now : Clock) (s : Store) (b : storageBlock)
    (h : b.counterType = ascii "avg") :
    ∃ r1 : Store, dataStorageStepWith cmdEXISTRedis now s b =
      ⟨cmdSET (cmdSET r1 (countKey b.unode.unType b.unode.unRid) (.str (ascii "1")))
        (avgKey b.unode.unType b.unode.unRid) (.str b.unode.responseTime), false⟩ := by
  unfold dataStorageStepWith
  rw [if_pos h]
  simp only [cmdEXISTRedis, if_true]
  exact ⟨_, rfl⟩

theorem redis_step_no_panic (now : Clock) (s : Store) (b : storageBlock) :
    (dataStorageStepWith cmdEXISTRedis now s b).panicked = false := by
  by_cases ha : b.counterType = ascii "avg"
  · obtain ⟨r1, hr⟩ := redis_step_avg now s b ha
    rw [hr]
  · by_cases hm : b.counterType = ascii "max"
    · rw [redis_step_max now s b hm]
    · unfold dataStorageStepWith
      rw [if_neg ha, if_neg hm]

theorem redis_run_append (reqs : List (Clock × storageBlock)) (now : Clock)
    (b : storageBlock) :
    ∀ s : Store, dataStorageWith cmdEXISTRedis (reqs ++ [(now, b)]) s =
      dataStorageStepWith cmdEXISTRedis now (dataStorageWith cmdEXISTRedis reqs s).store b := by
  induction reqs with
  | nil =>
    intro s
    have hp := redis_step_no_panic now s b
    simp only [List.nil_append, dataStorageWith, hp, Bool.false_eq_true, if_false]
    cases hs : dataStorageStepWith cmdEXISTRedis now s b with
    | mk st p =>
      rw [hs] at hp
      simp only at hp
      rw [hp]
  | cons r rest ih =>
    intro s
    obtain ⟨now1, b1⟩ := r
    have hp := redis_step_no_panic now1 s b1
    simp only [List.cons_append, dataStorageWith, hp, Bool.false_eq_true, if_false]
    exact ih _

/-- C9 (what the code does against Redis). Whatever requests came before, after an
"avg" request with response time `R` the avg key of its resource holds the string
`R` and the count key holds "1": the reply to `EXIST` reads as 0 each time, so the
count is never raised and no quotient is ever computed. -/
theorem avg_holds_last_on_redis (reqs : List (Clock × storageBlock)) (s : Store)
    (now : Clock) (b : storageBlock) (h : b.counterType = ascii "avg") :
    (dataStorageWith cmdEXISTRedis (reqs ++ [(now, b)]) s).panicked = false ∧
    (dataStorageWith cmdEXISTRedis (reqs ++ [(now, b)]) s).store
        (avgKey b.unode.unType b.unode.unRid) = some (.str b.unode.responseTime) ∧
    (dataStorageWith cmdEXISTRedis (reqs ++ [(now, b)]) s).store
        (countKey b.unode.unType b.unode.unRid) = some (.str (ascii "1")) := by
  rw [redis_run_append reqs now b s]
  obtain ⟨r1, hr⟩ := redis_step_avg now (dataStorageWith cmdEXISTRedis reqs s).store b h
  rw [hr]
  refine ⟨rfl, cmdSET_same _ _ _, ?_⟩
  show cmdSET (cmdSET r1 (countKey b.unode.unType b.unode.unRid) (Val.str (ascii "1")))
    (avgKey b.unode.unType b.unode.unRid) (Val.str b.unode.responseTime)
    (countKey b.unode.unType b.unode.unRid) = some (Val.str (ascii "1"))
  rw [cmdSET_other _ _ _ _ (avgKey_ne_countKey _ _ _ _).symm]
  exact cmdSET_same _ _ _

set_option maxRecDepth 100000 in
/-- C9, at the failing input: the response times "10" and "20" of the movie 42 on
2024-01-01, from the empty store. The sum key holds 30, but the count key holds "1"
and the avg key "20", not the mean 15; in the other order the avg key holds "10". -/
theorem avg_holds_last_on_redis_witness :
    ((dataStorageWith cmdEXISTRedis ([(newYear2024, avgBlock (movie42 "10"))] ++
        [(newYear2024, avgBlock (movie42 "20"))]) emptyStore).panicked = false ∧
      (dataStorageWith cmdEXISTRedis ([(newYear2024, avgBlock (movie42 "10"))] ++
        [(newYear2024, avgBlock (movie42 "20"))]) emptyStore).store
        (avgKey (movie42 "20").unType (movie42 "20").unRid) = some (.str (ascii "20")) ∧
      (dataStorageWith cmdEXISTRedis ([(newYear2024, avgBlock (movie42 "10"))] ++
        [(newYear2024, avgBlock (movie42 "20"))]) emptyStore).store
        (countKey (movie42 "20").unType (movie42 "20").unRid) = some (.str (ascii "1"))) ∧
    avgKey (movie42 "20").unType (movie42 "20").unRid = ascii "avg_movie_42" ∧
    (dataStorageWith cmdEXISTRedis [(newYear2024, avgBlock (movie42 "10")),
        (newYear2024, avgBlock (movie42 "20"))] emptyStore).store
        (ascii "sum_day_1704067200movie42") = some (.float (.fin 15 1)) ∧
    (dataStorageWith cmdEXISTRedis [(newYear2024, avgBlock (movie42 "20")),
        (newYear2024, avgBlock (movie42 "10"))] emptyStore).store
        (ascii "avg_movie_42") = some (.str (ascii "10")) :=
  ⟨avg_holds_last_on_redis [(newYear2024, avgBlock (movie42 "10"))] emptyStore newYear2024
    (avgBlock (movie42 "20")) (by decide), by decide, by decide, by decide⟩

/-- C13 (what the code does against Redis). A "max" request overwrites its max key
with its own response time `R` whatever the key held: when `R` reads as a smaller
number than the value held, the number under the key decreases. -/
theorem max_decreases_on_redis (now : Clock) (s : Store) (b : storageBlock) (v : Val)
    (hm : b.counterType = ascii "max") (hk : s (maxKey now b.unode) = some v)
    (hlt : (respFloat64 (some (.str b.unode.responseTime))).toRat <
      (respFloat64 (some v)).toRat) :
    (dataStorageStepWith cmdEXISTRedis now s b).panicked = false ∧
    (dataStorageStepWith cmdEXISTRedis now s b).store (maxKey now b.unode) =
      some (.str b.unode.responseTime) ∧
    (respFloat64 ((dataStorageStepWith cmdEXISTRedis now s b).store (maxKey now b.unode))).toRat <
      (respFloat64 (s (maxKey now b.unode))).toRat := by
  rw [redis_step_max now s b hm]
  refine ⟨rfl, cmdSET_same _ _ _, ?_⟩
  simp only [cmdSET_same, hk]
  exact hlt

set_option maxRecDepth 100000 in
/-- C13, at the failing input: the max key of the movie 42 holds "10.5" and a
request with response time "7.25" is handled on the same day; the key then holds
"7.25" and reads 7.25 = 29 * 2^-2, less than 10.5 = 21 * 2^-1. -/
theorem max_decreases_on_redis_witness :
    (Val.str (ascii "10.5")).numeric = true ∧ (Val.str (ascii "7.25")).numeric = true ∧
    respFloat64 (some (.str (ascii "10.5"))) = .fin 21 (-1) ∧
    respFloat64 (some (.str (ascii "7.25"))) = .fin 29 (-2) ∧
    (dataStorageStepWith cmdEXISTRedis newYear2024
      (cmdSET emptyStore (maxKey newYear2024 (movie42 "7.25")) (.str (ascii "10.5")))
      (maxBlock (movie42 "7.25"))).panicked = false ∧
    (dataStorageStepWith cmdEXISTRedis newYear2024
      (cmdSET emptyStore (maxKey newYear2024 (movie42 "7.25")) (.str (ascii "10.5")))
      (maxBlock (movie42 "7.25"))).store (maxKey newYear2024 (movie42 "7.25")) =
      some (.str (ascii "7.25")) ∧
    (respFloat64 ((dataStorageStepWith cmdEXISTRedis newYear2024
      (cmdSET emptyStore (maxKey newYear2024 (movie42 "7.25")) (.str (ascii "10.5")))
      (maxBlock (movie42 "7.25"))).store (maxKey newYear2024 (movie42 "7.25")))).toRat <
      (respFloat64 ((cmdSET emptyStore (maxKey newYear2024 (movie42 "7.25"))
        (.str (ascii "10.5"))) (maxKey newYear2024 (movie42 "7.25")))).toRat :=
  ⟨by decide, by decide, by decide, by decide,
   max_decreases_on_redis newYear2024
    (cmdSET emptyStore (maxKey newYear2024 (movie42 "7.25")) (.str (ascii "10.5")))
    (maxBlock (movie42 "7.25")) (.str (ascii "10.5")) (by decide) (cmdSET_same _ _ _)
    (by
      have e1 : respFloat64 (some (.str (maxBlock (movie42 "7.25")).unode.responseTime)) =
          .fin 29 (-2) := by decide
      have e2 : respFloat64 (some (.str (ascii "10.5"))) = .fin 21 (-1) := by decide
      rw [e1, e2]
      simp only [F64.toRat]
      norm_num)⟩

/-- C16 (what the code does against Redis). A "max" request whose max key already
holds a value other than the string of its response time `R` changes the store: it
writes `R` under the key without comparing, also when `R` is not greater than the
value held. -/
theorem max_rewritten_on_redis (now : Clock) (s : Store) (b : storageBlock) (v : Val)
    (hm : b.counterType = ascii "max") (hk : s (maxKey now b.unode) = some v)
    (hne : v ≠ .str b.unode.responseTime) :
    dataStorageStepWith cmdEXISTRedis now s b =
      ⟨cmdSET s (maxKey now b.unode) (.str b.unode.responseTime), false⟩ ∧
    (dataStorageStepWith cmdEXISTRedis now s b).store ≠ s := by
  rw [redis_step_max now s b hm]
  refine ⟨rfl, ?_⟩
  intro heq
  have h1 := congrFun heq (maxKey now b.unode)
  simp only [cmdSET_same, hk] at h1
  exact hne (Option.some.inj h1).symm

set_option maxRecDepth 100000 in
/-- C16, at the failing input: the max key of the movie 42 holds "10.5" and a
request with response time "7.25", which is not greater, is handled; the store
changes, the key now holds "7.25". -/
theorem max_rewritten_on_redis_witness :
    (ParseFloat (ascii "7.25")).1 = .fin 29 (-2) ∧
    respFloat64 (some (.str (ascii "10.5"))) = .fin 21 (-1) ∧
    (F64.fin 29 (-2)).toRat ≤ (F64.fin 21 (-1)).toRat ∧
    (dataStorageStepWith cmdEXISTRedis newYear2024
        (cmdSET emptyStore (maxKey newYear2024 (movie42 "7.25")) (.str (ascii "10.5")))
        (maxBlock (movie42 "7.25")) =
      ⟨cmdSET (cmdSET emptyStore (maxKey newYear2024 (movie42 "7.25")) (.str (ascii "10.5")))
        (maxKey newYear2024 (movie42 "7.25")) (.str (maxBlock (movie42 "7.25")).unode.responseTime),
        false⟩ ∧
    (dataStorageStepWith cmdEXISTRedis newYear2024
        (cmdSET emptyStore (maxKey newYear2024 (movie42 "7.25")) (.str (ascii "10.5")))
        (maxBlock (movie42 "7.25"))).store ≠
      cmdSET emptyStore (maxKey newYear2024 (movie42 "7.25")) (.str (ascii "10.5"))) :=
  ⟨by decide, by decide, by simp only [F64.toRat]; norm_num,
   max_rewritten_on_redis newYear2024
    (cmdSET emptyStore (maxKey newYear2024 (movie42 "7.25")) (.str (ascii "10.5")))
    (maxBlock (movie42 "7.25")) (.str (ascii "10.5")) (by decide) (cmdSET_same _ _ _)
    (by decide)⟩

end LogAnalysis
